import Mathlib

/-!
The skift kernel tasking core: a shallow embedding of
`sources/kernel/sources/tasking.c`.

The kernel keeps its tasking state in global variables (`PID`, `TID`, the
lists `threads`, `processes`, `waiting`, the `running` pointer) and in heap
blocks reached through pointers.  The embedding makes that state explicit:

* a pointer is an address (`Nat`); a pointer that may be `NULL` is an `Option`;
* `thread_t` and `process_t` blocks live in two typed heaps, partial maps from
  addresses to records; `int` cells written through `waitinfo.outcode` live in
  a third map `mem`;
* a `list_t` of pointers is a `List Nat`, head first;
* a C function becomes a function from the state to `Except Halt` of the new
  state and the return value; `Halt.PANIC` is the `PANIC` macro of the kernel and
  `Halt.bad_deref` is a load or store through `NULL` or through a pointer
  that addresses no live block, `Halt.divide_error` an integer division by 0,
  `Halt.page_fault` an access to a page that is not present in the active
  page directory;
* the bytes of memory are indexed by page directory and virtual address
  (`vmem`); `mapped` tells which pages are present in which directory;
* the value that `malloc` or another collaborator hands to a routine is a
  parameter of the routine;
* the calls of `free`, `memory_free_pdir` and `list_free` are kept in logs,
  oldest first, and a block that was freed is no longer live.

`atomic_begin`, `atomic_end` and `log` have no effect on this state and are
left out; constants of headers that are not part of the sources are the
fields of `Config`.
-/

namespace Skift

/-! ## Data model -/

/-- Constants and link-time symbols that `tasking.c` takes from headers
outside the sources: `STACK_SIZE`, the `TASK_USER` flag bit, `PROCNAME_SIZE`,
`sizeof(context_t)`, the address of `__stack_bottom`, the value returned by
`memory_kpdir()` and `PAGE_SIZE`. -/
structure Config where
  STACK_SIZE : Nat
  TASK_USER : Nat
  PROCNAME_SIZE : Nat
  sizeof_context_t : Nat
  stack_bottom : Nat
  memory_kpdir : Nat
  PAGE_SIZE : Nat
deriving DecidableEq, Repr

/-- Ways in which a kernel routine stops instead of returning. -/
inductive Halt where
  | PANIC
  | bad_deref
  | divide_error
  | page_fault
deriving DecidableEq, Repr

/-- Modelled from the spec: the enumeration `thread_state_t` of `tasking.h`
(not part of the sources); a thread is in one of the states RUNNING,
WAIT_THREAD, WAIT_PROCESS, CANCELED, the first one having the value 0. -/
inductive thread_state_t where
  | THREAD_RUNNING
  | THREAD_WAIT_THREAD
  | THREAD_WAIT_PROCESS
  | THREAD_CANCELED
deriving DecidableEq, Repr

/-- Modelled from the spec: the enumeration `process_state_t` of `tasking.h`
(not part of the sources); a process is RUNNING or CANCELED. -/
inductive process_state_t where
  | PROCESS_RUNNING
  | PROCESS_CANCELED
deriving DecidableEq, Repr

open thread_state_t process_state_t

/-- The `waitinfo` member of `thread_t`: the awaited identifier and the
address of the `int` that receives the outcome (`0` is `NULL`). -/
structure waitinfo_t where
  handle : Int
  outcode : Nat
deriving DecidableEq, Repr

/-- The members of `thread_t` that `tasking.c` reads or writes. -/
structure thread_t where
  id : Int
  stack : Nat
  entry : Nat
  esp : Nat
  process : Option Nat
  state : thread_state_t
  waitinfo : waitinfo_t
deriving DecidableEq, Repr

/-- The members of `process_t` that `tasking.c` reads or writes. -/
structure process_t where
  id : Int
  name : List Nat
  flags : Nat
  threads : List Nat
  pdir : Nat
  state : process_state_t
deriving DecidableEq, Repr

/-- The members of `context_t` that `alloc_thread` assigns; the others keep
the zero of the cleared stack. -/
structure context_t where
  eflags : Nat
  eip : Nat
  ebp : Nat
  cs : Nat
  ds : Nat
  es : Nat
  fs : Nat
  gs : Nat
deriving DecidableEq, Repr

/-- The global variables of `tasking.c`, the heap blocks they point to and
the machine state the file drives through its collaborators. -/
structure KState where
  PID : Int
  TID : Int
  threads : List Nat
  processes : List Nat
  kernel_process : Int
  kernel_thread : Int
  running : Option Nat
  waiting : List Nat
  ticks : Nat
  theap : Nat → Option thread_t
  pheap : Nat → Option process_t
  mem : Nat → Int
  contexts : Nat → Option context_t
  kernel_stack : Nat
  active_pdir : Nat
  freed : List Nat
  pdir_freed : List Nat
  ports : List (Nat × Nat)
  irq0_is_shedule : Bool
  vmem : Nat → Nat → Nat := fun _ _ => 0
  mapped : Nat → Nat → Bool := fun _ _ => false
  lists_freed : List Nat := []

/-- Modelled from the spec: `list_pushback` of the list library (not part of
the sources) appends the value at the tail of the list. -/
def list_pushback (l : List Nat) (value : Nat) : List Nat :=
  l ++ [value]

/-- Modelled from the spec: `list_pop` of the list library (not part of the
sources) removes the head of the list and hands it out; on an empty list it
hands out nothing. -/
def list_pop (l : List Nat) : Option (Nat × List Nat) :=
  match l with
  | [] => none
  | value :: rest => some (value, rest)

/-- The value of an `int` after an arithmetic result is stored in it: the
result reduced to 32 bits in twos-complement. -/
def wrap32 (x : Int) : Int :=
  (x + 2 ^ 31) % 2 ^ 32 - 2 ^ 31

/-! ## Allocation -/

/-- Embedding of `alloc_thread`.  `block` and `stack` are the results of the
two calls of `malloc`; the block is cleared, so `process` is `NULL`, `state`
is the enumerator 0 and the wait info is zero.  The starting context is
stored at the initial `esp`. -/
def alloc_thread (cfg : Config) (s : KState) (entry flags block stack : Nat) :
    Except Halt (KState × Nat) :=
  if block = 0 then .error Halt.bad_deref
  else if stack = 0 then .error Halt.bad_deref
  else
    let top := (stack + cfg.STACK_SIZE) % 2 ^ 32
    let esp := (top + 2 ^ 32 - cfg.sizeof_context_t % 2 ^ 32) % 2 ^ 32
    let thread : thread_t :=
      { id := s.TID, stack := stack, entry := entry, esp := esp, process := none,
        state := THREAD_RUNNING, waitinfo := { handle := 0, outcode := 0 } }
    let context : context_t :=
      if flags &&& cfg.TASK_USER ≠ 0 then
        { eflags := 0x202, eip := entry, ebp := top,
          cs := 0x18, ds := 0x20, es := 0x20, fs := 0x20, gs := 0x20 }
      else
        { eflags := 0x202, eip := entry, ebp := top,
          cs := 0x08, ds := 0x10, es := 0x10, fs := 0x10, gs := 0x10 }
    .ok ({ s with
      TID := wrap32 (s.TID + 1)
      theap := Function.update s.theap block (some thread)
      contexts := Function.update s.contexts esp (some context) }, block)

/-- Embedding of `alloc_process`.  `block` is the result of `malloc`, `junk`
the content that the uninitialised `state` member happens to have, and
`new_pdir` the result of `memory_alloc_pdir()` when it is called. -/
def alloc_process (cfg : Config) (s : KState) (name : List Nat) (flags block : Nat)
    (junk : process_state_t) (new_pdir : Nat) : Except Halt (KState × Nat) :=
  if block = 0 then .error Halt.bad_deref
  else
    let process : process_t :=
      { id := s.PID, name := name.take cfg.PROCNAME_SIZE, flags := flags, threads := [],
        pdir := if flags &&& cfg.TASK_USER ≠ 0 then new_pdir else cfg.memory_kpdir,
        state := junk }
    .ok ({ s with
      PID := wrap32 (s.PID + 1)
      pheap := Function.update s.pheap block (some process) }, block)

/-! ## Lookup -/

/-- The `FOREACH` loop of `thread_get` over the items that are left. -/
def thread_get_loop (theap : Nat → Option thread_t) (thread : Int) :
    List Nat → Except Halt (Option Nat)
  | [] => .ok none
  | i :: rest =>
    match theap i with
    | none => .error Halt.bad_deref
    | some t => if t.id = thread then .ok (some i) else thread_get_loop theap thread rest

/-- Embedding of `thread_get`: the first thread of the global list with the
given id, or `NULL`. -/
def thread_get (s : KState) (thread : Int) : Except Halt (Option Nat) :=
  thread_get_loop s.theap thread s.threads

/-- The `FOREACH` loop of `process_get` over the items that are left. -/
def process_get_loop (pheap : Nat → Option process_t) (process : Int) :
    List Nat → Except Halt (Option Nat)
  | [] => .ok none
  | i :: rest =>
    match pheap i with
    | none => .error Halt.bad_deref
    | some p => if p.id = process then .ok (some i) else process_get_loop pheap process rest

/-- Embedding of `process_get`. -/
def process_get (s : KState) (process : Int) : Except Halt (Option Nat) :=
  process_get_loop s.pheap process s.processes

/-! ## Notify -/

/-- The condition under which `notify_threads` releases a thread. -/
def is_notified (is_thread : Bool) (handle : Int) (thread : thread_t) : Bool :=
  let is_waiting := (thread.state == THREAD_WAIT_THREAD && is_thread) ||
                    (thread.state == THREAD_WAIT_PROCESS && !is_thread)
  is_waiting && thread.waitinfo.handle == handle

/-- One iteration of the `FOREACH` loop of `notify_threads`. -/
def notify_step (is_thread : Bool) (handle outcode : Int) (s : KState) (i : Nat) :
    Except Halt KState :=
  match s.theap i with
  | none => .error Halt.bad_deref
  | some thread =>
    if is_notified is_thread handle thread then
      if thread.waitinfo.outcode = 0 then .error Halt.bad_deref
      else
        .ok { s with
          mem := Function.update s.mem thread.waitinfo.outcode outcode
          theap := Function.update s.theap i (some { thread with state := THREAD_RUNNING }) }
    else .ok s

/-- The `FOREACH` loop of `notify_threads` over the items that are left. -/
def notify_loop (is_thread : Bool) (handle outcode : Int) :
    List Nat → KState → Except Halt KState
  | [], s => .ok s
  | i :: rest, s =>
    match notify_step is_thread handle outcode s i with
    | .error e => .error e
    | .ok s1 => notify_loop is_thread handle outcode rest s1

/-- Embedding of `notify_threads`. -/
def notify_threads (s : KState) (is_thread : Bool) (handle outcode : Int) :
    Except Halt KState :=
  notify_loop is_thread handle outcode s.threads s

/-! ## Thread management -/

/-- Embedding of `thread_self`. -/
def thread_self (s : KState) : Except Halt Int :=
  match s.running with
  | none => .ok (-1)
  | some r =>
    match s.theap r with
    | none => .error Halt.bad_deref
    | some t => .ok t.id

/-- Embedding of `thread_cancel`; the second component is the returned
`thread == NULL`. -/
def thread_cancel (s : KState) (t : Int) : Except Halt (KState × Int) :=
  match thread_get s t with
  | .error e => .error e
  | .ok none => .ok (s, 1)
  | .ok (some p) =>
    match s.theap p with
    | none => .error Halt.bad_deref
    | some thread =>
      let s1 := { s with
        theap := Function.update s.theap p (some { thread with state := THREAD_CANCELED }) }
      match thread_self s1 with
      | .error e => .error e
      | .ok self =>
        match notify_threads s1 true self 0 with
        | .error e => .error e
        | .ok s2 => .ok (s2, 0)

/-- Embedding of `thread_exit` up to the end of its atomic section; `retval`
is the pointer argument converted to `int`.  The routine then halts forever. -/
def thread_exit (s : KState) (retval : Int) : Except Halt KState :=
  match thread_self s with
  | .error e => .error e
  | .ok self =>
    match thread_get s self with
    | .error e => .error e
    | .ok none => .error Halt.bad_deref
    | .ok (some p) =>
      match s.theap p with
      | none => .error Halt.bad_deref
      | some thread =>
        let s1 := { s with
          theap := Function.update s.theap p (some { thread with state := THREAD_CANCELED }) }
        match thread_self s1 with
        | .error e => .error e
        | .ok self1 => notify_threads s1 true self1 retval

/-! ## Process management -/

/-- Embedding of `process_self`. -/
def process_self (s : KState) : Except Halt Int :=
  match s.running with
  | none => .ok (-1)
  | some r =>
    match s.theap r with
    | none => .error Halt.bad_deref
    | some t =>
      match t.process with
      | none => .error Halt.bad_deref
      | some pp =>
        match s.pheap pp with
        | none => .error Halt.bad_deref
        | some p => .ok p.id

/-- Embedding of `process_cancel`.  In the refusing branch the warning reads
`process->name` of the process of the caller and calls `process_self` again. -/
def process_cancel (s : KState) (p : Int) : Except Halt KState :=
  if p ≠ s.kernel_process then
    match process_get s p with
    | .error e => .error e
    | .ok none => .error Halt.bad_deref
    | .ok (some pp) =>
      match s.pheap pp with
      | none => .error Halt.bad_deref
      | some process =>
        let s1 := { s with
          pheap := Function.update s.pheap pp (some { process with state := PROCESS_CANCELED }) }
        notify_threads s1 false p (-1)
  else
    match process_self s with
    | .error e => .error e
    | .ok self =>
      match process_get s self with
      | .error e => .error e
      | .ok none => .error Halt.bad_deref
      | .ok (some pp) =>
        match s.pheap pp with
        | none => .error Halt.bad_deref
        | some _ => .ok s

/-- Embedding of `process_exit` up to the end of its atomic section.  The
routine then halts forever. -/
def process_exit (s : KState) (code : Int) : Except Halt KState :=
  match process_self s with
  | .error e => .error e
  | .ok p =>
    match process_get s p with
    | .error e => .error e
    | .ok found =>
      if p ≠ s.kernel_process then
        match found with
        | none => .error Halt.bad_deref
        | some pp =>
          match s.pheap pp with
          | none => .error Halt.bad_deref
          | some process =>
            let s1 := { s with
              pheap := Function.update s.pheap pp (some { process with state := PROCESS_CANCELED }) }
            notify_threads s1 false p code
      else .ok s

/-! ## Scheduler -/

/-- Embedding of `sanity_check`; the sum `stack + STACK_SIZE` is computed in
`uint`. -/
def sanity_check (cfg : Config) (thread : thread_t) : Except Halt Unit :=
  let stack := thread.stack
  if ¬ (thread.esp ≥ stack ∧ thread.esp ≤ (stack + cfg.STACK_SIZE) % 2 ^ 32) then
    .error Halt.PANIC
  else .ok ()

/-- Embedding of `shedule`; the second component is the returned
`running->esp`. -/
def shedule (cfg : Config) (s : KState) (esp : Nat) : Except Halt (KState × Nat) :=
  let s0 := { s with ticks := (s.ticks + 1) % 2 ^ 32 }
  match s0.running with
  | none => .error Halt.bad_deref
  | some r =>
    match s0.theap r with
    | none => .error Halt.bad_deref
    | some t =>
      let t1 := { t with esp := esp }
      let s1 := { s0 with theap := Function.update s0.theap r (some t1) }
      match sanity_check cfg t1 with
      | .error e => .error e
      | .ok _ =>
        let pushed := list_pushback s1.waiting r
        let s2 :=
          match list_pop pushed with
          | none => { s1 with waiting := pushed }
          | some (value, rest) => { s1 with waiting := rest, running := some value }
        match s2.running with
        | none => .error Halt.bad_deref
        | some n =>
          match s2.theap n with
          | none => .error Halt.bad_deref
          | some nt =>
            match nt.process with
            | none => .error Halt.bad_deref
            | some pp =>
              match s2.pheap pp with
              | none => .error Halt.bad_deref
              | some p =>
                .ok ({ s2 with
                  kernel_stack := (nt.stack + cfg.STACK_SIZE) % 2 ^ 32
                  active_pdir := p.pdir }, nt.esp)

/-! ## Creation and setup -/

/-- Embedding of `thread_create`; the second component is the returned
`thread->id`.  The two stores `thread->process = process` and
`thread->state = THREAD_RUNNING` are made in one update of the block. -/
def thread_create (cfg : Config) (s : KState) (p : Int) (entry flags block stack : Nat) :
    Except Halt (KState × Int) :=
  match process_get s p with
  | .error e => .error e
  | .ok none => .error Halt.bad_deref
  | .ok (some pp) =>
    match s.pheap pp with
    | none => .error Halt.bad_deref
    | some process =>
      match alloc_thread cfg s entry (process.flags ||| flags) block stack with
      | .error e => .error e
      | .ok (s1, thread) =>
        match s1.theap thread with
        | none => .error Halt.bad_deref
        | some th =>
          let s2 := { s1 with
            pheap := Function.update s1.pheap pp
              (some { process with threads := list_pushback process.threads thread })
            threads := list_pushback s1.threads thread
            theap := Function.update s1.theap thread
              (some { th with process := some pp, state := THREAD_RUNNING }) }
          let s3 :=
            match s2.running with
            | some _ => { s2 with waiting := list_pushback s2.waiting thread }
            | none => { s2 with running := some thread }
          .ok (s3, th.id)

/-- Embedding of `process_create`; the second component is the returned
`process->id`. -/
def process_create (cfg : Config) (s : KState) (name : List Nat) (flags block : Nat)
    (junk : process_state_t) (new_pdir : Nat) : Except Halt (KState × Int) :=
  match alloc_process cfg s name flags block junk new_pdir with
  | .error e => .error e
  | .ok (s1, process) =>
    match s1.pheap process with
    | none => .error Halt.bad_deref
    | some pr => .ok ({ s1 with processes := list_pushback s1.processes process }, pr.id)

/-- Embedding of `timer_set_frequency`: the divisor is the `int` quotient
stored in a `u32`; each `outb(port, value)` is appended to the port log. -/
def timer_set_frequency (s : KState) (hz : Int) : Except Halt KState :=
  if hz = 0 then .error Halt.divide_error
  else
    let divisor : Nat := (Int.tdiv 1193180 hz % 2 ^ 32).toNat
    .ok { s with
      ports := s.ports ++
        [(0x43, 0x36), (0x40, divisor &&& 0xFF), (0x40, (divisor >>> 8) &&& 0xFF)] }

/-- The string `"kernel"` as character codes. -/
def kernel_name : List Nat := [107, 101, 114, 110, 101, 108]

/-- Embedding of `tasking_setup`.  `PID` and `TID` keep the value they have,
the four parameters are what `malloc` returns to `process_create` and
`thread_create`, and `irq_register(0, shedule)` sets `irq0_is_shedule`. -/
def tasking_setup (cfg : Config) (s : KState) (pblock : Nat) (junk : process_state_t)
    (tblock tstack : Nat) : Except Halt KState :=
  let s0 := { s with running := none, waiting := [], threads := [], processes := [] }
  match process_create cfg s0 kernel_name 0 pblock junk 0 with
  | .error e => .error e
  | .ok (s1, kp) =>
    match thread_create cfg { s1 with kernel_process := kp } kp 0 0 tblock tstack with
    | .error e => .error e
    | .ok (s2, kt) =>
      let s3 := { s2 with kernel_thread := kt }
      match thread_get s3 kt with
      | .error e => .error e
      | .ok none => .error Halt.bad_deref
      | .ok (some k) =>
        match s3.theap k with
        | none => .error Halt.bad_deref
        | some kthread =>
          let s4 := { s3 with
            freed := s3.freed ++ [kthread.stack]
            theap := Function.update s3.theap k
              (some { kthread with
                stack := cfg.stack_bottom
                esp := (cfg.stack_bottom + cfg.STACK_SIZE) % 2 ^ 32 }) }
          match timer_set_frequency s4 100 with
          | .error e => .error e
          | .ok s5 => .ok { s5 with irq0_is_shedule := true }

/-! ## Memory, paging and the process loader -/

/-- Embedding of `thread_dump`: the values that the two `printf` calls read,
namely the name and id of the process of the thread, and the saved `esp`, the
stack and the state of the thread.  The state is not changed. -/
def thread_dump (s : KState) (t : Int) :
    Except Halt (List Nat × Int × Nat × Nat × thread_state_t) :=
  match thread_get s t with
  | .error e => .error e
  | .ok none => .error Halt.bad_deref
  | .ok (some k) =>
    match s.theap k with
    | none => .error Halt.bad_deref
    | some thread =>
      match thread.process with
      | none => .error Halt.bad_deref
      | some pp =>
        match s.pheap pp with
        | none => .error Halt.bad_deref
        | some process => .ok (process.name, process.id, thread.esp, thread.stack, thread.state)

/-- Modelled from the spec: the macro `PAGE_ALIGN` of the paging header (not
part of the sources) gives the page-aligned length, the length rounded up to
a multiple of `PAGE_SIZE`, as a `uint`. -/
def PAGE_ALIGN (cfg : Config) (x : Nat) : Nat :=
  ((x + cfg.PAGE_SIZE - 1) / cfg.PAGE_SIZE * cfg.PAGE_SIZE) % 2 ^ 32

/-- The number of the page that holds a virtual address. -/
def page_of (cfg : Config) (addr : Nat) : Nat :=
  addr / cfg.PAGE_SIZE

/-- Every byte of `[addr, addr + n)` lies in a page that is present in the
directory. -/
def range_mapped (cfg : Config) (mapped : Nat → Nat → Bool) (pdir addr n : Nat) : Bool :=
  (List.range n).all (fun i => mapped pdir (page_of cfg (addr + i)))

/-- Modelled from the spec: `memory_map` of the address-space collaborator
(not part of the sources) maps `count` pages at a virtual address: the page
that holds `addr` and the `count - 1` pages after it become present in the
directory.  It returns 0. -/
def memory_map (cfg : Config) (s : KState) (pdir addr count : Nat) : KState × Int :=
  ({ s with
    mapped := fun d pg =>
      if d = pdir ∧ page_of cfg addr ≤ pg ∧ pg < page_of cfg addr + count then true
      else s.mapped d pg }, 0)

/-- Modelled from the spec: `memory_unmap` of the address-space collaborator
(not part of the sources) unmaps `count` pages at a virtual address.  It
returns 0. -/
def memory_unmap (cfg : Config) (s : KState) (pdir addr count : Nat) : KState × Int :=
  ({ s with
    mapped := fun d pg =>
      if d = pdir ∧ page_of cfg addr ≤ pg ∧ pg < page_of cfg addr + count then false
      else s.mapped d pg }, 0)

/-- Modelled from the spec: `paging_load_directorie` of the address-space
collaborator (not part of the sources) activates an address space. -/
def paging_load_directorie (s : KState) (pdir : Nat) : KState :=
  { s with active_pdir := pdir }

/-- The C library routine `memset(dest, value, n)`, run in the active address
space: it stores the byte in `[dest, dest + n)`.  A range that runs over the
end of the address space is a bad pointer, a page that is not present is a
page fault. -/
def memset (cfg : Config) (s : KState) (dest value n : Nat) : Except Halt KState :=
  if dest + n > 2 ^ 32 then .error Halt.bad_deref
  else if range_mapped cfg s.mapped s.active_pdir dest n then
    .ok { s with
      vmem := fun d a =>
        if d = s.active_pdir ∧ dest ≤ a ∧ a < dest + n then value % 256 else s.vmem d a }
  else .error Halt.page_fault

/-- The C library routine `memcpy(dest, src, n)`, run in the active address
space: the `n` bytes found at `src` arrive at `dest`.  For ranges that overlap
the C standard leaves the result open; the model stores the bytes that were
at the source when the call was made. -/
def memcpy (cfg : Config) (s : KState) (dest src n : Nat) : Except Halt KState :=
  if dest + n > 2 ^ 32 ∨ src + n > 2 ^ 32 then .error Halt.bad_deref
  else if range_mapped cfg s.mapped s.active_pdir src n ∧
      range_mapped cfg s.mapped s.active_pdir dest n then
    .ok { s with
      vmem := fun d a =>
        if d = s.active_pdir ∧ dest ≤ a ∧ a < dest + n then
          s.vmem s.active_pdir (src + (a - dest))
        else s.vmem d a }
  else .error Halt.page_fault

/-- Embedding of `process_map`; the second component is the value returned by
`memory_map`. -/
def process_map (cfg : Config) (s : KState) (p : Int) (addr count : Nat) :
    Except Halt (KState × Int) :=
  match process_get s p with
  | .error e => .error e
  | .ok none => .error Halt.bad_deref
  | .ok (some pp) =>
    match s.pheap pp with
    | none => .error Halt.bad_deref
    | some process => .ok (memory_map cfg s process.pdir addr count)

/-- Embedding of `process_unmap`. -/
def process_unmap (cfg : Config) (s : KState) (p : Int) (addr count : Nat) :
    Except Halt (KState × Int) :=
  match process_get s p with
  | .error e => .error e
  | .ok none => .error Halt.bad_deref
  | .ok (some pp) =>
    match s.pheap pp with
    | none => .error Halt.bad_deref
    | some process => .ok (memory_unmap cfg s process.pdir addr count)

/-- Embedding of `load_elfseg`; `process` is the pointer argument, which may
be `NULL`. -/
def load_elfseg (cfg : Config) (s : KState) (process : Option Nat)
    (src srcsz dest destsz : Nat) : Except Halt KState :=
  if dest ≥ 0x100000 then
    match s.running with
    | none => .error Halt.bad_deref
    | some r =>
      match s.theap r with
      | none => .error Halt.bad_deref
      | some rt =>
        match rt.process with
        | none => .error Halt.bad_deref
        | some rpp =>
          match s.pheap rpp with
          | none => .error Halt.bad_deref
          | some rprocess =>
            let pdir := rprocess.pdir
            match process with
            | none => .error Halt.bad_deref
            | some pp =>
              match s.pheap pp with
              | none => .error Halt.bad_deref
              | some target =>
                let s1 := paging_load_directorie s target.pdir
                match process_map cfg s1 target.id dest (PAGE_ALIGN cfg destsz / cfg.PAGE_SIZE) with
                | .error e => .error e
                | .ok (s2, _) =>
                  match memset cfg s2 dest 0 destsz with
                  | .error e => .error e
                  | .ok s3 =>
                    match memcpy cfg s3 dest src srcsz with
                    | .error e => .error e
                    | .ok s4 => .ok (paging_load_directorie s4 pdir)
  else .ok s

/-- Modelled from the spec: the members of `ELF_program_t` of `libelf.h` (not
part of the sources) that `process_exec` reads: source offset and size,
destination virtual address and size of a segment. -/
structure ELF_program_t where
  offset : Nat
  filesz : Nat
  vaddr : Nat
  memsz : Nat
deriving DecidableEq, Repr

/-- Modelled from the spec: what the filesystem and ELF collaborators hand to
`process_exec` for a file that opens: the address of the buffer that
`file_read_all` filled, the entry address of the header and the program
headers that `ELF_read_program` enumerates, in index order.  The bytes of the
image are the content of memory at `buffer`. -/
structure ELF_image where
  buffer : Nat
  entry : Nat
  programs : List ELF_program_t
deriving DecidableEq, Repr

/-- The `for` loop of `process_exec` over the program headers that are
left. -/
def load_segments (cfg : Config) (p : Int) (buffer : Nat) :
    List ELF_program_t → KState → Except Halt KState
  | [], s => .ok s
  | program :: rest, s =>
    match process_get s p with
    | .error e => .error e
    | .ok process =>
      match load_elfseg cfg s process ((buffer + program.offset) % 2 ^ 32) program.filesz
          program.vaddr program.memsz with
      | .error e => .error e
      | .ok s1 => load_segments cfg p buffer rest s1

/-- Embedding of `process_exec`.  `file` is `none` when `file_open` returns
`NULL`; `path` is the path as character codes; the other parameters are what
`malloc` returns to `process_create` and `thread_create`.  The second
component is the returned value. -/
def process_exec (cfg : Config) (s : KState) (path : List Nat) (file : Option ELF_image)
    (pblock : Nat) (junk : process_state_t) (tblock tstack : Nat) :
    Except Halt (KState × Int) :=
  match file with
  | none => .ok (s, 0)
  | some elf =>
    match process_create cfg s path 0 pblock junk 0 with
    | .error e => .error e
    | .ok (s1, p) =>
      match load_segments cfg p elf.buffer elf.programs s1 with
      | .error e => .error e
      | .ok s2 =>
        match thread_create cfg s2 p elf.entry 0 tblock tstack with
        | .error e => .error e
        | .ok (s3, _) => .ok ({ s3 with freed := s3.freed ++ [elf.buffer] }, p)

/-! ## Destruction -/

/-- Modelled from the spec: `list_remove` of the list library (not part of
the sources) takes the value out of the list: the first item that holds it is
removed. -/
def list_remove (l : List Nat) (value : Nat) : List Nat :=
  l.erase value

/-- Embedding of `free_thread`: the calls `free(thread->stack)` and
`free(thread)` are appended to the log `freed` of `free` calls, and the thread
block is no longer live. -/
def free_thread (s : KState) (thread : Nat) : Except Halt KState :=
  match s.theap thread with
  | none => .error Halt.bad_deref
  | some t =>
    .ok { s with
      freed := s.freed ++ [t.stack, thread]
      theap := Function.update s.theap thread none }

/-- Embedding of `free_process`.  The call `memory_free_pdir(process->pdir)`
is appended to the log `pdir_freed`; the call `list_free(process->threads)` is
appended to the log `lists_freed`, where the collection is named by the
process block that owns it; `free(process)` is appended to `freed`, and the
process block is no longer live. -/
def free_process (cfg : Config) (s : KState) (process : Nat) : Except Halt KState :=
  match s.pheap process with
  | none => .error Halt.bad_deref
  | some P =>
    .ok { s with
      pdir_freed := if P.pdir ≠ cfg.memory_kpdir then s.pdir_freed ++ [P.pdir] else s.pdir_freed
      lists_freed := s.lists_freed ++ [process]
      freed := s.freed ++ [process]
      pheap := Function.update s.pheap process none }

/-- Embedding of `kill_thread`; `count == 0` is the test that the collection
is empty. -/
def kill_thread (cfg : Config) (s : KState) (thread : Nat) : Except Halt KState :=
  match s.theap thread with
  | none => .error Halt.bad_deref
  | some t =>
    match t.process with
    | none => .error Halt.bad_deref
    | some pp =>
      match s.pheap pp with
      | none => .error Halt.bad_deref
      | some P =>
        let remaining := list_remove P.threads thread
        let s1 := { s with
          pheap := Function.update s.pheap pp (some { P with threads := remaining }) }
        if remaining.length = 0 then
          match free_process cfg s1 pp with
          | .error e => .error e
          | .ok s2 => free_thread s2 thread
        else free_thread s1 thread

/-- The `FOREACH` loop of `kill_process` over the items that are left. -/
def free_threads_loop : List Nat → KState → Except Halt KState
  | [], s => .ok s
  | i :: rest, s =>
    match free_thread s i with
    | .error e => .error e
    | .ok s1 => free_threads_loop rest s1

/-- Embedding of `kill_process`. -/
def kill_process (cfg : Config) (s : KState) (process : Nat) : Except Halt KState :=
  match s.pheap process with
  | none => .error Halt.bad_deref
  | some P =>
    match free_threads_loop P.threads s with
    | .error e => .error e
    | .ok s1 => free_process cfg s1 process

/-- Modelled from the spec: the act of blocking, which `tasking.c` leaves to
its callers.  A thread sets its state to WAIT_THREAD or WAIT_PROCESS and
records the awaited identifier and its output slot. -/
def thread_block (s : KState) (j : Nat) (kind : thread_state_t) (handle : Int) (slot : Nat) :
    Except Halt KState :=
  match s.theap j with
  | none => .error Halt.bad_deref
  | some t =>
    .ok { s with
      theap := Function.update s.theap j
        (some { t with state := kind, waitinfo := { handle := handle, outcode := slot } }) }

/-- The states of the kernel after `tasking_setup`: the result of the setup
and every state that follows from one of them by a creation, a timer
interrupt that is not fatal, a cancel or an exit that does not fault, or a
thread of the global list blocking.  `malloc` hands out blocks that are not
live. -/
inductive Reachable (cfg : Config) : KState → Prop where
  | setup (s0 s : KState) (pblock : Nat) (junk : process_state_t) (tblock tstack : Nat) :
      s0.pheap pblock = none → s0.theap tblock = none →
      tasking_setup cfg s0 pblock junk tblock tstack = .ok s → Reachable cfg s
  | thread_create (s s2 : KState) (p : Int) (entry flags block stack : Nat) (id : Int) :
      Reachable cfg s → s.theap block = none →
      thread_create cfg s p entry flags block stack = .ok (s2, id) → Reachable cfg s2
  | process_create (s s2 : KState) (name : List Nat) (flags block : Nat)
      (junk : process_state_t) (new_pdir : Nat) (id : Int) :
      Reachable cfg s → s.pheap block = none →
      process_create cfg s name flags block junk new_pdir = .ok (s2, id) → Reachable cfg s2
  | shedule (s s2 : KState) (esp e : Nat) :
      Reachable cfg s → shedule cfg s esp = .ok (s2, e) → Reachable cfg s2
  | thread_cancel (s s2 : KState) (t ret : Int) :
      Reachable cfg s → thread_cancel s t = .ok (s2, ret) → Reachable cfg s2
  | thread_exit (s s2 : KState) (retval : Int) :
      Reachable cfg s → thread_exit s retval = .ok s2 → Reachable cfg s2
  | process_cancel (s s2 : KState) (p : Int) :
      Reachable cfg s → process_cancel s p = .ok s2 → Reachable cfg s2
  | process_exit (s s2 : KState) (code : Int) :
      Reachable cfg s → process_exit s code = .ok s2 → Reachable cfg s2
  | block (s s2 : KState) (j : Nat) (kind : thread_state_t) (handle : Int) (slot : Nat) :
      Reachable cfg s → j ∈ s.threads →
      kind = THREAD_WAIT_THREAD ∨ kind = THREAD_WAIT_PROCESS → slot ≠ 0 →
      thread_block s j kind handle slot = .ok s2 → Reachable cfg s2

/-- The registry is consistent: a thread of the global list is running, every
item of the global thread list is a live thread whose process is an item of
the process list, and every item of the process list is a live process. -/
def registry_ok (s : KState) : Prop :=
  (∃ r, s.running = some r ∧ r ∈ s.threads) ∧
  (∀ j ∈ s.threads, ∃ t pp, s.theap j = some t ∧ t.process = some pp ∧ pp ∈ s.processes) ∧
  (∀ pp ∈ s.processes, ∃ P, s.pheap pp = some P) ∧
  (∀ j ∈ s.waiting, j ∈ s.threads)

/-- The part of `registry_ok` that already holds while no thread is running,
as during `tasking_setup`. -/
def registry_consistent (s : KState) : Prop :=
  (∀ r, s.running = some r → r ∈ s.threads) ∧
  (∀ j ∈ s.threads, ∃ t pp, s.theap j = some t ∧ t.process = some pp ∧ pp ∈ s.processes) ∧
  (∀ pp ∈ s.processes, ∃ P, s.pheap pp = some P) ∧
  (∀ j ∈ s.waiting, j ∈ s.threads)

/-- The step from `s` to `s2` leaves the registry in place: the lists, the
`running` pointer, the counters and the kernel ids are the same, every live
process block is still live with the same id and pdir, and every live thread
block is still live with the same id, stack, saved `esp` and process. -/
def same_registry (s s2 : KState) : Prop :=
  s2.threads = s.threads ∧ s2.processes = s.processes ∧ s2.running = s.running ∧
  s2.waiting = s.waiting ∧ s2.kernel_process = s.kernel_process ∧
  s2.kernel_thread = s.kernel_thread ∧ s2.PID = s.PID ∧ s2.TID = s.TID ∧
  (∀ pp P, s.pheap pp = some P →
    ∃ P2, s2.pheap pp = some P2 ∧ P2.id = P.id ∧ P2.pdir = P.pdir ∧ P2.threads = P.threads) ∧
  (∀ j t, s.theap j = some t →
    ∃ t2, s2.theap j = some t2 ∧ t2.id = t.id ∧ t2.stack = t.stack ∧ t2.esp = t.esp ∧
      t2.process = t.process)

/-! ## Predicates used in the statements -/

/-- Every item of the global thread list points to a live thread block. -/
def threads_live (s : KState) : Prop :=
  ∀ j ∈ s.threads, ∃ t, s.theap j = some t

/-- The thread waits with the kind that a notify with flag `is_thread`
addresses: WAIT_THREAD for a thread notify, WAIT_PROCESS for a process
notify. -/
def waits_with_kind (is_thread : Bool) (t : thread_t) : Prop :=
  (is_thread = true ∧ t.state = THREAD_WAIT_THREAD) ∨
  (is_thread = false ∧ t.state = THREAD_WAIT_PROCESS)

/-- Every waiter of the list that a notify with these arguments releases has
an output slot of its own, that is, a non-NULL `waitinfo.outcode`. -/
def waiters_have_slot (s : KState) (is_thread : Bool) (handle : Int) : Prop :=
  ∀ j ∈ s.threads, ∀ t, s.theap j = some t →
    waits_with_kind is_thread t → t.waitinfo.handle = handle → t.waitinfo.outcode ≠ 0

/-- No waiter of the list that a notify with these arguments releases uses
the address `a` as its output slot. -/
def slot_not_shared (s : KState) (is_thread : Bool) (handle : Int) (a : Nat) : Prop :=
  ∀ j ∈ s.threads, ∀ t, s.theap j = some t →
    waits_with_kind is_thread t → t.waitinfo.handle = handle → t.waitinfo.outcode ≠ a

/-- The thread pointer can be scheduled: it points to a live thread whose
process pointer points to a live process and whose stack region ends below
the top of the 32-bit address space. -/
def schedulable (cfg : Config) (s : KState) (j : Nat) : Prop :=
  ∃ t pp p, s.theap j = some t ∧ t.process = some pp ∧ s.pheap pp = some p ∧
    t.stack + cfg.STACK_SIZE < 2 ^ 32

/-- A run of timer interrupts: `shedule` is called once for each stack pointer
of the list, in order; the result is the final state and the `running`
pointer selected by each call. -/
def shedule_calls (cfg : Config) : KState → List Nat → Except Halt (KState × List (Option Nat))
  | s, [] => .ok (s, [])
  | s, esp :: rest =>
    match shedule cfg s esp with
    | .error e => .error e
    | .ok (s1, _) =>
      match shedule_calls cfg s1 rest with
      | .error e => .error e
      | .ok (s2, selected) => .ok (s2, s1.running :: selected)

/-- Each stack pointer of the list lies within the stack bounds
`[stack, stack + STACK_SIZE)` of the thread that is running, and so is
preempted, when the call that receives it is made. -/
def esps_in_bounds (cfg : Config) : KState → List Nat → Prop
  | _, [] => True
  | s, esp :: rest =>
    (∃ r t, s.running = some r ∧ s.theap r = some t ∧
      t.stack ≤ esp ∧ esp < t.stack + cfg.STACK_SIZE) ∧
    ∀ s1 e, shedule cfg s esp = .ok (s1, e) → esps_in_bounds cfg s1 rest

/-- The `running` pointer is `NULL` or points to a live thread block. -/
def running_live (s : KState) : Prop :=
  ∀ r, s.running = some r → ∃ t, s.theap r = some t

/-- Every thread of the list that waits for a thread has an output slot of
its own, that is, a non-NULL `waitinfo.outcode`. -/
def thread_waiters_have_slot (s : KState) : Prop :=
  ∀ j ∈ s.threads, ∀ t, s.theap j = some t →
    t.state = THREAD_WAIT_THREAD → t.waitinfo.outcode ≠ 0

/-- The thread is not addressed by a notify with these arguments: it is not
waiting, or it waits with the other kind, or it waits on another handle. -/
def unrelated (is_thread : Bool) (handle : Int) (t : thread_t) : Prop :=
  (t.state ≠ THREAD_WAIT_THREAD ∧ t.state ≠ THREAD_WAIT_PROCESS) ∨
  (is_thread = true ∧ t.state = THREAD_WAIT_PROCESS) ∨
  (is_thread = false ∧ t.state = THREAD_WAIT_THREAD) ∨
  t.waitinfo.handle ≠ handle

/-- Every item of the process list points to a live process block. -/
def processes_live (s : KState) : Prop :=
  ∀ j ∈ s.processes, ∃ P, s.pheap j = some P

/-- The lookup of a thread in the words of the specification: the first item
of the global thread list whose id equals the argument, if there is one. -/
def first_thread_with_id (s : KState) (id : Int) : Option Nat :=
  s.threads.find? (fun j =>
    match s.theap j with
    | some t => decide (t.id = id)
    | none => false)

/-- The lookup of a process in the words of the specification: the first item
of the process list whose id equals the argument, if there is one. -/
def first_process_with_id (s : KState) (id : Int) : Option Nat :=
  s.processes.find? (fun j =>
    match s.pheap j with
    | some P => decide (P.id = id)
    | none => false)

/-- The initial saved stack pointer of a thread with the given stack: the top
of the stack less the size of a context, in `uint` arithmetic. -/
def initial_esp (cfg : Config) (stack : Nat) : Nat :=
  ((stack + cfg.STACK_SIZE) % 2 ^ 32 + 2 ^ 32 - cfg.sizeof_context_t % 2 ^ 32) % 2 ^ 32

/-- The block of a thread as `thread_create` leaves it. -/
def created_thread (cfg : Config) (s : KState) (entry stack pp : Nat) : thread_t :=
  { id := s.TID, stack := stack, entry := entry, esp := initial_esp cfg stack,
    process := some pp, state := THREAD_RUNNING, waitinfo := { handle := 0, outcode := 0 } }

/-- The starting context of a thread with the given entry, flags and stack. -/
def created_context (cfg : Config) (entry flags stack : Nat) : context_t :=
  if flags &&& cfg.TASK_USER ≠ 0 then
    { eflags := 0x202, eip := entry, ebp := (stack + cfg.STACK_SIZE) % 2 ^ 32,
      cs := 0x18, ds := 0x20, es := 0x20, fs := 0x20, gs := 0x20 }
  else
    { eflags := 0x202, eip := entry, ebp := (stack + cfg.STACK_SIZE) % 2 ^ 32,
      cs := 0x08, ds := 0x10, es := 0x10, fs := 0x10, gs := 0x10 }

/-- The state that a returning `thread_create` leaves, for the process block
`pp` with content `process` that the lookup found. -/
def thread_create_result (cfg : Config) (s : KState) (pp : Nat) (process : process_t)
    (entry flags block stack : Nat) : KState :=
  { s with
    TID := wrap32 (s.TID + 1)
    theap := Function.update s.theap block (some (created_thread cfg s entry stack pp))
    contexts := Function.update s.contexts (initial_esp cfg stack)
      (some (created_context cfg entry (process.flags ||| flags) stack))
    pheap := Function.update s.pheap pp
      (some { process with threads := process.threads ++ [block] })
    threads := s.threads ++ [block]
    waiting := match s.running with
      | some _ => s.waiting ++ [block]
      | none => s.waiting
    running := match s.running with
      | some r => some r
      | none => some block }

/-- The block of a process as `process_create` leaves it. -/
def created_process (cfg : Config) (s : KState) (name : List Nat) (flags : Nat)
    (junk : process_state_t) (new_pdir : Nat) : process_t :=
  { id := s.PID, name := name.take cfg.PROCNAME_SIZE, flags := flags, threads := [],
    pdir := if flags &&& cfg.TASK_USER ≠ 0 then new_pdir else cfg.memory_kpdir,
    state := junk }

/-- The state that a returning `process_create` leaves. -/
def process_create_result (cfg : Config) (s : KState) (name : List Nat) (flags block : Nat)
    (junk : process_state_t) (new_pdir : Nat) : KState :=
  { s with
    PID := wrap32 (s.PID + 1)
    pheap := Function.update s.pheap block
      (some (created_process cfg s name flags junk new_pdir))
    processes := s.processes ++ [block] }

/-- The memory content that `memset(dest, value, n)` leaves when it runs in
the directory `pdir`. -/
def memset_vmem (vmem : Nat → Nat → Nat) (pdir dest value n : Nat) : Nat → Nat → Nat :=
  fun d a => if d = pdir ∧ dest ≤ a ∧ a < dest + n then value % 256 else vmem d a

/-- The memory content that `memcpy(dest, src, n)` leaves when it runs in the
directory `pdir`. -/
def memcpy_vmem (vmem : Nat → Nat → Nat) (pdir dest src n : Nat) : Nat → Nat → Nat :=
  fun d a => if d = pdir ∧ dest ≤ a ∧ a < dest + n then vmem pdir (src + (a - dest)) else vmem d a

/-- The state that a returning `load_elfseg` leaves for a segment in user
memory: `rpdir` is the directory of the process of the running thread,
`tpdir` the directory of the target process and `qpdir` the directory of the
process that `process_map` resolves the id of the target to. -/
def load_elfseg_result (cfg : Config) (s : KState) (rpdir tpdir qpdir : Nat)
    (src srcsz dest destsz : Nat) : KState :=
  { s with
    active_pdir := rpdir
    mapped := (memory_map cfg s qpdir dest (PAGE_ALIGN cfg destsz / cfg.PAGE_SIZE)).1.mapped
    vmem := memcpy_vmem (memset_vmem s.vmem tpdir dest 0 destsz) tpdir dest src srcsz }

/-- The active page directory is the directory of the process of the running
thread. -/
def active_is_running_pdir (s : KState) : Prop :=
  ∃ r rt rpp rprocess, s.running = some r ∧ s.theap r = some rt ∧ rt.process = some rpp ∧
    s.pheap rpp = some rprocess ∧ s.active_pdir = rprocess.pdir

/-- The states reachable from `tasking_setup` by `thread_create`,
`process_create` and `shedule` steps.  When `tasking_setup` runs, paging is
set up with the kernel directory; `malloc` hands out blocks that are not
live. -/
inductive SwitchReachable (cfg : Config) : KState → Prop where
  | setup (s0 s : KState) (pblock : Nat) (junk : process_state_t) (tblock tstack : Nat) :
      s0.active_pdir = cfg.memory_kpdir → s0.pheap pblock = none → s0.theap tblock = none →
      tasking_setup cfg s0 pblock junk tblock tstack = .ok s → SwitchReachable cfg s
  | thread_create (s s2 : KState) (p : Int) (entry flags block stack : Nat) (id : Int) :
      SwitchReachable cfg s → s.theap block = none →
      thread_create cfg s p entry flags block stack = .ok (s2, id) → SwitchReachable cfg s2
  | process_create (s s2 : KState) (name : List Nat) (flags block : Nat)
      (junk : process_state_t) (new_pdir : Nat) (id : Int) :
      SwitchReachable cfg s → s.pheap block = none →
      process_create cfg s name flags block junk new_pdir = .ok (s2, id) →
      SwitchReachable cfg s2
  | shedule (s s2 : KState) (esp e : Nat) :
      SwitchReachable cfg s → shedule cfg s esp = .ok (s2, e) → SwitchReachable cfg s2

/-- The threads of the global list are live, their ids lie below `TID` and
are pairwise distinct. -/
def thread_ids_ok (s : KState) : Prop :=
  (∀ j ∈ s.threads, ∃ t, s.theap j = some t ∧ t.id < s.TID) ∧
  s.threads.Pairwise (fun a b =>
    ∀ ta tb, s.theap a = some ta → s.theap b = some tb → ta.id ≠ tb.id)

/-- The processes of the process list are live, their ids lie below `PID` and
are pairwise distinct. -/
def process_ids_ok (s : KState) : Prop :=
  (∀ j ∈ s.processes, ∃ P, s.pheap j = some P ∧ P.id < s.PID) ∧
  s.processes.Pairwise (fun a b =>
    ∀ Pa Pb, s.pheap a = some Pa → s.pheap b = some Pb → Pa.id ≠ Pb.id)

/-- The states reachable from `tasking_setup` by calls of `thread_create`,
`process_create` and `process_exec` that create something, together with the
thread ids and the process ids that the calls made so far returned, oldest
first.  `PID` and `TID` start at 0, their static initialisers; a counter
below `2^31 - 1` does not wrap at the creation; `malloc` hands out blocks that
are not live.  A `process_exec` whose file does not open creates nothing and
changes nothing, so it adds no state. -/
inductive Created (cfg : Config) : KState → List Int → List Int → Prop where
  | setup (s0 s : KState) (pblock : Nat) (junk : process_state_t) (tblock tstack : Nat) :
      s0.PID = 0 → s0.TID = 0 → s0.pheap pblock = none → s0.theap tblock = none →
      tasking_setup cfg s0 pblock junk tblock tstack = .ok s →
      Created cfg s [s.kernel_thread] [s.kernel_process]
  | thread_create (s s2 : KState) (tids pids : List Int) (p : Int)
      (entry flags block stack : Nat) (id : Int) :
      Created cfg s tids pids → s.theap block = none → s.TID < 2 ^ 31 - 1 →
      thread_create cfg s p entry flags block stack = .ok (s2, id) →
      Created cfg s2 (tids ++ [id]) pids
  | process_create (s s2 : KState) (tids pids : List Int) (name : List Nat)
      (flags block : Nat) (junk : process_state_t) (new_pdir : Nat) (id : Int) :
      Created cfg s tids pids → s.pheap block = none → s.PID < 2 ^ 31 - 1 →
      process_create cfg s name flags block junk new_pdir = .ok (s2, id) →
      Created cfg s2 tids (pids ++ [id])
  | process_exec (s s2 : KState) (tids pids : List Int) (path : List Nat) (elf : ELF_image)
      (pblock : Nat) (junk : process_state_t) (tblock tstack : Nat) (id : Int)
      (th : thread_t) :
      Created cfg s tids pids → s.pheap pblock = none → s.theap tblock = none →
      s.PID < 2 ^ 31 - 1 → s.TID < 2 ^ 31 - 1 →
      process_exec cfg s path (some elf) pblock junk tblock tstack = .ok (s2, id) →
      s2.theap tblock = some th →
      Created cfg s2 (tids ++ [th.id]) (pids ++ [id])

/-- The returned ids are strictly increasing and lie below the counters, and
the counters did not wrap. -/
def returned_ids_ok (s : KState) (tids pids : List Int) : Prop :=
  0 ≤ s.TID ∧ 0 ≤ s.PID ∧
  tids.Pairwise (fun a b => a < b) ∧ (∀ i ∈ tids, i < s.TID) ∧
  pids.Pairwise (fun a b => a < b) ∧ (∀ i ∈ pids, i < s.PID)

/-- The ready-queue invariant in the words of the specification: the ready
queue contains no thread twice and not the running thread, and every thread
of the global thread list is either the running thread or appears in the
ready queue exactly once. -/
def ready_queue_ok (s : KState) : Prop :=
  s.waiting.Nodup ∧ (∀ r, s.running = some r → r ∉ s.waiting) ∧
  ∀ j ∈ s.threads, (s.running = some j ∧ s.waiting.count j = 0) ∨
    (s.running ≠ some j ∧ s.waiting.count j = 1)

/-- The running thread followed by the ready queue lists every thread of the
global list, and no thread twice. -/
def rotation_ok (s : KState) : Prop :=
  ∃ r, s.running = some r ∧ (r :: s.waiting).Nodup ∧ ∀ j ∈ s.threads, j = r ∨ j ∈ s.waiting

/-- The states produced by `tasking_setup` followed by calls of
`thread_create`.  There is no address overflow: the boot stack and every
stack that `malloc` hands out end below the top of the 32-bit address space;
`malloc` hands out blocks that are not live. -/
inductive AfterSetup (cfg : Config) : KState → Prop where
  | setup (s0 s : KState) (pblock : Nat) (junk : process_state_t) (tblock tstack : Nat) :
      s0.pheap pblock = none → s0.theap tblock = none →
      cfg.stack_bottom + cfg.STACK_SIZE < 2 ^ 32 →
      tasking_setup cfg s0 pblock junk tblock tstack = .ok s → AfterSetup cfg s
  | thread_create (s s2 : KState) (p : Int) (entry flags block stack : Nat) (id : Int) :
      AfterSetup cfg s → s.theap block = none → stack + cfg.STACK_SIZE < 2 ^ 32 →
      thread_create cfg s p entry flags block stack = .ok (s2, id) → AfterSetup cfg s2

/-- The stack invariant in the words of the specification: every thread of
the global list has a saved stack pointer inside
`[stack_base, stack_base + STACK_SIZE)`. -/
def esp_inside_stack (cfg : Config) (s : KState) : Prop :=
  ∀ j ∈ s.threads, ∃ t, s.theap j = some t ∧
    t.stack ≤ t.esp ∧ t.esp < t.stack + cfg.STACK_SIZE

/-- The stack pointers as the code leaves them: the head of the global thread
list is the kernel thread, on the boot stack with its saved stack pointer at
the top of that stack; every later thread has its saved stack pointer one
context below the top of its stack. -/
def esp_as_created (cfg : Config) (s : KState) : Prop :=
  ∃ k rest K, s.threads = k :: rest ∧ s.theap k = some K ∧ K.id = s.kernel_thread ∧
    K.stack = cfg.stack_bottom ∧ K.esp = K.stack + cfg.STACK_SIZE ∧
    ∀ j ∈ rest, ∃ t, s.theap j = some t ∧
      t.esp + cfg.sizeof_context_t = t.stack + cfg.STACK_SIZE

/-- A run of destructions: `kill_thread` is applied to each thread pointer of
the list, in order. -/
def kill_threads (cfg : Config) : KState → List Nat → Except Halt KState
  | s, [] => .ok s
  | s, thread :: rest =>
    match kill_thread cfg s thread with
    | .error e => .error e
    | .ok s1 => kill_threads cfg s1 rest

/-- A call of one of the two destruction routines, with its pointer
argument. -/
inductive kill_call where
  | thread (thread : Nat)
  | process (process : Nat)
deriving DecidableEq, Repr

/-- A run of calls of `kill_thread` and `kill_process`, in order. -/
def kill_calls (cfg : Config) : KState → List kill_call → Except Halt KState
  | s, [] => .ok s
  | s, kill_call.thread thread :: rest =>
    match kill_thread cfg s thread with
    | .error e => .error e
    | .ok s1 => kill_calls cfg s1 rest
  | s, kill_call.process process :: rest =>
    match kill_process cfg s process with
    | .error e => .error e
    | .ok s1 => kill_calls cfg s1 rest

/-- The stack of the thread block, 0 when the block is not live. -/
def stack_of (s : KState) (thread : Nat) : Nat :=
  match s.theap thread with
  | some t => t.stack
  | none => 0

/-- The `free` calls that `free_thread` makes for the threads of the list, in
order: for each thread its stack and then its block. -/
def free_thread_log (s : KState) : List Nat → List Nat
  | [] => []
  | thread :: rest => stack_of s thread :: thread :: free_thread_log s rest

/-- The state that `kill_thread` leaves for a thread `t` at `thread` that is
not the last one of its process `P` at `pp`. -/
def kill_thread_result (s : KState) (thread pp : Nat) (t : thread_t) (P : process_t) : KState :=
  { s with
    pheap := Function.update s.pheap pp (some { P with threads := P.threads.erase thread })
    freed := s.freed ++ [t.stack, thread]
    theap := Function.update s.theap thread none }

/-! ## A small concrete system, used to exercise the statements -/

/-- Constants of the concrete system: 16 KiB stacks. -/
def ex_cfg : Config :=
  { STACK_SIZE := 0x4000, TASK_USER := 1, PROCNAME_SIZE := 128, sizeof_context_t := 68,
    stack_bottom := 0x200000, memory_kpdir := 0x9000, PAGE_SIZE := 0x1000 }

/-- The kernel thread of the concrete system. -/
def ex_thread0 : thread_t :=
  { id := 0, stack := 0x10000, entry := 0, esp := 0x13f00, process := some 0x100,
    state := THREAD_RUNNING, waitinfo := { handle := 0, outcode := 0 } }

/-- The first thread of process 1 of the concrete system. -/
def ex_thread1 : thread_t :=
  { id := 1, stack := 0x20000, entry := 0x400000, esp := 0x23f00, process := some 0x200,
    state := THREAD_RUNNING, waitinfo := { handle := 0, outcode := 0 } }

/-- The thread of the concrete system that waits for thread 1. -/
def ex_thread2 : thread_t :=
  { id := 2, stack := 0x30000, entry := 0x400100, esp := 0x33f00, process := some 0x200,
    state := THREAD_WAIT_THREAD, waitinfo := { handle := 1, outcode := 0x500 } }

/-- Thread blocks of the concrete system: thread 0 of the kernel process,
threads 1, 2, 3 of process 1; thread 2 waits for thread 1 and thread 3 waits
for process 1. -/
def ex_theap : Nat → Option thread_t :=
  fun a =>
    if a = 0x1000 then some ex_thread0
    else if a = 0x2000 then some ex_thread1
    else if a = 0x3000 then some ex_thread2
    else if a = 0x4000 then
      some { id := 3, stack := 0x40000, entry := 0x400200, esp := 0x43f00, process := some 0x200,
             state := THREAD_WAIT_PROCESS, waitinfo := { handle := 1, outcode := 0x600 } }
    else none

/-- The process 1 of the concrete system. -/
def ex_process1 : process_t :=
  { id := 1, name := [115, 104], flags := 0, threads := [0x2000, 0x3000, 0x4000],
    pdir := 0x9000, state := PROCESS_RUNNING }

/-- The kernel process of the concrete system. -/
def ex_process0 : process_t :=
  { id := 0, name := [107, 101, 114, 110, 101, 108], flags := 0, threads := [0x1000],
    pdir := 0x9000, state := PROCESS_RUNNING }

/-- Process blocks of the concrete system: the kernel process 0 and the
process 1. -/
def ex_pheap : Nat → Option process_t :=
  fun a =>
    if a = 0x100 then some ex_process0
    else if a = 0x200 then some ex_process1
    else none

/-- The concrete system with the given running thread and ready queue. -/
def ex_state (running : Option Nat) (waiting : List Nat) : KState :=
  { PID := 2, TID := 4, threads := [0x1000, 0x2000, 0x3000, 0x4000], processes := [0x100, 0x200],
    kernel_process := 0, kernel_thread := 0, running := running, waiting := waiting, ticks := 0,
    theap := ex_theap, pheap := ex_pheap, mem := fun _ => 99, contexts := fun _ => none,
    kernel_stack := 0x14000, active_pdir := 0x9000, freed := [], pdir_freed := [],
    ports := [], irq0_is_shedule := true }

/-- The concrete system with thread 0 running, the page at `0x300000` present
in the kernel directory and the bytes 1, 2, ..., 16 stored there. -/
def ex_loader_state : KState :=
  { ex_state (some 0x1000) [0x2000] with
    mapped := fun d pg => decide (d = 0x9000 ∧ pg = 0x300)
    vmem := fun d a => if d = 0x9000 ∧ 0x300000 ≤ a ∧ a < 0x300010 then a - 0x300000 + 1 else 0 }

/-- An image read to `0x300000`: one segment for `0x400000`, one segment
below the threshold and one segment for `0x401000`. -/
def ex_image : ELF_image :=
  { buffer := 0x300000, entry := 0x400010,
    programs := [{ offset := 4, filesz := 3, vaddr := 0x400000, memsz := 5 },
                 { offset := 0, filesz := 2, vaddr := 0x8000, memsz := 2 },
                 { offset := 8, filesz := 2, vaddr := 0x401000, memsz := 2 }] }

/-- The concrete system after `process_exec` ran on the image. -/
def ex_after_exec : KState :=
  match process_exec ex_cfg ex_loader_state [115] (some ex_image) 0x300 PROCESS_RUNNING
      0x5000 0x50000 with
  | .ok (s, _) => s
  | .error _ => ex_loader_state

/-- The machine before `tasking_setup` with the page at `0x300000` present in
the kernel directory and the bytes 1, 2, ..., 16 stored there. -/
def ex_paged_boot : KState :=
  { PID := 0, TID := 0, threads := [], processes := [], kernel_process := 0, kernel_thread := 0,
    running := none, waiting := [], ticks := 0, theap := fun _ => none, pheap := fun _ => none,
    mem := fun _ => 0, contexts := fun _ => none, kernel_stack := 0, active_pdir := 0x9000,
    freed := [], pdir_freed := [], ports := [], irq0_is_shedule := false,
    mapped := fun d pg => decide (d = 0x9000 ∧ pg = 0x300),
    vmem := fun d a => if d = 0x9000 ∧ 0x300000 ≤ a ∧ a < 0x300010 then a - 0x300000 + 1 else 0 }

/-- That machine after `tasking_setup`. -/
def ex_paged_setup : KState :=
  match tasking_setup ex_cfg ex_paged_boot 0x100 PROCESS_RUNNING 0x1000 0x10000 with
  | .ok s => s
  | .error _ => ex_paged_boot

/-- That machine after a second thread of the kernel process was created. -/
def ex_paged_create : KState :=
  match thread_create ex_cfg ex_paged_setup 0 0x400000 0 0x2000 0x20000 with
  | .ok (s, _) => s
  | .error _ => ex_paged_setup

/-- That machine after a timer interrupt switched to the second thread. -/
def ex_paged_switched : KState :=
  match shedule ex_cfg ex_paged_create 0x203f00 with
  | .ok (s, _) => s
  | .error _ => ex_paged_create

/-- That machine after a segment was loaded for the kernel process. -/
def ex_paged_loaded : KState :=
  match load_elfseg ex_cfg ex_paged_switched (some 0x100) 0x300004 3 0x400000 5 with
  | .ok s => s
  | .error _ => ex_paged_switched

/-- That machine, before the timer interrupt, after `process_exec` ran on the
image. -/
def ex_paged_exec : KState :=
  match process_exec ex_cfg ex_paged_create [115] (some ex_image) 0x300 PROCESS_RUNNING
      0x5000 0x50000 with
  | .ok (s, _) => s
  | .error _ => ex_paged_create

/-- The thread that this `process_exec` created. -/
def ex_exec_thread : thread_t :=
  { id := 2, stack := 0x50000, entry := 0x400010, esp := 0x53fbc, process := some 0x300,
    state := THREAD_RUNNING, waitinfo := { handle := 0, outcode := 0 } }

/-- The machine before `tasking_setup`: no blocks, counters at 0, paging set
up with the kernel directory. -/
def ex_boot : KState :=
  { PID := 0, TID := 0, threads := [], processes := [], kernel_process := 0, kernel_thread := 0,
    running := none, waiting := [], ticks := 0, theap := fun _ => none, pheap := fun _ => none,
    mem := fun _ => 0, contexts := fun _ => none, kernel_stack := 0, active_pdir := 0x9000,
    freed := [], pdir_freed := [], ports := [], irq0_is_shedule := false }

/-- The concrete machine after `tasking_setup`. -/
def ex_after_setup : KState :=
  match tasking_setup ex_cfg ex_boot 0x100 PROCESS_RUNNING 0x1000 0x10000 with
  | .ok s => s
  | .error _ => ex_boot

/-- The concrete machine after a second thread of the kernel process was
created. -/
def ex_after_create : KState :=
  match thread_create ex_cfg ex_after_setup 0 0x400000 0 0x2000 0x20000 with
  | .ok (s, _) => s
  | .error _ => ex_after_setup

/-- The concrete machine after the second thread blocked on the kernel
process, with output slot `0x600`. -/
def ex_kernel_awaited : KState :=
  match thread_block ex_after_create 0x2000 THREAD_WAIT_PROCESS 0 0x600 with
  | .ok s => s
  | .error _ => ex_after_create

/-- The concrete system after a timer interrupt that arrives with stack
pointer `0x13f80` while thread 0 runs and thread 1 is ready. -/
def ex_after_tick : KState :=
  match shedule ex_cfg (ex_state (some 0x1000) [0x2000]) 0x13f80 with
  | .ok (s, _) => s
  | .error _ => ex_state (some 0x1000) [0x2000]

/-- The concrete machine after a timer interrupt switched from the kernel
thread to the second thread. -/
def ex_after_switch : KState :=
  match shedule ex_cfg ex_after_create 0x203f00 with
  | .ok (s, _) => s
  | .error _ => ex_after_create

/-- The concrete system with thread 1 running and the other three threads in
the ready queue. -/
def ex_rotation : KState :=
  ex_state (some 0x2000) [0x1000, 0x3000, 0x4000]

/-- That system after `kill_thread` was applied to thread 2. -/
def ex_killed_one : KState :=
  match kill_thread ex_cfg ex_rotation 0x3000 with
  | .ok s => s
  | .error _ => ex_rotation

/-- That system after `kill_thread` was applied to thread 2, thread 3 and
thread 1, the three threads of process 1. -/
def ex_killed_all : KState :=
  match kill_threads ex_cfg ex_rotation [0x3000, 0x4000, 0x2000] with
  | .ok s => s
  | .error _ => ex_rotation

/-- The concrete machine after setup with a user process, id 1, that owns the
address space `0xA000` and one thread. -/
def ex_user : KState :=
  match process_create ex_cfg ex_after_setup [117] 1 0x300 PROCESS_RUNNING 0xA000 with
  | .ok (s1, _) =>
    match thread_create ex_cfg s1 1 0x400000 0 0x3000 0x30000 with
    | .ok (s2, _) => s2
    | .error _ => ex_after_setup
  | .error _ => ex_after_setup

/-- That machine after the thread of the user process and then the kernel
thread were killed. -/
def ex_user_killed : KState :=
  match kill_calls ex_cfg ex_user [kill_call.thread 0x3000, kill_call.thread 0x1000] with
  | .ok s => s
  | .error _ => ex_user

/-! ## Facts about `notify_threads` -/

theorem is_notified_iff (is_thread : Bool) (handle : Int) (t : thread_t) :
    is_notified is_thread handle t = true ↔
      waits_with_kind is_thread t ∧ t.waitinfo.handle = handle := by
  cases is_thread <;> simp [is_notified, waits_with_kind]


theorem notify_step_eq (is_thread : Bool) (handle outcode : Int) (s : KState) (i : Nat)
    (t : thread_t) (h : s.theap i = some t) :
    notify_step is_thread handle outcode s i =
      if is_notified is_thread handle t then
        if t.waitinfo.outcode = 0 then .error Halt.bad_deref
        else
          .ok { s with
            mem := Function.update s.mem t.waitinfo.outcode outcode
            theap := Function.update s.theap i (some { t with state := THREAD_RUNNING }) }
      else .ok s := by
  simp [notify_step, h]

theorem is_notified_release (is_thread : Bool) (handle : Int) (t : thread_t) :
    is_notified is_thread handle { t with state := THREAD_RUNNING } = false := by
  cases is_thread <;> simp [is_notified]

/-- What one iteration does to the thread heap and the `int` cells. -/
theorem notify_step_spec (is_thread : Bool) (handle outcode : Int) (s s1 : KState) (i : Nat)
    (h : notify_step is_thread handle outcode s i = .ok s1) :
    ∃ t, s.theap i = some t ∧
      ((is_notified is_thread handle t = false ∧ s1 = s) ∨
       (is_notified is_thread handle t = true ∧ t.waitinfo.outcode ≠ 0 ∧
        s1 = { s with
          mem := Function.update s.mem t.waitinfo.outcode outcode
          theap := Function.update s.theap i (some { t with state := THREAD_RUNNING }) })) := by
  cases ht : s.theap i with
  | none => simp [notify_step, ht] at h
  | some t =>
    refine ⟨t, rfl, ?_⟩
    rw [notify_step_eq is_thread handle outcode s i t ht] at h
    by_cases hm : is_notified is_thread handle t = true
    · by_cases hz : t.waitinfo.outcode = 0
      · simp [hm, hz] at h
      · simp only [hm, hz, if_true, if_false, Except.ok.injEq] at h
        exact Or.inr ⟨hm, hz, h.symm⟩
    · have hf : is_notified is_thread handle t = false := by simpa using hm
      simp only [hf, Bool.false_eq_true, if_false, Except.ok.injEq] at h
      exact Or.inl ⟨hf, h.symm⟩

theorem notify_loop_cons (is_thread : Bool) (handle outcode : Int) (i : Nat) (rest : List Nat)
    (s s2 : KState) (h : notify_loop is_thread handle outcode (i :: rest) s = .ok s2) :
    ∃ s1, notify_step is_thread handle outcode s i = .ok s1 ∧
      notify_loop is_thread handle outcode rest s1 = .ok s2 := by
  cases hs : notify_step is_thread handle outcode s i with
  | error e => simp [notify_loop, hs] at h
  | ok s1 => exact ⟨s1, rfl, by simpa [notify_loop, hs] using h⟩

/-- Every record of the thread heap is either untouched or was a notified
waiter of the list and is now the same record in state RUNNING. -/
theorem notify_loop_theap (is_thread : Bool) (handle outcode : Int) :
    ∀ (l : List Nat) (s s2 : KState), notify_loop is_thread handle outcode l s = .ok s2 →
      ∀ j, s2.theap j = s.theap j ∨
        ∃ t, j ∈ l ∧ s.theap j = some t ∧ is_notified is_thread handle t = true ∧
          s2.theap j = some { t with state := THREAD_RUNNING } := by
  intro l
  induction l with
  | nil =>
    intro s s2 h j
    simp only [notify_loop, Except.ok.injEq] at h
    exact Or.inl (by rw [h])
  | cons i rest ih =>
    intro s s2 h j
    obtain ⟨s1, hstep, hrest⟩ := notify_loop_cons is_thread handle outcode i rest s s2 h
    obtain ⟨t, ht, hcase⟩ := notify_step_spec is_thread handle outcode s s1 i hstep
    rcases hcase with ⟨_, rfl⟩ | ⟨hm, _, rfl⟩
    · rcases ih s1 s2 hrest j with h1 | ⟨u, hj, hu, hmu, h2⟩
      · exact Or.inl h1
      · exact Or.inr ⟨u, List.mem_cons_of_mem _ hj, hu, hmu, h2⟩
    · by_cases hji : j = i
      · subst hji
        rcases ih _ s2 hrest j with h1 | ⟨u, _, hu, hmu, _⟩
        · refine Or.inr ⟨t, List.mem_cons_self _ _, ht, hm, ?_⟩
          rw [h1]
          simp
        · simp only [Function.update_same, Option.some.injEq] at hu
          rw [← hu, is_notified_release] at hmu
          exact absurd hmu (by simp)
      · rcases ih _ s2 hrest j with h1 | ⟨u, hj, hu, hmu, h2⟩
        · refine Or.inl ?_
          rw [h1]
          simp [Function.update_noteq hji]
        · simp only [Function.update_noteq hji] at hu
          exact Or.inr ⟨u, List.mem_cons_of_mem _ hj, hu, hmu, h2⟩

/-- Every `int` cell is either untouched or holds the outcode and is the
output slot of a notified waiter of the list. -/
theorem notify_loop_mem (is_thread : Bool) (handle outcode : Int) :
    ∀ (l : List Nat) (s s2 : KState), notify_loop is_thread handle outcode l s = .ok s2 →
      ∀ a, s2.mem a = s.mem a ∨
        (s2.mem a = outcode ∧ ∃ j t, j ∈ l ∧ s.theap j = some t ∧
          is_notified is_thread handle t = true ∧ t.waitinfo.outcode = a) := by
  intro l
  induction l with
  | nil =>
    intro s s2 h a
    simp only [notify_loop, Except.ok.injEq] at h
    exact Or.inl (by rw [h])
  | cons i rest ih =>
    intro s s2 h a
    obtain ⟨s1, hstep, hrest⟩ := notify_loop_cons is_thread handle outcode i rest s s2 h
    obtain ⟨t, ht, hcase⟩ := notify_step_spec is_thread handle outcode s s1 i hstep
    rcases hcase with ⟨_, rfl⟩ | ⟨hm, _, rfl⟩
    · rcases ih s1 s2 hrest a with h1 | ⟨h1, j, u, hj, hu, hmu, ha⟩
      · exact Or.inl h1
      · exact Or.inr ⟨h1, j, u, List.mem_cons_of_mem _ hj, hu, hmu, ha⟩
    · rcases ih _ s2 hrest a with h1 | ⟨h1, j, u, hj, hu, hmu, ha⟩
      · by_cases hat : a = t.waitinfo.outcode
        · refine Or.inr ⟨?_, i, t, List.mem_cons_self _ _, ht, hm, hat.symm⟩
          rw [h1, hat]
          simp
        · refine Or.inl ?_
          rw [h1]
          simp [Function.update_noteq hat]
      · refine Or.inr ⟨h1, ?_⟩
        by_cases hji : j = i
        · subst hji
          simp only [Function.update_same, Option.some.injEq] at hu
          rw [← hu, is_notified_release] at hmu
          exact absurd hmu (by simp)
        · simp only [Function.update_noteq hji] at hu
          exact ⟨j, u, List.mem_cons_of_mem _ hj, hu, hmu, ha⟩

/-- The loop writes the thread heap and the `int` cells and nothing else. -/
theorem notify_loop_fields (is_thread : Bool) (handle outcode : Int) :
    ∀ (l : List Nat) (s s2 : KState), notify_loop is_thread handle outcode l s = .ok s2 →
      s2 = { s with theap := s2.theap, mem := s2.mem } := by
  intro l
  induction l with
  | nil =>
    intro s s2 h
    simp only [notify_loop, Except.ok.injEq] at h
    rw [← h]
  | cons i rest ih =>
    intro s s2 h
    obtain ⟨s1, hstep, hrest⟩ := notify_loop_cons is_thread handle outcode i rest s s2 h
    obtain ⟨t, ht, hcase⟩ := notify_step_spec is_thread handle outcode s s1 i hstep
    have h2 := ih s1 s2 hrest
    rcases hcase with ⟨_, rfl⟩ | ⟨_, _, rfl⟩
    · exact h2
    · rw [h2]

/-- A notified waiter of the list ends in state RUNNING with the outcode in
its output slot. -/
theorem notify_loop_released (is_thread : Bool) (handle outcode : Int) :
    ∀ (l : List Nat) (s s2 : KState), notify_loop is_thread handle outcode l s = .ok s2 →
      ∀ j t, j ∈ l → s.theap j = some t → is_notified is_thread handle t = true →
        s2.theap j = some { t with state := THREAD_RUNNING } ∧
        s2.mem t.waitinfo.outcode = outcode := by
  intro l
  induction l with
  | nil => intro s s2 _ j t hj; simp at hj
  | cons i rest ih =>
    intro s s2 h j t hj ht hm
    obtain ⟨s1, hstep, hrest⟩ := notify_loop_cons is_thread handle outcode i rest s s2 h
    obtain ⟨u, hu, hcase⟩ := notify_step_spec is_thread handle outcode s s1 i hstep
    by_cases hji : j = i
    · subst hji
      rw [ht] at hu
      cases hu
      rcases hcase with ⟨hn, _⟩ | ⟨_, _, rfl⟩
      · rw [hm] at hn
        exact absurd hn (by simp)
      · constructor
        · rcases notify_loop_theap is_thread handle outcode rest _ s2 hrest j with
            h1 | ⟨v, _, hv, hmv, _⟩
          · rw [h1]
            simp
          · simp only [Function.update_same, Option.some.injEq] at hv
            rw [← hv, is_notified_release] at hmv
            exact absurd hmv (by simp)
        · rcases notify_loop_mem is_thread handle outcode rest _ s2 hrest
            t.waitinfo.outcode with h1 | ⟨h1, _⟩
          · rw [h1]
            simp
          · exact h1
    · have hjr : j ∈ rest := by
        rcases List.mem_cons.mp hj with h1 | h1
        · exact absurd h1 hji
        · exact h1
      refine ih s1 s2 hrest j t hjr ?_ hm
      rcases hcase with ⟨_, rfl⟩ | ⟨_, _, rfl⟩
      · exact ht
      · simpa [Function.update_noteq hji] using ht

/-- The loop runs to its end when every item of the list points to a live
thread and every notified waiter has an output slot. -/
theorem notify_loop_ok (is_thread : Bool) (handle outcode : Int) :
    ∀ (l : List Nat) (s : KState),
      (∀ j ∈ l, ∃ t, s.theap j = some t ∧
        (is_notified is_thread handle t = true → t.waitinfo.outcode ≠ 0)) →
      ∃ s2, notify_loop is_thread handle outcode l s = .ok s2 := by
  intro l
  induction l with
  | nil => intro s _; exact ⟨s, rfl⟩
  | cons i rest ih =>
    intro s hl
    obtain ⟨t, ht, hz⟩ := hl i (List.mem_cons_self _ _)
    have hstep := notify_step_eq is_thread handle outcode s i t ht
    by_cases hm : is_notified is_thread handle t = true
    · simp only [hm, hz hm, if_true, if_false] at hstep
      have hrest : ∀ j ∈ rest, ∃ u,
          (Function.update s.theap i (some { t with state := THREAD_RUNNING })) j = some u ∧
          (is_notified is_thread handle u = true → u.waitinfo.outcode ≠ 0) := by
        intro j hj
        by_cases hji : j = i
        · subst hji
          refine ⟨{ t with state := THREAD_RUNNING }, by simp, ?_⟩
          intro hc
          rw [is_notified_release] at hc
          exact absurd hc (by simp)
        · obtain ⟨u, hu, hzu⟩ := hl j (List.mem_cons_of_mem _ hj)
          exact ⟨u, by simpa [Function.update_noteq hji] using hu, hzu⟩
      obtain ⟨s2, h2⟩ := ih { s with
          mem := Function.update s.mem t.waitinfo.outcode outcode
          theap := Function.update s.theap i (some { t with state := THREAD_RUNNING }) } hrest
      exact ⟨s2, by simp only [notify_loop, hstep, h2]⟩
    · have hf : is_notified is_thread handle t = false := by simpa using hm
      simp only [hf, Bool.false_eq_true, if_false] at hstep
      obtain ⟨s2, h2⟩ := ih s (fun j hj => hl j (List.mem_cons_of_mem _ hj))
      exact ⟨s2, by simp only [notify_loop, hstep, h2]⟩

/-! ## Notify -/

/-- With live threads and output slots for the matching waiters the notify
returns and releases every matching waiter of the list. -/
theorem notify_threads_releases (s : KState) (is_thread : Bool) (h c : Int)
    (hlive : threads_live s) (hslot : waiters_have_slot s is_thread h) :
    ∃ s2, notify_threads s is_thread h c = .ok s2 ∧
      ∀ j ∈ s.threads, ∀ t, s.theap j = some t →
        waits_with_kind is_thread t → t.waitinfo.handle = h →
          s2.theap j = some { t with state := THREAD_RUNNING } ∧
          s2.mem t.waitinfo.outcode = c := by
  have hok : ∃ s2, notify_loop is_thread h c s.threads s = .ok s2 := by
    apply notify_loop_ok
    intro j hj
    obtain ⟨t, ht⟩ := hlive j hj
    refine ⟨t, ht, fun hm => ?_⟩
    obtain ⟨hk, hh⟩ := (is_notified_iff is_thread h t).mp hm
    exact hslot j hj t ht hk hh
  obtain ⟨s2, h2⟩ := hok
  refine ⟨s2, h2, ?_⟩
  intro j hj t ht hk hh
  exact notify_loop_released is_thread h c s.threads s s2 h2 j t hj ht
    ((is_notified_iff is_thread h t).mpr ⟨hk, hh⟩)

/-- C4: notify is a broadcast.  When every item of the thread list is a live
thread and every waiter that matches the notify has an output slot,
`notify_threads(is_thread, h, c)` returns, and every thread of the list that
had `waitinfo.handle = h` and waited with the matching kind is afterwards the
same record in state RUNNING, with `c` in its output slot. -/
theorem notify_threads_broadcast (s : KState) (is_thread : Bool) (h c : Int)
    (hlive : threads_live s) (hslot : waiters_have_slot s is_thread h) :
    ∃ s2, notify_threads s is_thread h c = .ok s2 ∧
      ∀ j ∈ s.threads, ∀ t, s.theap j = some t →
        waits_with_kind is_thread t → t.waitinfo.handle = h →
          s2.theap j = some { t with state := THREAD_RUNNING } ∧
          s2.mem t.waitinfo.outcode = c :=
  notify_threads_releases s is_thread h c hlive hslot

theorem ex_threads_live (running : Option Nat) (waiting : List Nat) :
    threads_live (ex_state running waiting) := by
  intro j hj
  simp only [ex_state, List.mem_cons, List.mem_singleton, List.not_mem_nil, or_false] at hj
  rcases hj with rfl | rfl | rfl | rfl <;> simp [ex_state, ex_theap]

theorem ex_waiters_have_slot (running : Option Nat) (waiting : List Nat) (is_thread : Bool)
    (handle : Int) : waiters_have_slot (ex_state running waiting) is_thread handle := by
  intro j hj t ht hk _
  simp only [ex_state, List.mem_cons, List.mem_singleton, List.not_mem_nil, or_false] at hj
  rcases hj with rfl | rfl | rfl | rfl <;>
    simp [ex_state, ex_theap] at ht <;> subst ht <;>
    first
      | (rcases hk with ⟨_, h1⟩ | ⟨_, h1⟩ <;> simp [ex_thread0, ex_thread1] at h1; done)
      | simp [ex_thread2]

theorem notify_threads_broadcast_witness :
    threads_live (ex_state (some 0x1000) [0x2000]) ∧
    waiters_have_slot (ex_state (some 0x1000) [0x2000]) false 1 ∧
    ∃ s2, notify_threads (ex_state (some 0x1000) [0x2000]) false 1 7 = .ok s2 ∧
      ∀ j ∈ (ex_state (some 0x1000) [0x2000]).threads, ∀ t,
        (ex_state (some 0x1000) [0x2000]).theap j = some t →
        waits_with_kind false t → t.waitinfo.handle = 1 →
          s2.theap j = some { t with state := THREAD_RUNNING } ∧
          s2.mem t.waitinfo.outcode = 7 :=
  ⟨ex_threads_live _ _, ex_waiters_have_slot _ _ _ _,
    notify_threads_broadcast (ex_state (some 0x1000) [0x2000]) false 1 7
      (ex_threads_live _ _) (ex_waiters_have_slot _ _ _ _)⟩

theorem unrelated_iff (is_thread : Bool) (handle : Int) (t : thread_t) :
    unrelated is_thread handle t ↔ is_notified is_thread handle t = false := by
  cases is_thread <;> cases hs : t.state <;> simp [is_notified, unrelated, hs]

/-- C5: notify does not touch unrelated threads.  Under the conditions of C4
the call returns with the thread list, and every field of the state other
than the thread records and the `int` cells, unchanged; every live thread
keeps its id; a thread that is not waiting, or waits with the other kind, or
waits on a handle other than `h` keeps its whole record (state and wait info
included), and its output slot keeps its value when the slot is exclusively
its own, that is, no released waiter uses the same address. -/
theorem notify_threads_frame (s : KState) (is_thread : Bool) (h c : Int)
    (hlive : threads_live s) (hslot : waiters_have_slot s is_thread h) :
    ∃ s2, notify_threads s is_thread h c = .ok s2 ∧
      s2.threads = s.threads ∧
      s2 = { s with theap := s2.theap, mem := s2.mem } ∧
      (∀ j t, s.theap j = some t → ∃ t2, s2.theap j = some t2 ∧ t2.id = t.id) ∧
      (∀ j t, s.theap j = some t → unrelated is_thread h t →
        s2.theap j = some t ∧
        (slot_not_shared s is_thread h t.waitinfo.outcode →
          s2.mem t.waitinfo.outcode = s.mem t.waitinfo.outcode)) := by
  obtain ⟨s2, h2, _⟩ := notify_threads_releases s is_thread h c hlive hslot
  have hf := notify_loop_fields is_thread h c s.threads s s2 h2
  refine ⟨s2, h2, ?_, hf, ?_, ?_⟩
  · rw [hf]
  · intro j t ht
    rcases notify_loop_theap is_thread h c s.threads s s2 h2 j with h1 | ⟨u, _, hu, _, h1⟩
    · exact ⟨t, by rw [h1, ht], rfl⟩
    · rw [ht] at hu
      cases hu
      exact ⟨_, h1, rfl⟩
  · intro j t ht hun
    have hn := (unrelated_iff is_thread h t).mp hun
    constructor
    · rcases notify_loop_theap is_thread h c s.threads s s2 h2 j with h1 | ⟨u, _, hu, hmu, _⟩
      · rw [h1, ht]
      · rw [ht] at hu
        cases hu
        rw [hn] at hmu
        exact absurd hmu (by simp)
    · intro hex
      rcases notify_loop_mem is_thread h c s.threads s s2 h2 t.waitinfo.outcode with
        h1 | ⟨_, w, u, hw, hu, hmu, ha⟩
      · exact h1
      · obtain ⟨hk, hh⟩ := (is_notified_iff is_thread h u).mp hmu
        exact absurd ha (hex w hw u hu hk hh)

theorem notify_threads_frame_witness :
    threads_live (ex_state (some 0x2000) [0x1000]) ∧
    waiters_have_slot (ex_state (some 0x2000) [0x1000]) true 1 ∧
    ∃ s2, notify_threads (ex_state (some 0x2000) [0x1000]) true 1 5 = .ok s2 ∧
      s2.threads = (ex_state (some 0x2000) [0x1000]).threads ∧
      s2 = { ex_state (some 0x2000) [0x1000] with theap := s2.theap, mem := s2.mem } ∧
      (∀ j t, (ex_state (some 0x2000) [0x1000]).theap j = some t →
        ∃ t2, s2.theap j = some t2 ∧ t2.id = t.id) ∧
      (∀ j t, (ex_state (some 0x2000) [0x1000]).theap j = some t → unrelated true 1 t →
        s2.theap j = some t ∧
        (slot_not_shared (ex_state (some 0x2000) [0x1000]) true 1 t.waitinfo.outcode →
          s2.mem t.waitinfo.outcode =
            (ex_state (some 0x2000) [0x1000]).mem t.waitinfo.outcode)) :=
  ⟨ex_threads_live _ _, ex_waiters_have_slot _ _ _ _,
    notify_threads_frame (ex_state (some 0x2000) [0x1000]) true 1 5
      (ex_threads_live _ _) (ex_waiters_have_slot _ _ _ _)⟩

theorem sanity_check_ok (cfg : Config) (t : thread_t) (hlo : t.stack ≤ t.esp)
    (hhi : t.esp ≤ (t.stack + cfg.STACK_SIZE) % 2 ^ 32) : sanity_check cfg t = .ok () := by
  unfold sanity_check
  rw [if_neg]
  exact not_not.mpr ⟨hlo, hhi⟩

theorem sanity_check_panic (cfg : Config) (t : thread_t)
    (h : ¬ (t.stack ≤ t.esp ∧ t.esp ≤ (t.stack + cfg.STACK_SIZE) % 2 ^ 32)) :
    sanity_check cfg t = .error Halt.PANIC := by
  unfold sanity_check
  rw [if_pos]
  exact h

theorem shedule_eq (cfg : Config) (s : KState) (esp r n pp : Nat) (rest : List Nat)
    (t nt : thread_t) (p : process_t)
    (hrun : s.running = some r) (ht : s.theap r = some t)
    (hlo : t.stack ≤ esp) (hhi : esp ≤ (t.stack + cfg.STACK_SIZE) % 2 ^ 32)
    (hq : s.waiting ++ [r] = n :: rest)
    (hnt : Function.update s.theap r (some { t with esp := esp }) n = some nt)
    (hpp : nt.process = some pp) (hp : s.pheap pp = some p) :
    shedule cfg s esp = .ok
      ({ s with
          ticks := (s.ticks + 1) % 2 ^ 32
          theap := Function.update s.theap r (some { t with esp := esp })
          waiting := rest
          running := some n
          kernel_stack := (nt.stack + cfg.STACK_SIZE) % 2 ^ 32
          active_pdir := p.pdir }, nt.esp) := by
  have hs := sanity_check_ok cfg { t with esp := esp } hlo hhi
  simp [shedule, hrun, ht, hs, list_pushback, hq, list_pop, hnt, hpp, hp]

/-- A call of `shedule` with a stack pointer inside the closed stack range of
the running thread returns, selects the head of the ready queue extended by
the running thread, and changes no thread record except the saved `esp` of
the preempted thread. -/
theorem shedule_step (cfg : Config) (s : KState) (esp r n : Nat) (rest : List Nat) (t : thread_t)
    (hrun : s.running = some r) (ht : s.theap r = some t)
    (hr : schedulable cfg s r) (hn : schedulable cfg s n)
    (hlo : t.stack ≤ esp) (hhi : esp ≤ t.stack + cfg.STACK_SIZE)
    (hq : s.waiting ++ [r] = n :: rest) :
    ∃ s2 e, shedule cfg s esp = .ok (s2, e) ∧ s2.running = some n ∧ s2.waiting = rest ∧
      s2.theap = Function.update s.theap r (some { t with esp := esp }) ∧
      s2.pheap = s.pheap ∧ s2.threads = s.threads ∧
      (∀ j, schedulable cfg s j → schedulable cfg s2 j) := by
  obtain ⟨t0, _, _, ht0, _, _, hfit⟩ := hr
  rw [ht] at ht0
  cases ht0
  have hhi2 : esp ≤ (t.stack + cfg.STACK_SIZE) % 2 ^ 32 := by
    rw [Nat.mod_eq_of_lt hfit]
    exact hhi
  have hkeep : ∀ j, schedulable cfg s j → ∃ u pp p,
      Function.update s.theap r (some { t with esp := esp }) j = some u ∧
      u.process = some pp ∧ s.pheap pp = some p ∧ u.stack + cfg.STACK_SIZE < 2 ^ 32 := by
    intro j hj
    obtain ⟨u, pp, p, hu, hpp, hp, hf⟩ := hj
    by_cases hjr : j = r
    · subst hjr
      rw [ht] at hu
      cases hu
      exact ⟨{ t with esp := esp }, pp, p, by simp, hpp, hp, hf⟩
    · exact ⟨u, pp, p, by simpa [Function.update_noteq hjr] using hu, hpp, hp, hf⟩
  obtain ⟨nt, pp, p, hnt, hpp, hp, _⟩ := hkeep n hn
  refine ⟨_, _, shedule_eq cfg s esp r n pp rest t nt p hrun ht hlo hhi2 hq hnt hpp hp,
    rfl, rfl, rfl, rfl, rfl, ?_⟩
  intro j hj
  exact hkeep j hj

/-! ## Scheduler -/

/-- C3 (amended): for a running thread whose stack region ends below the top
of the address space, `sanity_check` on the stored stack pointer, and
`shedule` which stores its `esp` argument and then checks it, take the fatal
PANIC path if and only if `esp` lies outside the closed interval
`[stack, stack + STACK_SIZE]`; `esp = stack + STACK_SIZE`, the pointer of an
empty stack, is accepted. -/
theorem shedule_panic_iff (cfg : Config) (s : KState) (r : Nat) (t : thread_t) (esp : Nat)
    (hrun : s.running = some r) (ht : s.theap r = some t)
    (hfit : t.stack + cfg.STACK_SIZE < 2 ^ 32) :
    (sanity_check cfg { t with esp := esp } = .error Halt.PANIC ↔
      ¬ (t.stack ≤ esp ∧ esp ≤ t.stack + cfg.STACK_SIZE)) ∧
    (shedule cfg s esp = .error Halt.PANIC ↔
      ¬ (t.stack ≤ esp ∧ esp ≤ t.stack + cfg.STACK_SIZE)) := by
  have hmod : (t.stack + cfg.STACK_SIZE) % 2 ^ 32 = t.stack + cfg.STACK_SIZE :=
    Nat.mod_eq_of_lt hfit
  by_cases hin : t.stack ≤ esp ∧ esp ≤ t.stack + cfg.STACK_SIZE
  · have hs : sanity_check cfg { t with esp := esp } = .ok () :=
      sanity_check_ok cfg { t with esp := esp } hin.1 (by rw [hmod]; exact hin.2)
    refine ⟨by simp [hs, hin], ?_⟩
    simp only [hin, and_self, not_true_eq_false, iff_false]
    simp only [shedule, hrun, ht, hs]
    repeat' split
    all_goals simp
  · have hs : sanity_check cfg { t with esp := esp } = .error Halt.PANIC :=
      sanity_check_panic cfg { t with esp := esp } (by rw [hmod]; exact hin)
    refine ⟨by simp [hs, hin], ?_⟩
    simp [shedule, hrun, ht, hs, hin]

theorem shedule_panic_iff_witness :
    (ex_state (some 0x1000) [0x2000]).running = some 0x1000 ∧
    (ex_state (some 0x1000) [0x2000]).theap 0x1000 = some ex_thread0 ∧
    ex_thread0.stack + ex_cfg.STACK_SIZE < 2 ^ 32 ∧
    (sanity_check ex_cfg { ex_thread0 with esp := 0x14001 } = .error Halt.PANIC ↔
      ¬ (ex_thread0.stack ≤ 0x14001 ∧ 0x14001 ≤ ex_thread0.stack + ex_cfg.STACK_SIZE)) ∧
    (shedule ex_cfg (ex_state (some 0x1000) [0x2000]) 0x14001 = .error Halt.PANIC ↔
      ¬ (ex_thread0.stack ≤ 0x14001 ∧ 0x14001 ≤ ex_thread0.stack + ex_cfg.STACK_SIZE)) :=
  ⟨rfl, rfl, by decide,
    shedule_panic_iff ex_cfg (ex_state (some 0x1000) [0x2000]) 0x1000 ex_thread0 0x14001
      rfl rfl (by decide)⟩

/-- C3, as stated, fails at `esp = stack + STACK_SIZE`: the value lies outside
the half-open interval `[stack, stack + STACK_SIZE)`, yet `sanity_check`
accepts it and `shedule` returns. -/
theorem sanity_check_stack_top_counterexample :
    ¬ (ex_thread0.stack ≤ 0x14000 ∧ 0x14000 < ex_thread0.stack + ex_cfg.STACK_SIZE) ∧
    sanity_check ex_cfg { ex_thread0 with esp := 0x14000 } = .ok () ∧
    ∃ s2, shedule ex_cfg (ex_state (some 0x1000) [0x2000]) 0x14000 = .ok (s2, 0x23f00) :=
  ⟨by decide, rfl, ⟨_, rfl⟩⟩

theorem ex_schedulable (running : Option Nat) (waiting : List Nat) (j : Nat)
    (hj : j ∈ [0x1000, 0x2000, 0x3000, 0x4000]) :
    schedulable ex_cfg (ex_state running waiting) j := by
  simp only [List.mem_cons, List.mem_singleton, List.not_mem_nil, or_false] at hj
  rcases hj with rfl | rfl | rfl | rfl
  · exact ⟨_, 0x100, _, rfl, rfl, rfl, by decide⟩
  · exact ⟨_, 0x200, _, rfl, rfl, rfl, by decide⟩
  · exact ⟨_, 0x200, _, rfl, rfl, rfl, by decide⟩
  · exact ⟨_, 0x200, _, rfl, rfl, rfl, by decide⟩

/-- C2, as stated, fails: the running thread 2 of the concrete system is in
state WAIT_THREAD and the ready queue is not empty, yet after `shedule` the
thread is a member of the ready queue. -/
theorem shedule_requeues_blocked_counterexample :
    (ex_state (some 0x3000) [0x1000]).theap 0x3000 = some ex_thread2 ∧
    ex_thread2.state = THREAD_WAIT_THREAD ∧
    ∃ s2 e, shedule ex_cfg (ex_state (some 0x3000) [0x1000]) 0x33f00 = .ok (s2, e) ∧
      0x3000 ∈ s2.waiting :=
  ⟨rfl, rfl, _, _, rfl, by decide⟩

/-- C2 (amended): `shedule` does not look at the state of the thread it
preempts.  When the running thread is in state WAIT_THREAD or WAIT_PROCESS,
the ready queue is not empty and the call is not fatal, the head of the queue
becomes the running thread and the blocked thread is appended at the tail of
the ready queue, still in its wait state: it stays in rotation. -/
theorem shedule_requeues_blocked (cfg : Config) (s : KState) (esp r n : Nat) (rest : List Nat)
    (t : thread_t) (hrun : s.running = some r) (ht : s.theap r = some t)
    (_hblocked : t.state = THREAD_WAIT_THREAD ∨ t.state = THREAD_WAIT_PROCESS)
    (hq : s.waiting = n :: rest)
    (hr : schedulable cfg s r) (hn : schedulable cfg s n)
    (hlo : t.stack ≤ esp) (hhi : esp ≤ t.stack + cfg.STACK_SIZE) :
    ∃ s2 e, shedule cfg s esp = .ok (s2, e) ∧ s2.running = some n ∧
      s2.waiting = rest ++ [r] ∧ r ∈ s2.waiting ∧
      ∃ t2, s2.theap r = some t2 ∧ t2.state = t.state := by
  obtain ⟨s2, e, h2, hrun2, hq2, hheap, _, _, _⟩ :=
    shedule_step cfg s esp r n (rest ++ [r]) t hrun ht hr hn hlo hhi (by rw [hq]; rfl)
  refine ⟨s2, e, h2, hrun2, hq2, by rw [hq2]; simp, { t with esp := esp }, ?_, rfl⟩
  rw [hheap]
  simp

theorem shedule_requeues_blocked_witness :
    (ex_state (some 0x3000) [0x1000, 0x2000]).running = some 0x3000 ∧
    (ex_state (some 0x3000) [0x1000, 0x2000]).theap 0x3000 = some ex_thread2 ∧
    (ex_thread2.state = THREAD_WAIT_THREAD ∨ ex_thread2.state = THREAD_WAIT_PROCESS) ∧
    (ex_state (some 0x3000) [0x1000, 0x2000]).waiting = [0x1000, 0x2000] ∧
    ∃ s2 e, shedule ex_cfg (ex_state (some 0x3000) [0x1000, 0x2000]) 0x33f00 = .ok (s2, e) ∧
      s2.running = some 0x1000 ∧ s2.waiting = [0x2000] ++ [0x3000] ∧ 0x3000 ∈ s2.waiting ∧
      ∃ t2, s2.theap 0x3000 = some t2 ∧ t2.state = ex_thread2.state :=
  ⟨rfl, rfl, Or.inl rfl, rfl,
    shedule_requeues_blocked ex_cfg (ex_state (some 0x3000) [0x1000, 0x2000]) 0x33f00 0x3000
      0x1000 [0x2000] ex_thread2 rfl rfl (Or.inl rfl) rfl
      (ex_schedulable _ _ _ (by decide)) (ex_schedulable _ _ _ (by decide))
      (by decide) (by decide)⟩

/-- Calls of `shedule` rotate the ready queue extended by the running thread:
with that extended queue split as `pre ++ post`, one call for each thread of
`pre` selects the threads of `pre` in order and leaves `post ++ pre`. -/
theorem shedule_calls_rotate (cfg : Config) :
    ∀ (pre post : List Nat) (s : KState) (r : Nat) (esps : List Nat),
      s.running = some r → s.waiting ++ [r] = pre ++ post →
      (∀ j ∈ pre ++ post, schedulable cfg s j) →
      esps.length = pre.length → esps_in_bounds cfg s esps →
      ∃ s2 r2, shedule_calls cfg s esps = .ok (s2, pre.map some) ∧
        s2.running = some r2 ∧ s2.waiting ++ [r2] = post ++ pre ∧
        (∀ j, schedulable cfg s j → schedulable cfg s2 j) := by
  intro pre
  induction pre with
  | nil =>
    intro post s r esps hrun hq _ hlen _
    have he : esps = [] := List.length_eq_zero.mp (by simpa using hlen)
    subst he
    exact ⟨s, r, rfl, hrun, by simpa using hq, fun _ hj => hj⟩
  | cons h pre ih =>
    intro post s r esps hrun hq hok hlen hesp
    cases esps with
    | nil => simp at hlen
    | cons e es =>
      obtain ⟨⟨r1, t, hrun1, ht, hlo, hhi⟩, hnext⟩ := hesp
      rw [hrun] at hrun1
      cases hrun1
      have hr : schedulable cfg s r := hok r (by rw [← hq]; simp)
      have hn : schedulable cfg s h := hok h (by simp)
      obtain ⟨s1, e1, h1, hrun1, hq1, _, _, _, hkeep⟩ :=
        shedule_step cfg s e r h (pre ++ post) t hrun ht hr hn hlo (Nat.le_of_lt hhi)
          (by rw [hq]; rfl)
      have hq1b : s1.waiting ++ [h] = pre ++ (post ++ [h]) := by
        rw [hq1, List.append_assoc]
      have hok1 : ∀ j ∈ pre ++ (post ++ [h]), schedulable cfg s1 j := by
        intro j hj
        apply hkeep
        apply hok
        simp only [List.mem_append, List.mem_singleton, List.cons_append, List.mem_cons] at hj ⊢
        tauto
      obtain ⟨s2, r2, h2, hrun2, hq2, hkeep2⟩ :=
        ih (post ++ [h]) s1 h es hrun1 hq1b hok1 (by simpa using hlen) (hnext s1 e1 h1)
      refine ⟨s2, r2, ?_, hrun2, by rw [hq2]; simp, fun j hj => hkeep2 j (hkeep j hj)⟩
      simp only [shedule_calls, h1, h2, hrun1, List.map_cons]

/-- C1: round-robin.  From a state with running thread `r0` and ready queue
`rs`, the threads pairwise distinct and schedulable, `1 + rs.length` calls of
`shedule`, each with a stack pointer within the stack bounds of the thread it
preempts, all return; the threads selected as running are those of `rs` in
order and then `r0`, each thread exactly once, and afterwards `r0` is running
again and the ready queue is `rs` again. -/
theorem shedule_round_robin (cfg : Config) (s : KState) (r0 : Nat) (rs esps : List Nat)
    (hrun : s.running = some r0) (hq : s.waiting = rs) (hnd : (r0 :: rs).Nodup)
    (hok : ∀ j ∈ r0 :: rs, schedulable cfg s j)
    (hlen : esps.length = rs.length + 1) (hesp : esps_in_bounds cfg s esps) :
    ∃ s2, shedule_calls cfg s esps = .ok (s2, (rs ++ [r0]).map some) ∧
      (∀ j ∈ r0 :: rs, (rs ++ [r0]).count j = 1) ∧
      s2.running = some r0 ∧ s2.waiting = rs := by
  obtain ⟨s2, r2, h2, hrun2, hq2, _⟩ :=
    shedule_calls_rotate cfg (rs ++ [r0]) [] s r0 esps hrun (by rw [hq]; simp)
      (by
        intro j hj
        apply hok
        simp only [List.append_nil, List.mem_append, List.mem_singleton] at hj
        simp only [List.mem_cons]
        tauto)
      (by simp [hlen]) hesp
  have hsplit := List.append_inj' (by simpa using hq2 : s2.waiting ++ [r2] = rs ++ [r0]) rfl
  have hr2 : r2 = r0 := by simpa using hsplit.2
  refine ⟨s2, h2, ?_, by rw [hrun2, hr2], hsplit.1⟩
  intro j hj
  have hperm : (rs ++ [r0]).Perm (r0 :: rs) :=
    (List.perm_append_comm : (rs ++ [r0]).Perm ([r0] ++ rs))
  rw [hperm.count_eq]
  exact List.count_eq_one_of_mem hnd hj

theorem ex_esps_in_bounds :
    esps_in_bounds ex_cfg (ex_state (some 0x1000) [0x2000, 0x3000])
      [0x13000, 0x23000, 0x33000] := by
  refine ⟨⟨0x1000, ex_thread0, rfl, rfl, by decide, by decide⟩, ?_⟩
  intro s1 e1 h1
  obtain ⟨s1b, e1b, h1b, hrun1, hq1, hheap1, _, _, hkeep1⟩ :=
    shedule_step ex_cfg (ex_state (some 0x1000) [0x2000, 0x3000]) 0x13000 0x1000 0x2000
      [0x3000, 0x1000] ex_thread0 rfl rfl (ex_schedulable _ _ _ (by decide))
      (ex_schedulable _ _ _ (by decide)) (by decide) (by decide) rfl
  rw [h1b] at h1
  cases h1
  have ht1 : s1.theap 0x2000 = some ex_thread1 := by rw [hheap1]; rfl
  refine ⟨⟨0x2000, ex_thread1, hrun1, ht1, by decide, by decide⟩, ?_⟩
  intro s2 e2 h2
  obtain ⟨s2b, e2b, h2b, hrun2, _, hheap2, _, _, _⟩ :=
    shedule_step ex_cfg s1 0x23000 0x2000 0x3000 [0x1000, 0x2000] ex_thread1 hrun1 ht1
      (hkeep1 _ (ex_schedulable _ _ _ (by decide)))
      (hkeep1 _ (ex_schedulable _ _ _ (by decide))) (by decide) (by decide)
      (by rw [hq1]; rfl)
  rw [h2b] at h2
  cases h2
  have ht2 : s2.theap 0x3000 = some ex_thread2 := by rw [hheap2, hheap1]; rfl
  refine ⟨⟨0x3000, ex_thread2, hrun2, ht2, by decide, by decide⟩, ?_⟩
  intro _ _ _
  trivial

theorem shedule_round_robin_witness :
    (ex_state (some 0x1000) [0x2000, 0x3000]).running = some 0x1000 ∧
    (ex_state (some 0x1000) [0x2000, 0x3000]).waiting = [0x2000, 0x3000] ∧
    (0x1000 :: [0x2000, 0x3000]).Nodup ∧
    esps_in_bounds ex_cfg (ex_state (some 0x1000) [0x2000, 0x3000])
      [0x13000, 0x23000, 0x33000] ∧
    ∃ s2, shedule_calls ex_cfg (ex_state (some 0x1000) [0x2000, 0x3000])
        [0x13000, 0x23000, 0x33000] = .ok (s2, ([0x2000, 0x3000] ++ [0x1000]).map some) ∧
      (∀ j ∈ 0x1000 :: [0x2000, 0x3000], ([0x2000, 0x3000] ++ [0x1000]).count j = 1) ∧
      s2.running = some 0x1000 ∧ s2.waiting = [0x2000, 0x3000] :=
  ⟨rfl, rfl, by decide, ex_esps_in_bounds,
    shedule_round_robin ex_cfg (ex_state (some 0x1000) [0x2000, 0x3000]) 0x1000
      [0x2000, 0x3000] [0x13000, 0x23000, 0x33000] rfl rfl (by decide)
      (fun j hj => ex_schedulable _ _ j (by
        simp only [List.mem_cons, List.mem_singleton, List.not_mem_nil, or_false] at hj ⊢
        tauto))
      rfl ex_esps_in_bounds⟩

/-! ## Lookup and cancel -/

theorem thread_get_loop_congr (h1 h2 : Nat → Option thread_t) (t : Int) :
    ∀ l : List Nat, (∀ j ∈ l, (h1 j).map thread_t.id = (h2 j).map thread_t.id) →
      thread_get_loop h1 t l = thread_get_loop h2 t l := by
  intro l
  induction l with
  | nil => intro _; rfl
  | cons i rest ih =>
    intro hl
    have hi := hl i (List.mem_cons_self _ _)
    have hrest := ih (fun j hj => hl j (List.mem_cons_of_mem _ hj))
    cases h1i : h1 i with
    | none =>
      cases h2i : h2 i with
      | none => simp [thread_get_loop, h1i, h2i]
      | some b => simp [h1i, h2i] at hi
    | some a =>
      cases h2i : h2 i with
      | none => simp [h1i, h2i] at hi
      | some b =>
        have hid : a.id = b.id := by simpa [h1i, h2i] using hi
        simp [thread_get_loop, h1i, h2i, hid, hrest]

theorem thread_get_loop_some (h : Nat → Option thread_t) (t : Int) (p : Nat) :
    ∀ l : List Nat, thread_get_loop h t l = .ok (some p) →
      p ∈ l ∧ ∃ th, h p = some th ∧ th.id = t := by
  intro l
  induction l with
  | nil => intro hg; simp [thread_get_loop] at hg
  | cons i rest ih =>
    intro hg
    cases hi : h i with
    | none => simp [thread_get_loop, hi] at hg
    | some a =>
      by_cases hid : a.id = t
      · simp only [thread_get_loop, hi, hid, if_true, Except.ok.injEq, Option.some.injEq] at hg
        subst hg
        exact ⟨List.mem_cons_self _ _, a, hi, hid⟩
      · simp only [thread_get_loop, hi, hid, if_false] at hg
        obtain ⟨hm, hth⟩ := ih hg
        exact ⟨List.mem_cons_of_mem _ hm, hth⟩

theorem thread_get_loop_total (h : Nat → Option thread_t) (t : Int) :
    ∀ l : List Nat, (∀ j ∈ l, ∃ th, h j = some th) → ∃ r, thread_get_loop h t l = .ok r := by
  intro l
  induction l with
  | nil => intro _; exact ⟨none, rfl⟩
  | cons i rest ih =>
    intro hl
    obtain ⟨a, ha⟩ := hl i (List.mem_cons_self _ _)
    obtain ⟨r, hr⟩ := ih (fun j hj => hl j (List.mem_cons_of_mem _ hj))
    by_cases hid : a.id = t
    · exact ⟨some i, by simp [thread_get_loop, ha, hid]⟩
    · exact ⟨r, by simp [thread_get_loop, ha, hid, hr]⟩

/-- A notify keeps the id of every thread block. -/
theorem notify_loop_ids (is_thread : Bool) (handle outcode : Int) (l : List Nat) (s s2 : KState)
    (h : notify_loop is_thread handle outcode l s = .ok s2) (j : Nat) :
    (s.theap j).map thread_t.id = (s2.theap j).map thread_t.id := by
  rcases notify_loop_theap is_thread handle outcode l s s2 h j with h1 | ⟨u, _, hu, _, h1⟩
  · rw [h1]
  · rw [h1, hu]
    rfl

/-- What `thread_cancel` does when the lookup finds a thread: the found
thread is marked CANCELED, then the waiters on the id of the calling thread
are notified with outcode 0. -/
theorem thread_cancel_found (s : KState) (t : Int) (p : Nat)
    (hlive : threads_live s) (hrun : running_live s) (hslot : thread_waiters_have_slot s)
    (hget : thread_get s t = .ok (some p)) :
    ∃ th self s2, s.theap p = some th ∧ th.id = t ∧ thread_self s = .ok self ∧
      notify_threads { s with
        theap := Function.update s.theap p (some { th with state := THREAD_CANCELED }) }
        true self 0 = .ok s2 ∧
      thread_cancel s t = .ok (s2, 0) ∧
      s2.theap p = some { th with state := THREAD_CANCELED } ∧
      thread_get s2 t = .ok (some p) := by
  obtain ⟨hp, th, hth, hid⟩ := thread_get_loop_some s.theap t p s.threads hget
  have hself : ∃ self, thread_self s = .ok self ∧
      thread_self { s with
        theap := Function.update s.theap p (some { th with state := THREAD_CANCELED }) }
        = .ok self := by
    cases hr : s.running with
    | none => exact ⟨-1, by simp [thread_self, hr], by simp [thread_self, hr]⟩
    | some r =>
      obtain ⟨tr, htr⟩ := hrun r hr
      refine ⟨tr.id, by simp [thread_self, hr, htr], ?_⟩
      by_cases hrp : r = p
      · subst hrp
        rw [hth] at htr
        cases htr
        simp [thread_self, hr]
      · simp [thread_self, hr, Function.update_noteq hrp, htr]
  obtain ⟨self, hself0, hself1⟩ := hself
  have hlive1 : ∀ j ∈ s.threads, ∃ u,
      Function.update s.theap p (some { th with state := THREAD_CANCELED }) j = some u ∧
      (is_notified true self u = true → u.waitinfo.outcode ≠ 0) := by
    intro j hj
    by_cases hjp : j = p
    · subst hjp
      exact ⟨{ th with state := THREAD_CANCELED }, by simp, by simp [is_notified]⟩
    · obtain ⟨u, hu⟩ := hlive j hj
      refine ⟨u, by simpa [Function.update_noteq hjp] using hu, fun hm => ?_⟩
      obtain ⟨hk, _⟩ := (is_notified_iff true self u).mp hm
      rcases hk with ⟨_, hk⟩ | ⟨hk, _⟩
      · exact hslot j hj u hu hk
      · simp at hk
  obtain ⟨s2, h2⟩ := notify_loop_ok true self 0 s.threads
    { s with theap := Function.update s.theap p (some { th with state := THREAD_CANCELED }) }
    hlive1
  have hp2 : s2.theap p = some { th with state := THREAD_CANCELED } := by
    rcases notify_loop_theap true self 0 s.threads _ s2 h2 p with h1 | ⟨u, _, hu, hmu, _⟩
    · rw [h1]
      simp
    · simp only [Function.update_same, Option.some.injEq] at hu
      rw [← hu] at hmu
      simp [is_notified] at hmu
  have hthreads : s2.threads = s.threads := by
    rw [notify_loop_fields true self 0 s.threads _ s2 h2]
  refine ⟨th, self, s2, hth, hid, hself0, h2, ?_, hp2, ?_⟩
  · simp only [thread_cancel, hget, hth, hself1]
    simp only [notify_threads]
    rw [h2]
  · unfold thread_get
    rw [hthreads, ← hget]
    unfold thread_get
    apply thread_get_loop_congr
    intro j _
    rw [← notify_loop_ids true self 0 s.threads _ s2 h2 j]
    by_cases hjp : j = p
    · subst hjp
      simp [hth]
    · simp [Function.update_noteq hjp]

/-- C7: cancel-then-query.  For a registered thread id `t`, that is, one that
`thread_get` resolves to a thread block `p`, `thread_cancel(t)` returns 0,
afterwards `thread_get(t)` still returns the same block `p`, the global
thread list is unchanged, and the state of that thread is CANCELED. -/
theorem thread_cancel_then_get (s : KState) (t : Int) (p : Nat)
    (hlive : threads_live s) (hrun : running_live s) (hslot : thread_waiters_have_slot s)
    (hget : thread_get s t = .ok (some p)) :
    ∃ s2, thread_cancel s t = .ok (s2, 0) ∧ thread_get s2 t = .ok (some p) ∧
      s2.threads = s.threads ∧
      ∃ th, s2.theap p = some th ∧ th.id = t ∧ th.state = THREAD_CANCELED := by
  obtain ⟨th, self, s2, _, hid, _, h2, hc, hp2, hg2⟩ :=
    thread_cancel_found s t p hlive hrun hslot hget
  refine ⟨s2, hc, hg2, ?_, _, hp2, hid, rfl⟩
  rw [notify_loop_fields true self 0 s.threads _ s2 h2]

/-- C9: the return value of `thread_cancel`.  The call returns; the value is
non-zero if and only if `thread_get(t)` finds no thread; when it is non-zero
the state is unchanged altogether, and when it is zero the thread that
`thread_get(t)` finds has id `t` and is CANCELED. -/
theorem thread_cancel_return (s : KState) (t : Int)
    (hlive : threads_live s) (hrun : running_live s) (hslot : thread_waiters_have_slot s) :
    ∃ s2 ret, thread_cancel s t = .ok (s2, ret) ∧
      (ret ≠ 0 ↔ thread_get s t = .ok none) ∧
      (ret ≠ 0 → s2 = s) ∧
      (ret = 0 → ∃ p th, thread_get s t = .ok (some p) ∧ s2.theap p = some th ∧
        th.id = t ∧ th.state = THREAD_CANCELED) := by
  obtain ⟨found, hget⟩ := thread_get_loop_total s.theap t s.threads hlive
  cases found with
  | none =>
    have hget' : thread_get s t = .ok none := hget
    refine ⟨s, 1, by simp [thread_cancel, hget'], by simp [hget'], fun _ => rfl, ?_⟩
    intro h
    simp at h
  | some p =>
    have hget' : thread_get s t = .ok (some p) := hget
    obtain ⟨th, _, s2, _, hid, _, _, hc, hp2, _⟩ :=
      thread_cancel_found s t p hlive hrun hslot hget'
    refine ⟨s2, 0, hc, by simp [hget'], fun h => absurd rfl h, fun _ => ?_⟩
    exact ⟨p, _, hget', hp2, hid, rfl⟩

theorem ex_running_live (j : Nat) (waiting : List Nat)
    (hj : j ∈ [0x1000, 0x2000, 0x3000, 0x4000]) :
    running_live (ex_state (some j) waiting) := by
  intro r hr
  simp only [ex_state, Option.some.injEq] at hr
  subst hr
  obtain ⟨t, _, _, ht, _⟩ := ex_schedulable (some j) waiting j hj
  exact ⟨t, ht⟩

theorem ex_thread_waiters_have_slot (running : Option Nat) (waiting : List Nat) :
    thread_waiters_have_slot (ex_state running waiting) := by
  intro j hj t ht hs
  exact ex_waiters_have_slot running waiting true t.waitinfo.handle j hj t ht
    (Or.inl ⟨rfl, hs⟩) rfl

theorem thread_cancel_then_get_witness :
    threads_live (ex_state (some 0x1000) [0x2000]) ∧
    running_live (ex_state (some 0x1000) [0x2000]) ∧
    thread_waiters_have_slot (ex_state (some 0x1000) [0x2000]) ∧
    thread_get (ex_state (some 0x1000) [0x2000]) 1 = .ok (some 0x2000) ∧
    ∃ s2, thread_cancel (ex_state (some 0x1000) [0x2000]) 1 = .ok (s2, 0) ∧
      thread_get s2 1 = .ok (some 0x2000) ∧
      s2.threads = (ex_state (some 0x1000) [0x2000]).threads ∧
      ∃ th, s2.theap 0x2000 = some th ∧ th.id = 1 ∧ th.state = THREAD_CANCELED :=
  ⟨ex_threads_live _ _, ex_running_live _ _ (by decide), ex_thread_waiters_have_slot _ _, rfl,
    thread_cancel_then_get (ex_state (some 0x1000) [0x2000]) 1 0x2000 (ex_threads_live _ _)
      (ex_running_live _ _ (by decide)) (ex_thread_waiters_have_slot _ _) rfl⟩

theorem thread_cancel_return_witness :
    threads_live (ex_state (some 0x1000) [0x2000]) ∧
    running_live (ex_state (some 0x1000) [0x2000]) ∧
    thread_waiters_have_slot (ex_state (some 0x1000) [0x2000]) ∧
    ∃ s2 ret, thread_cancel (ex_state (some 0x1000) [0x2000]) 7 = .ok (s2, ret) ∧
      (ret ≠ 0 ↔ thread_get (ex_state (some 0x1000) [0x2000]) 7 = .ok none) ∧
      (ret ≠ 0 → s2 = ex_state (some 0x1000) [0x2000]) ∧
      (ret = 0 → ∃ p th, thread_get (ex_state (some 0x1000) [0x2000]) 7 = .ok (some p) ∧
        s2.theap p = some th ∧ th.id = 7 ∧ th.state = THREAD_CANCELED) :=
  ⟨ex_threads_live _ _, ex_running_live _ _ (by decide), ex_thread_waiters_have_slot _ _,
    thread_cancel_return (ex_state (some 0x1000) [0x2000]) 7 (ex_threads_live _ _)
      (ex_running_live _ _ (by decide)) (ex_thread_waiters_have_slot _ _)⟩

/-- C8 fails on the code: in the concrete system thread 0 is running and
thread 2 is in state WAIT_THREAD on thread 1 with output slot `0x500`; after
`thread_cancel(1)`, which returns 0, thread 2 is still in state WAIT_THREAD
and its output slot still holds its old value 99, because the notify is sent
for the id of the calling thread (`thread_self()`, here 0) and not for the
canceled id. -/
theorem thread_cancel_notifies_caller_id :
    (ex_state (some 0x1000) [0x2000]).theap 0x3000 = some ex_thread2 ∧
    ex_thread2.state = THREAD_WAIT_THREAD ∧ ex_thread2.waitinfo.handle = 1 ∧
    ex_thread2.waitinfo.outcode = 0x500 ∧
    thread_self (ex_state (some 0x1000) [0x2000]) = .ok 0 ∧
    ∃ s2, thread_cancel (ex_state (some 0x1000) [0x2000]) 1 = .ok (s2, 0) ∧
      s2.theap 0x3000 = some ex_thread2 ∧ s2.mem 0x500 = 99 :=
  ⟨rfl, rfl, rfl, rfl, rfl, _, rfl, rfl, rfl⟩

/-- C6: `process_exit` delivers the exit code.  When the running thread
belongs to a process `P` that is not the kernel process and that its id
resolves to in the process list, `process_exit(code)` reaches the end of its
atomic section with the state of `P` set to CANCELED, and every thread of the
thread list that was in state WAIT_PROCESS with `waitinfo.handle` equal to
the id of `P` is in state RUNNING with `code` in its output slot. -/
theorem process_exit_delivers_code (s : KState) (code : Int) (r pp : Nat) (t : thread_t)
    (P : process_t)
    (hrun : s.running = some r) (ht : s.theap r = some t) (hpp : t.process = some pp)
    (hP : s.pheap pp = some P) (hreg : process_get s P.id = .ok (some pp))
    (hk : P.id ≠ s.kernel_process)
    (hlive : threads_live s) (hslot : waiters_have_slot s false P.id) :
    ∃ s2, process_exit s code = .ok s2 ∧
      s2.pheap pp = some { P with state := PROCESS_CANCELED } ∧
      ∀ j ∈ s.threads, ∀ tw, s.theap j = some tw →
        tw.state = THREAD_WAIT_PROCESS → tw.waitinfo.handle = P.id →
          s2.theap j = some { tw with state := THREAD_RUNNING } ∧
          s2.mem tw.waitinfo.outcode = code := by
  have hself : process_self s = .ok P.id := by
    simp [process_self, hrun, ht, hpp, hP]
  obtain ⟨s2, h2, hrel⟩ := notify_threads_releases
    { s with pheap := Function.update s.pheap pp (some { P with state := PROCESS_CANCELED }) }
    false P.id code hlive hslot
  refine ⟨s2, ?_, ?_, ?_⟩
  · simp only [process_exit, hself, hreg, hP, ne_eq, hk, not_false_eq_true, if_true]
    exact h2
  · rw [notify_loop_fields false P.id code _ _ s2 h2]
    simp
  · intro j hj tw htw hst hh
    exact hrel j hj tw htw (Or.inr ⟨rfl, hst⟩) hh

theorem process_exit_delivers_code_witness :
    (ex_state (some 0x2000) [0x1000]).running = some 0x2000 ∧
    (ex_state (some 0x2000) [0x1000]).theap 0x2000 = some ex_thread1 ∧
    ex_thread1.process = some 0x200 ∧
    (ex_state (some 0x2000) [0x1000]).pheap 0x200 = some ex_process1 ∧
    process_get (ex_state (some 0x2000) [0x1000]) ex_process1.id = .ok (some 0x200) ∧
    ex_process1.id ≠ (ex_state (some 0x2000) [0x1000]).kernel_process ∧
    ∃ s2, process_exit (ex_state (some 0x2000) [0x1000]) 7 = .ok s2 ∧
      s2.pheap 0x200 = some { ex_process1 with state := PROCESS_CANCELED } ∧
      ∀ j ∈ (ex_state (some 0x2000) [0x1000]).threads, ∀ tw,
        (ex_state (some 0x2000) [0x1000]).theap j = some tw →
        tw.state = THREAD_WAIT_PROCESS → tw.waitinfo.handle = ex_process1.id →
          s2.theap j = some { tw with state := THREAD_RUNNING } ∧
          s2.mem tw.waitinfo.outcode = 7 :=
  ⟨rfl, rfl, rfl, rfl, rfl, by decide,
    process_exit_delivers_code (ex_state (some 0x2000) [0x1000]) 7 0x2000 0x200 ex_thread1
      ex_process1 rfl rfl rfl rfl rfl (by decide) (ex_threads_live _ _)
      (ex_waiters_have_slot _ _ _ _)⟩

/-! ## The registry invariant -/

theorem same_registry_refl (s : KState) : same_registry s s :=
  ⟨rfl, rfl, rfl, rfl, rfl, rfl, rfl, rfl, fun _ P h => ⟨P, h, rfl, rfl, rfl⟩,
    fun _ t h => ⟨t, h, rfl, rfl, rfl, rfl⟩⟩

theorem same_registry_trans (s s1 s2 : KState) (h1 : same_registry s s1)
    (h2 : same_registry s1 s2) : same_registry s s2 := by
  obtain ⟨a1, a2, a3, a4, a5, a6, a7, a8, a9, a10⟩ := h1
  obtain ⟨b1, b2, b3, b4, b5, b6, b7, b8, b9, b10⟩ := h2
  refine ⟨b1.trans a1, b2.trans a2, b3.trans a3, b4.trans a4, b5.trans a5, b6.trans a6,
    b7.trans a7, b8.trans a8, ?_, ?_⟩
  · intro pp P hP
    obtain ⟨P1, hP1, c1, c2, c3⟩ := a9 pp P hP
    obtain ⟨P2, hP2, d1, d2, d3⟩ := b9 pp P1 hP1
    exact ⟨P2, hP2, d1.trans c1, d2.trans c2, d3.trans c3⟩
  · intro j t ht
    obtain ⟨t1, ht1, c1, c2, c3, c4⟩ := a10 j t ht
    obtain ⟨t2, ht2, d1, d2, d3, d4⟩ := b10 j t1 ht1
    exact ⟨t2, ht2, d1.trans c1, d2.trans c2, d3.trans c3, d4.trans c4⟩

theorem same_registry_ok (s s2 : KState) (h : same_registry s s2) (hr : registry_ok s) :
    registry_ok s2 := by
  obtain ⟨a1, a2, a3, a4, _, _, _, _, a9, a10⟩ := h
  obtain ⟨⟨r, hrun, hrm⟩, hth, hpr, hw⟩ := hr
  refine ⟨⟨r, by rw [a3, hrun], by rw [a1]; exact hrm⟩, ?_, ?_, ?_⟩
  · intro j hj
    rw [a1] at hj
    obtain ⟨t, pp, ht, hpp, hm⟩ := hth j hj
    obtain ⟨t2, ht2, _, _, _, hp2⟩ := a10 j t ht
    exact ⟨t2, pp, ht2, by rw [hp2, hpp], by rw [a2]; exact hm⟩
  · intro pp hm
    rw [a2] at hm
    obtain ⟨P, hP⟩ := hpr pp hm
    obtain ⟨P2, hP2, _⟩ := a9 pp P hP
    exact ⟨P2, hP2⟩
  · intro j hj
    rw [a4] at hj
    rw [a1]
    exact hw j hj

/-- A store into a live thread block that keeps id, stack, `esp` and process
leaves the registry in place. -/
theorem same_registry_thread_store (s : KState) (j : Nat) (t t2 : thread_t)
    (ht : s.theap j = some t) (h1 : t2.id = t.id) (h2 : t2.stack = t.stack)
    (h3 : t2.esp = t.esp) (h4 : t2.process = t.process) :
    same_registry s { s with theap := Function.update s.theap j (some t2) } := by
  refine ⟨rfl, rfl, rfl, rfl, rfl, rfl, rfl, rfl, fun _ P h => ⟨P, h, rfl, rfl, rfl⟩, ?_⟩
  intro i u hu
  by_cases hij : i = j
  · subst hij
    rw [ht] at hu
    cases hu
    exact ⟨t2, by simp, h1, h2, h3, h4⟩
  · exact ⟨u, by simpa [Function.update_noteq hij] using hu, rfl, rfl, rfl, rfl⟩

/-- A store into a live process block that keeps id, pdir and thread
collection leaves the registry in place. -/
theorem same_registry_process_store (s : KState) (pp : Nat) (P P2 : process_t)
    (hP : s.pheap pp = some P) (h1 : P2.id = P.id) (h2 : P2.pdir = P.pdir)
    (h3 : P2.threads = P.threads) :
    same_registry s { s with pheap := Function.update s.pheap pp (some P2) } := by
  refine ⟨rfl, rfl, rfl, rfl, rfl, rfl, rfl, rfl, ?_, fun _ t h => ⟨t, h, rfl, rfl, rfl, rfl⟩⟩
  intro i Q hQ
  by_cases hij : i = pp
  · subst hij
    rw [hP] at hQ
    cases hQ
    exact ⟨P2, by simp, h1, h2, h3⟩
  · exact ⟨Q, by simpa [Function.update_noteq hij] using hQ, rfl, rfl, rfl⟩

theorem same_registry_notify_loop (is_thread : Bool) (handle outcode : Int) (l : List Nat)
    (s s2 : KState) (h : notify_loop is_thread handle outcode l s = .ok s2) :
    same_registry s s2 := by
  have hf := notify_loop_fields is_thread handle outcode l s s2 h
  refine ⟨by rw [hf], by rw [hf], by rw [hf], by rw [hf], by rw [hf], by rw [hf], by rw [hf],
    by rw [hf], ?_, ?_⟩
  · intro pp P hP
    exact ⟨P, by rw [hf]; exact hP, rfl, rfl, rfl⟩
  · intro j t ht
    rcases notify_loop_theap is_thread handle outcode l s s2 h j with h1 | ⟨u, _, hu, _, h1⟩
    · exact ⟨t, by rw [h1, ht], rfl, rfl, rfl, rfl⟩
    · rw [ht] at hu
      cases hu
      exact ⟨_, h1, rfl, rfl, rfl, rfl⟩

theorem same_registry_notify_threads (s s2 : KState) (is_thread : Bool) (handle outcode : Int)
    (h : notify_threads s is_thread handle outcode = .ok s2) : same_registry s s2 :=
  same_registry_notify_loop is_thread handle outcode s.threads s s2 h

theorem same_registry_thread_cancel (s s2 : KState) (t ret : Int)
    (h : thread_cancel s t = .ok (s2, ret)) : same_registry s s2 := by
  unfold thread_cancel at h
  split at h
  · simp at h
  · simp only [Except.ok.injEq, Prod.mk.injEq] at h
    rw [← h.1]
    exact same_registry_refl s
  · split at h
    · simp at h
    · dsimp only at h
      split at h
      · simp at h
      · split at h
        · simp at h
        · rename_i s3 hn
          simp only [Except.ok.injEq, Prod.mk.injEq] at h
          rw [← h.1]
          refine same_registry_trans _ _ _
            (same_registry_thread_store s _ ?t _ ?ht ?_ ?_ ?_ ?_)
            (same_registry_notify_threads _ _ _ _ _ hn)
          case ht => assumption
          all_goals rfl

theorem same_registry_thread_exit (s s2 : KState) (retval : Int)
    (h : thread_exit s retval = .ok s2) : same_registry s s2 := by
  unfold thread_exit at h
  split at h
  · simp at h
  · split at h
    · simp at h
    · simp at h
    · split at h
      · simp at h
      · dsimp only at h
        split at h
        · simp at h
        · refine same_registry_trans _ _ _
            (same_registry_thread_store s _ ?t _ ?ht ?_ ?_ ?_ ?_)
            (same_registry_notify_threads _ _ _ _ _ h)
          case ht => assumption
          all_goals rfl

theorem same_registry_process_cancel (s s2 : KState) (p : Int)
    (h : process_cancel s p = .ok s2) : same_registry s s2 := by
  unfold process_cancel at h
  split at h
  · split at h
    · simp at h
    · simp at h
    · split at h
      · simp at h
      · dsimp only at h
        refine same_registry_trans _ _ _
          (same_registry_process_store s _ ?P _ ?ht ?_ ?_ ?_)
          (same_registry_notify_threads _ _ _ _ _ h)
        case ht => assumption
        all_goals rfl
  · split at h
    · simp at h
    · split at h
      · simp at h
      · simp at h
      · split at h
        · simp at h
        · simp only [Except.ok.injEq] at h
          rw [← h]
          exact same_registry_refl s

theorem same_registry_process_exit (s s2 : KState) (code : Int)
    (h : process_exit s code = .ok s2) : same_registry s s2 := by
  unfold process_exit at h
  split at h
  · simp at h
  · split at h
    · simp at h
    · split at h
      · split at h
        · simp at h
        · split at h
          · simp at h
          · dsimp only at h
            refine same_registry_trans _ _ _
              (same_registry_process_store s _ ?P _ ?ht ?_ ?_ ?_)
              (same_registry_notify_threads _ _ _ _ _ h)
            case ht => assumption
            all_goals rfl
      · simp only [Except.ok.injEq] at h
        rw [← h]
        exact same_registry_refl s

theorem same_registry_thread_block (s s2 : KState) (j : Nat) (kind : thread_state_t)
    (handle : Int) (slot : Nat) (h : thread_block s j kind handle slot = .ok s2) :
    same_registry s s2 := by
  unfold thread_block at h
  split at h
  · simp at h
  · rename_i t ht
    simp only [Except.ok.injEq] at h
    rw [← h]
    exact same_registry_thread_store s j t _ ht rfl rfl rfl rfl

/-- What a returning call of `shedule` did. -/
theorem shedule_inv (cfg : Config) (s s2 : KState) (esp e : Nat)
    (h : shedule cfg s esp = .ok (s2, e)) :
    ∃ r t n rest nt pp p, s.running = some r ∧ s.theap r = some t ∧
      sanity_check cfg { t with esp := esp } = .ok () ∧
      s.waiting ++ [r] = n :: rest ∧
      Function.update s.theap r (some { t with esp := esp }) n = some nt ∧
      nt.process = some pp ∧ s.pheap pp = some p ∧ e = nt.esp ∧
      s2 = { s with
        ticks := (s.ticks + 1) % 2 ^ 32
        theap := Function.update s.theap r (some { t with esp := esp })
        waiting := rest
        running := some n
        kernel_stack := (nt.stack + cfg.STACK_SIZE) % 2 ^ 32
        active_pdir := p.pdir } := by
  unfold shedule at h
  dsimp only at h
  cases hrun : s.running with
  | none => simp [hrun] at h
  | some r =>
    cases ht : s.theap r with
    | none => simp [hrun, ht] at h
    | some t =>
      cases hs : sanity_check cfg { t with esp := esp } with
      | error e => simp [hrun, ht, hs] at h
      | ok u =>
        cases hq : s.waiting ++ [r] with
        | nil => simp at hq
        | cons n rest =>
          simp only [hrun, ht, hs, list_pushback, hq, list_pop] at h
          cases hnt : Function.update s.theap r (some { t with esp := esp }) n with
          | none => simp [hnt] at h
          | some nt =>
            cases hpp : nt.process with
            | none => simp [hnt, hpp] at h
            | some pp =>
              cases hp : s.pheap pp with
              | none => simp [hnt, hpp, hp] at h
              | some p =>
                simp only [hnt, hpp, hp, Except.ok.injEq, Prod.mk.injEq] at h
                exact ⟨r, t, n, rest, nt, pp, p, rfl, ht, hs, hq, hnt, hpp, hp,
                  h.2.symm, h.1.symm⟩

theorem registry_ok_shedule (cfg : Config) (s s2 : KState) (esp e : Nat)
    (h : shedule cfg s esp = .ok (s2, e)) (hr : registry_ok s) : registry_ok s2 := by
  obtain ⟨r, t, n, rest, nt, pp, p, hrun, ht, _, hq, _, _, _, _, rfl⟩ := shedule_inv cfg s s2 esp e h
  obtain ⟨⟨r0, hrun0, hrm⟩, hth, hpr, hw⟩ := hr
  rw [hrun] at hrun0
  cases hrun0
  have hsub : ∀ j ∈ n :: rest, j ∈ s.threads := by
    intro j hj
    rw [← hq] at hj
    rcases List.mem_append.mp hj with h1 | h1
    · exact hw j h1
    · simp only [List.mem_singleton] at h1
      rw [h1]
      exact hrm
  refine ⟨⟨n, rfl, hsub n (List.mem_cons_self _ _)⟩, ?_, hpr, ?_⟩
  · intro j hj
    obtain ⟨u, qq, hu, hqq, hm⟩ := hth j hj
    by_cases hjr : j = r
    · subst hjr
      rw [ht] at hu
      cases hu
      exact ⟨{ t with esp := esp }, qq, by simp, hqq, hm⟩
    · exact ⟨u, qq, by simpa [Function.update_noteq hjr] using hu, hqq, hm⟩
  · intro j hj
    exact hsub j (List.mem_cons_of_mem _ hj)

theorem process_get_loop_some (h : Nat → Option process_t) (id : Int) (p : Nat) :
    ∀ l : List Nat, process_get_loop h id l = .ok (some p) →
      p ∈ l ∧ ∃ P, h p = some P ∧ P.id = id := by
  intro l
  induction l with
  | nil => intro hg; simp [process_get_loop] at hg
  | cons i rest ih =>
    intro hg
    cases hi : h i with
    | none => simp [process_get_loop, hi] at hg
    | some a =>
      by_cases hid : a.id = id
      · simp only [process_get_loop, hi, hid, if_true, Except.ok.injEq, Option.some.injEq] at hg
        subst hg
        exact ⟨List.mem_cons_self _ _, a, hi, hid⟩
      · simp only [process_get_loop, hi, hid, if_false] at hg
        obtain ⟨hm, hth⟩ := ih hg
        exact ⟨List.mem_cons_of_mem _ hm, hth⟩

/-- The lookup of the id of a live member of a list of live processes finds
a member with that id. -/
theorem process_get_loop_finds (h : Nat → Option process_t) (pp : Nat) (P : process_t) :
    ∀ l : List Nat, (∀ j ∈ l, ∃ Q, h j = some Q) → pp ∈ l → h pp = some P →
      ∃ q Q, process_get_loop h P.id l = .ok (some q) ∧ q ∈ l ∧ h q = some Q ∧ Q.id = P.id := by
  intro l
  induction l with
  | nil => intro _ hm; simp at hm
  | cons i rest ih =>
    intro hl hm hP
    obtain ⟨a, ha⟩ := hl i (List.mem_cons_self _ _)
    by_cases hid : a.id = P.id
    · exact ⟨i, a, by simp [process_get_loop, ha, hid], List.mem_cons_self _ _, ha, hid⟩
    · have hne : pp ≠ i := by
        intro hc
        subst hc
        rw [ha] at hP
        cases hP
        exact hid rfl
      have hm2 : pp ∈ rest := by
        rcases List.mem_cons.mp hm with h1 | h1
        · exact absurd h1 hne
        · exact h1
      obtain ⟨q, Q, hq, hqm, hQ, hQid⟩ :=
        ih (fun j hj => hl j (List.mem_cons_of_mem _ hj)) hm2 hP
      exact ⟨q, Q, by simp [process_get_loop, ha, hid, hq], List.mem_cons_of_mem _ hqm, hQ, hQid⟩

/-- What a returning call of `thread_create` did to the registry. -/
theorem thread_create_inv (cfg : Config) (s s2 : KState) (p : Int)
    (entry flags block stack : Nat) (id : Int)
    (h : thread_create cfg s p entry flags block stack = .ok (s2, id)) :
    ∃ pp process th, process_get s p = .ok (some pp) ∧ s.pheap pp = some process ∧
      pp ∈ s.processes ∧ block ≠ 0 ∧ stack ≠ 0 ∧ id = s.TID ∧
      s2.theap = Function.update s.theap block (some th) ∧
      th.id = s.TID ∧ th.process = some pp ∧ th.state = THREAD_RUNNING ∧ th.stack = stack ∧
      s2.threads = s.threads ++ [block] ∧ s2.processes = s.processes ∧
      s2.pheap = Function.update s.pheap pp
        (some { process with threads := process.threads ++ [block] }) ∧
      (s.running = none → s2.running = some block ∧ s2.waiting = s.waiting) ∧
      (∀ r, s.running = some r → s2.running = some r ∧ s2.waiting = s.waiting ++ [block]) := by
  unfold thread_create at h
  cases hg : process_get s p with
  | error e => simp [hg] at h
  | ok found =>
    cases found with
    | none => simp [hg] at h
    | some pp =>
      cases hP : s.pheap pp with
      | none => simp [hg, hP] at h
      | some process =>
        by_cases hb : block = 0
        · simp [hg, hP, alloc_thread, hb] at h
        · by_cases hst : stack = 0
          · simp [hg, hP, alloc_thread, hb, hst] at h
          · simp only [hg, hP, alloc_thread, hb, hst, if_false, Function.update_same,
              list_pushback, Except.ok.injEq, Prod.mk.injEq] at h
            obtain ⟨h1, h2⟩ := h
            have hmem := (process_get_loop_some s.pheap p pp s.processes hg).1
            subst h1
            refine ⟨pp, process,
              { id := s.TID, stack := stack, entry := entry,
                esp := ((stack + cfg.STACK_SIZE) % 2 ^ 32 + 2 ^ 32 -
                  cfg.sizeof_context_t % 2 ^ 32) % 2 ^ 32,
                process := some pp, state := THREAD_RUNNING,
                waitinfo := { handle := 0, outcode := 0 } },
              rfl, hP, hmem, hb, hst, h2.symm, ?_⟩
            cases hr : s.running with
            | none => simp [hr, Function.update_idem]
            | some r => simp [hr, Function.update_idem]

/-- What a returning call of `process_create` did to the registry. -/
theorem process_create_inv (cfg : Config) (s s2 : KState) (name : List Nat) (flags block : Nat)
    (junk : process_state_t) (new_pdir : Nat) (id : Int)
    (h : process_create cfg s name flags block junk new_pdir = .ok (s2, id)) :
    ∃ P, block ≠ 0 ∧ id = s.PID ∧ P.id = s.PID ∧ P.threads = [] ∧
      s2.processes = s.processes ++ [block] ∧ s2.threads = s.threads ∧
      s2.pheap = Function.update s.pheap block (some P) ∧ s2.theap = s.theap ∧
      s2.running = s.running ∧ s2.waiting = s.waiting ∧
      s2.kernel_process = s.kernel_process := by
  unfold process_create at h
  by_cases hb : block = 0
  · simp [alloc_process, hb] at h
  · simp only [alloc_process, hb, if_false, Function.update_same, list_pushback,
      Except.ok.injEq, Prod.mk.injEq] at h
    obtain ⟨h1, h2⟩ := h
    subst h1
    exact ⟨_, hb, h2.symm, rfl, rfl, rfl, rfl, rfl, rfl, rfl, rfl, rfl⟩

theorem registry_ok_iff (s : KState) :
    registry_ok s ↔ (∃ r, s.running = some r) ∧ registry_consistent s := by
  constructor
  · rintro ⟨⟨r, hrun, hrm⟩, h2, h3, h4⟩
    refine ⟨⟨r, hrun⟩, ?_, h2, h3, h4⟩
    intro r2 hr2
    rw [hrun] at hr2
    cases hr2
    exact hrm
  · rintro ⟨⟨r, hrun⟩, h1, h2, h3, h4⟩
    exact ⟨⟨r, hrun, h1 r hrun⟩, h2, h3, h4⟩

theorem registry_consistent_congr (s s2 : KState) (h1 : s2.running = s.running)
    (h2 : s2.threads = s.threads) (h3 : s2.processes = s.processes)
    (h4 : s2.waiting = s.waiting) (h5 : s2.theap = s.theap) (h6 : s2.pheap = s.pheap)
    (hr : registry_consistent s) : registry_consistent s2 := by
  unfold registry_consistent
  rw [h1, h2, h3, h4, h5, h6]
  exact hr

theorem registry_consistent_thread_store (s : KState) (j : Nat) (t t2 : thread_t)
    (ht : s.theap j = some t) (h : t2.process = t.process) (hr : registry_consistent s) :
    registry_consistent { s with theap := Function.update s.theap j (some t2) } := by
  obtain ⟨a1, a2, a3, a4⟩ := hr
  refine ⟨a1, ?_, a3, a4⟩
  intro i hi
  obtain ⟨u, pp, hu, hpp, hm⟩ := a2 i hi
  by_cases hij : i = j
  · subst hij
    rw [ht] at hu
    cases hu
    exact ⟨t2, pp, by simp, by rw [h, hpp], hm⟩
  · exact ⟨u, pp, by simpa [Function.update_noteq hij] using hu, hpp, hm⟩

theorem registry_consistent_process_create (cfg : Config) (s s2 : KState) (name : List Nat)
    (flags block : Nat) (junk : process_state_t) (new_pdir : Nat) (id : Int)
    (h : process_create cfg s name flags block junk new_pdir = .ok (s2, id))
    (hr : registry_consistent s) : registry_consistent s2 ∧ s2.running = s.running := by
  obtain ⟨P, _, _, _, _, hps, hts, hph, hth, hrun, hw, _⟩ :=
    process_create_inv cfg s s2 name flags block junk new_pdir id h
  obtain ⟨a1, a2, a3, a4⟩ := hr
  refine ⟨⟨?_, ?_, ?_, ?_⟩, hrun⟩
  · intro r hr2
    rw [hts]
    exact a1 r (by rw [← hrun]; exact hr2)
  · intro j hj
    rw [hts] at hj
    obtain ⟨t, pp, ht, hpp, hm⟩ := a2 j hj
    exact ⟨t, pp, by rw [hth]; exact ht, hpp, by rw [hps]; exact List.mem_append_left _ hm⟩
  · intro pp hm
    rw [hps] at hm
    rw [hph]
    by_cases hpb : pp = block
    · subst hpb
      exact ⟨P, by simp⟩
    · rcases List.mem_append.mp hm with h1 | h1
      · obtain ⟨Q, hQ⟩ := a3 pp h1
        exact ⟨Q, by simpa [Function.update_noteq hpb] using hQ⟩
      · simp only [List.mem_singleton] at h1
        exact absurd h1 hpb
  · intro j hj
    rw [hw] at hj
    rw [hts]
    exact a4 j hj

theorem registry_consistent_thread_create (cfg : Config) (s s2 : KState) (p : Int)
    (entry flags block stack : Nat) (id : Int)
    (h : thread_create cfg s p entry flags block stack = .ok (s2, id))
    (hr : registry_consistent s) :
    registry_consistent s2 ∧ ∃ r, s2.running = some r := by
  obtain ⟨pp, process, th, _, hP, hmem, _, _, _, hth, _, hthp, _, _, hts, hps, hph, hnone, hsome⟩ :=
    thread_create_inv cfg s s2 p entry flags block stack id h
  obtain ⟨a1, a2, a3, a4⟩ := hr
  have hrunning : (∃ r, s2.running = some r) ∧ (∀ r, s2.running = some r → r ∈ s2.threads) ∧
      (∀ j ∈ s2.waiting, j ∈ s2.threads) := by
    cases hrun : s.running with
    | none =>
      obtain ⟨h1, h2⟩ := hnone hrun
      refine ⟨⟨block, h1⟩, ?_, ?_⟩
      · intro r hr2
        rw [h1] at hr2
        cases hr2
        rw [hts]
        simp
      · intro j hj
        rw [h2] at hj
        rw [hts]
        exact List.mem_append_left _ (a4 j hj)
    | some r =>
      obtain ⟨h1, h2⟩ := hsome r hrun
      refine ⟨⟨r, h1⟩, ?_, ?_⟩
      · intro r2 hr2
        rw [h1] at hr2
        cases hr2
        rw [hts]
        exact List.mem_append_left _ (a1 r hrun)
      · intro j hj
        rw [h2] at hj
        rw [hts]
        rcases List.mem_append.mp hj with h3 | h3
        · exact List.mem_append_left _ (a4 j h3)
        · exact List.mem_append_right _ h3
  refine ⟨⟨hrunning.2.1, ?_, ?_, hrunning.2.2⟩, hrunning.1⟩
  · intro j hj
    rw [hts] at hj
    rw [hth, hps]
    by_cases hjb : j = block
    · subst hjb
      exact ⟨th, pp, by simp, hthp, hmem⟩
    · rcases List.mem_append.mp hj with h1 | h1
      · obtain ⟨t, qq, ht, hqq, hm⟩ := a2 j h1
        exact ⟨t, qq, by simpa [Function.update_noteq hjb] using ht, hqq, hm⟩
      · simp only [List.mem_singleton] at h1
        exact absurd h1 hjb
  · intro qq hm
    rw [hps] at hm
    rw [hph]
    by_cases hq : qq = pp
    · subst hq
      exact ⟨{ process with threads := process.threads ++ [block] }, by simp⟩
    · obtain ⟨Q, hQ⟩ := a3 qq hm
      exact ⟨Q, by simpa [Function.update_noteq hq] using hQ⟩

theorem registry_ok_tasking_setup (cfg : Config) (s0 s : KState) (pblock : Nat)
    (junk : process_state_t) (tblock tstack : Nat)
    (h : tasking_setup cfg s0 pblock junk tblock tstack = .ok s) : registry_ok s := by
  unfold tasking_setup at h
  dsimp only at h
  cases hpc : process_create cfg
      { s0 with running := none, waiting := [], threads := [], processes := [] }
      kernel_name 0 pblock junk 0 with
  | error e => simp [hpc] at h
  | ok r1 =>
    obtain ⟨s1, kp⟩ := r1
    simp only [hpc] at h
    cases htc : thread_create cfg { s1 with kernel_process := kp } kp 0 0 tblock tstack with
    | error e => simp [htc] at h
    | ok r2 =>
      obtain ⟨s2, kt⟩ := r2
      simp only [htc] at h
      cases hg : thread_get { s2 with kernel_thread := kt } kt with
      | error e => simp [hg] at h
      | ok found =>
        cases found with
        | none => simp [hg] at h
        | some k =>
          simp only [hg] at h
          cases hk : s2.theap k with
          | none => simp [hk] at h
          | some kthread =>
            simp only [hk, timer_set_frequency] at h
            simp only [Int.reduceEq, if_false, Except.ok.injEq] at h
            have h0 : registry_consistent
                { s0 with running := none, waiting := [], threads := [], processes := [] } :=
              ⟨by intro r hr; simp at hr, by intro j hj; simp at hj,
                by intro j hj; simp at hj, by intro j hj; simp at hj⟩
            have h1 := (registry_consistent_process_create cfg _ s1 _ _ _ _ _ kp hpc h0).1
            have h1b : registry_consistent { s1 with kernel_process := kp } :=
              registry_consistent_congr s1 _ rfl rfl rfl rfl rfl rfl h1
            obtain ⟨h2, hrun2⟩ := registry_consistent_thread_create cfg _ s2 _ _ _ _ _ kt htc h1b
            have h3 := registry_consistent_thread_store s2 k kthread
              { kthread with
                stack := cfg.stack_bottom
                esp := (cfg.stack_bottom + cfg.STACK_SIZE) % 2 ^ 32 } hk rfl h2
            rw [← h]
            exact (registry_ok_iff _).mpr ⟨hrun2, registry_consistent_congr _ _ rfl rfl rfl rfl rfl rfl h3⟩

/-- Every state after `tasking_setup` has a consistent registry. -/
theorem reachable_registry_ok (cfg : Config) (s : KState) (h : Reachable cfg s) :
    registry_ok s := by
  induction h with
  | setup s0 s pblock junk tblock tstack _ _ h =>
    exact registry_ok_tasking_setup cfg s0 s pblock junk tblock tstack h
  | thread_create s s2 p entry flags block stack id _ _ h ih =>
    obtain ⟨h1, h2⟩ := registry_consistent_thread_create cfg s s2 p entry flags block stack id h
      ((registry_ok_iff s).mp ih).2
    exact (registry_ok_iff s2).mpr ⟨h2, h1⟩
  | process_create s s2 name flags block junk new_pdir id _ _ h ih =>
    obtain ⟨h1, h2⟩ := registry_consistent_process_create cfg s s2 name flags block junk
      new_pdir id h ((registry_ok_iff s).mp ih).2
    exact (registry_ok_iff s2).mpr ⟨by rw [h2]; exact ((registry_ok_iff s).mp ih).1, h1⟩
  | shedule s s2 esp e _ h ih => exact registry_ok_shedule cfg s s2 esp e h ih
  | thread_cancel s s2 t ret _ h ih =>
    exact same_registry_ok s s2 (same_registry_thread_cancel s s2 t ret h) ih
  | thread_exit s s2 retval _ h ih =>
    exact same_registry_ok s s2 (same_registry_thread_exit s s2 retval h) ih
  | process_cancel s s2 p _ h ih =>
    exact same_registry_ok s s2 (same_registry_process_cancel s s2 p h) ih
  | process_exit s s2 code _ h ih =>
    exact same_registry_ok s s2 (same_registry_process_exit s s2 code h) ih
  | block s s2 j kind handle slot _ _ _ _ h ih =>
    exact same_registry_ok s s2 (same_registry_thread_block s s2 j kind handle slot h) ih

/-- With a consistent registry `process_self` returns the id of a process
that `process_get` finds. -/
theorem registry_ok_process_self (s : KState) (hr : registry_ok s) :
    ∃ id q Q, process_self s = .ok id ∧ process_get s id = .ok (some q) ∧
      s.pheap q = some Q := by
  obtain ⟨⟨r, hrun, hrm⟩, hth, hpr, _⟩ := hr
  obtain ⟨t, pp, ht, hpp, hm⟩ := hth r hrm
  obtain ⟨P, hP⟩ := hpr pp hm
  obtain ⟨q, Q, hq, _, hQ, _⟩ := process_get_loop_finds s.pheap pp P s.processes hpr hm hP
  exact ⟨P.id, q, Q, by simp [process_self, hrun, ht, hpp, hP], hq, hQ⟩

/-! ## Kernel-process protection -/

/-- C10: kernel-process protection.  In every state after `tasking_setup`,
`process_cancel(kernel_process)` returns and leaves the whole state as it
was, and so does `process_exit(code)`, up to its final halt, when the running
thread belongs to the kernel process: no process, no thread and no output
slot is written, whatever threads wait on the kernel process id. -/
theorem kernel_process_protected (cfg : Config) (s : KState) (h : Reachable cfg s) :
    process_cancel s s.kernel_process = .ok s ∧
    ∀ code, process_self s = .ok s.kernel_process → process_exit s code = .ok s := by
  obtain ⟨id, q, Q, hself, hget, hQ⟩ :=
    registry_ok_process_self s (reachable_registry_ok cfg s h)
  constructor
  · simp [process_cancel, hself, hget, hQ]
  · intro code hk
    rw [hself] at hk
    simp only [Except.ok.injEq] at hk
    subst hk
    simp [process_exit, hself, hget]

theorem ex_kernel_awaited_reachable : Reachable ex_cfg ex_kernel_awaited :=
  Reachable.block ex_after_create ex_kernel_awaited 0x2000 THREAD_WAIT_PROCESS 0 0x600
    (Reachable.thread_create ex_after_setup ex_after_create 0 0x400000 0 0x2000 0x20000 1
      (Reachable.setup ex_boot ex_after_setup 0x100 PROCESS_RUNNING 0x1000 0x10000 rfl rfl rfl)
      rfl rfl)
    (by decide) (Or.inr rfl) (by decide) rfl

theorem kernel_process_protected_witness :
    Reachable ex_cfg ex_kernel_awaited ∧
    (∃ t, ex_kernel_awaited.theap 0x2000 = some t ∧ t.state = THREAD_WAIT_PROCESS ∧
      t.waitinfo.handle = ex_kernel_awaited.kernel_process) ∧
    process_self ex_kernel_awaited = .ok ex_kernel_awaited.kernel_process ∧
    process_cancel ex_kernel_awaited ex_kernel_awaited.kernel_process = .ok ex_kernel_awaited ∧
    ∀ code, process_self ex_kernel_awaited = .ok ex_kernel_awaited.kernel_process →
      process_exit ex_kernel_awaited code = .ok ex_kernel_awaited :=
  ⟨ex_kernel_awaited_reachable, ⟨_, rfl, rfl, rfl⟩, rfl,
    kernel_process_protected ex_cfg ex_kernel_awaited ex_kernel_awaited_reachable⟩

/-! ## Creation -/

/-- The result of `thread_create` when the lookup finds the process and
`malloc` hands out two blocks. -/
theorem thread_create_eq (cfg : Config) (s : KState) (p : Int) (entry flags block stack : Nat)
    (pp : Nat) (process : process_t)
    (hget : process_get s p = .ok (some pp)) (hP : s.pheap pp = some process)
    (hb : block ≠ 0) (hst : stack ≠ 0) :
    thread_create cfg s p entry flags block stack =
      .ok (thread_create_result cfg s pp process entry flags block stack, s.TID) := by
  cases hr : s.running with
  | none =>
    simp [thread_create, hget, hP, alloc_thread, hb, hst, list_pushback, hr,
      thread_create_result, created_thread, created_context, initial_esp,
      Function.update_idem]
  | some r =>
    simp [thread_create, hget, hP, alloc_thread, hb, hst, list_pushback, hr,
      thread_create_result, created_thread, created_context, initial_esp,
      Function.update_idem]

/-- A returning `thread_create` found the process and left the state
`thread_create_result`. -/
theorem thread_create_ok_inv (cfg : Config) (s s2 : KState) (p : Int)
    (entry flags block stack : Nat) (id : Int)
    (h : thread_create cfg s p entry flags block stack = .ok (s2, id)) :
    ∃ pp process, process_get s p = .ok (some pp) ∧ s.pheap pp = some process ∧
      pp ∈ s.processes ∧ block ≠ 0 ∧ stack ≠ 0 ∧ id = s.TID ∧
      s2 = thread_create_result cfg s pp process entry flags block stack := by
  obtain ⟨pp, process, _, hget, hP, hmem, hb, hst, _⟩ :=
    thread_create_inv cfg s s2 p entry flags block stack id h
  rw [thread_create_eq cfg s p entry flags block stack pp process hget hP hb hst] at h
  simp only [Except.ok.injEq, Prod.mk.injEq] at h
  exact ⟨pp, process, hget, hP, hmem, hb, hst, h.2.symm, h.1.symm⟩

/-- The result of `process_create` when `malloc` hands out a block. -/
theorem process_create_eq (cfg : Config) (s : KState) (name : List Nat) (flags block : Nat)
    (junk : process_state_t) (new_pdir : Nat) (hb : block ≠ 0) :
    process_create cfg s name flags block junk new_pdir =
      .ok (process_create_result cfg s name flags block junk new_pdir, s.PID) := by
  simp [process_create, alloc_process, hb, list_pushback, process_create_result,
    created_process]

theorem process_create_ok_inv (cfg : Config) (s s2 : KState) (name : List Nat)
    (flags block : Nat) (junk : process_state_t) (new_pdir : Nat) (id : Int)
    (h : process_create cfg s name flags block junk new_pdir = .ok (s2, id)) :
    block ≠ 0 ∧ id = s.PID ∧
      s2 = process_create_result cfg s name flags block junk new_pdir := by
  obtain ⟨_, hb, _⟩ := process_create_inv cfg s s2 name flags block junk new_pdir id h
  rw [process_create_eq cfg s name flags block junk new_pdir hb] at h
  simp only [Except.ok.injEq, Prod.mk.injEq] at h
  exact ⟨hb, h.2.symm, h.1.symm⟩

/-- C11: `thread_create` registration.  For a process id `p` that the lookup
resolves to the block `pp`, in a state whose thread list holds live blocks,
and for blocks handed out by `malloc` of which the thread block is not live,
`thread_create(p, entry, arg, flags)` returns the
id of the new thread, which is the old `TID`; the new thread block is
appended to the end of the thread collection of `pp` and to the end of the
global thread list, its process reference is `pp` and its state is RUNNING;
if a thread was running the new thread is appended to the tail of the ready
queue and `running` is unchanged, otherwise the new thread becomes running
and the ready queue is unchanged. -/
theorem thread_create_registers (cfg : Config) (s : KState) (p : Int)
    (entry flags block stack pp : Nat) (process : process_t)
    (hget : process_get s p = .ok (some pp)) (hP : s.pheap pp = some process)
    (hb : block ≠ 0) (hst : stack ≠ 0) (hfresh : s.theap block = none)
    (hlive : threads_live s) :
    ∃ s2 th P2, thread_create cfg s p entry flags block stack = .ok (s2, th.id) ∧
      block ∉ s.threads ∧ s2.theap block = some th ∧ th.id = s.TID ∧
      th.process = some pp ∧ th.state = THREAD_RUNNING ∧
      s2.pheap pp = some P2 ∧ P2.threads = process.threads ++ [block] ∧
      P2.id = process.id ∧
      s2.threads = s.threads ++ [block] ∧
      (∀ r, s.running = some r → s2.running = some r ∧ s2.waiting = s.waiting ++ [block]) ∧
      (s.running = none → s2.running = some block ∧ s2.waiting = s.waiting) := by
  refine ⟨thread_create_result cfg s pp process entry flags block stack,
    created_thread cfg s entry stack pp,
    { process with threads := process.threads ++ [block] },
    thread_create_eq cfg s p entry flags block stack pp process hget hP hb hst,
    ?_, by simp [thread_create_result], rfl, rfl, rfl, by simp [thread_create_result],
    rfl, rfl, rfl, ?_, ?_⟩
  · intro hm
    obtain ⟨t, ht⟩ := hlive block hm
    rw [hfresh] at ht
    cases ht
  · intro r hr
    simp [thread_create_result, hr]
  · intro hr
    simp [thread_create_result, hr]

theorem thread_create_registers_witness :
    process_get (ex_state (some 0x1000) [0x2000]) 1 = .ok (some 0x200) ∧
    (ex_state (some 0x1000) [0x2000]).pheap 0x200 = some ex_process1 ∧
    (0x5000 : Nat) ≠ 0 ∧ (0x50000 : Nat) ≠ 0 ∧
    (ex_state (some 0x1000) [0x2000]).theap 0x5000 = none ∧
    threads_live (ex_state (some 0x1000) [0x2000]) ∧
    ∃ s2 th P2,
      thread_create ex_cfg (ex_state (some 0x1000) [0x2000]) 1 0x400300 0 0x5000 0x50000 =
        .ok (s2, th.id) ∧
      0x5000 ∉ (ex_state (some 0x1000) [0x2000]).threads ∧ s2.theap 0x5000 = some th ∧
      th.id = (ex_state (some 0x1000) [0x2000]).TID ∧
      th.process = some 0x200 ∧ th.state = THREAD_RUNNING ∧
      s2.pheap 0x200 = some P2 ∧ P2.threads = ex_process1.threads ++ [0x5000] ∧
      P2.id = ex_process1.id ∧
      s2.threads = (ex_state (some 0x1000) [0x2000]).threads ++ [0x5000] ∧
      (∀ r, (ex_state (some 0x1000) [0x2000]).running = some r →
        s2.running = some r ∧
        s2.waiting = (ex_state (some 0x1000) [0x2000]).waiting ++ [0x5000]) ∧
      ((ex_state (some 0x1000) [0x2000]).running = none →
        s2.running = some 0x5000 ∧
        s2.waiting = (ex_state (some 0x1000) [0x2000]).waiting) :=
  ⟨rfl, rfl, by decide, by decide, rfl, ex_threads_live _ _,
    thread_create_registers ex_cfg (ex_state (some 0x1000) [0x2000]) 1 0x400300 0 0x5000
      0x50000 0x200 ex_process1 rfl rfl (by decide) (by decide) rfl (ex_threads_live _ _)⟩

/-! ## Lookup by identifier -/

theorem thread_get_loop_find (h : Nat → Option thread_t) (id : Int) :
    ∀ l : List Nat, (∀ j ∈ l, ∃ t, h j = some t) →
      thread_get_loop h id l = .ok (l.find? (fun j =>
        match h j with
        | some t => decide (t.id = id)
        | none => false)) := by
  intro l
  induction l with
  | nil => intro _; rfl
  | cons i rest ih =>
    intro hl
    obtain ⟨a, ha⟩ := hl i (List.mem_cons_self _ _)
    have hrest := ih (fun j hj => hl j (List.mem_cons_of_mem _ hj))
    by_cases hid : a.id = id
    · simp [thread_get_loop, ha, hid, List.find?]
    · simp [thread_get_loop, ha, hid, List.find?, hrest]

theorem thread_get_loop_first (h : Nat → Option thread_t) (id : Int) (k : Nat) :
    ∀ l : List Nat, thread_get_loop h id l = .ok (some k) →
      ∃ pre post, l = pre ++ k :: post ∧ ∀ j ∈ pre, ∀ u, h j = some u → u.id ≠ id := by
  intro l
  induction l with
  | nil => intro hg; simp [thread_get_loop] at hg
  | cons i rest ih =>
    intro hg
    cases hi : h i with
    | none => simp [thread_get_loop, hi] at hg
    | some a =>
      by_cases hid : a.id = id
      · simp only [thread_get_loop, hi, hid, if_true, Except.ok.injEq, Option.some.injEq] at hg
        subst hg
        exact ⟨[], rest, rfl, by intro j hj; simp at hj⟩
      · simp only [thread_get_loop, hi, hid, if_false] at hg
        obtain ⟨pre, post, hl, hpre⟩ := ih hg
        refine ⟨i :: pre, post, by rw [hl]; rfl, ?_⟩
        intro j hj u hu
        rcases List.mem_cons.mp hj with h1 | h1
        · subst h1
          rw [hi] at hu
          cases hu
          exact hid
        · exact hpre j h1 u hu

theorem thread_get_loop_none (h : Nat → Option thread_t) (id : Int) :
    ∀ l : List Nat, thread_get_loop h id l = .ok none →
      ∀ j ∈ l, ∀ u, h j = some u → u.id ≠ id := by
  intro l
  induction l with
  | nil => intro _ j hj; simp at hj
  | cons i rest ih =>
    intro hg j hj u hu
    cases hi : h i with
    | none => simp [thread_get_loop, hi] at hg
    | some a =>
      by_cases hid : a.id = id
      · simp [thread_get_loop, hi, hid] at hg
      · simp only [thread_get_loop, hi, hid, if_false] at hg
        rcases List.mem_cons.mp hj with h1 | h1
        · subst h1
          rw [hi] at hu
          cases hu
          exact hid
        · exact ih hg j h1 u hu

theorem process_get_loop_find (h : Nat → Option process_t) (id : Int) :
    ∀ l : List Nat, (∀ j ∈ l, ∃ P, h j = some P) →
      process_get_loop h id l = .ok (l.find? (fun j =>
        match h j with
        | some P => decide (P.id = id)
        | none => false)) := by
  intro l
  induction l with
  | nil => intro _; rfl
  | cons i rest ih =>
    intro hl
    obtain ⟨a, ha⟩ := hl i (List.mem_cons_self _ _)
    have hrest := ih (fun j hj => hl j (List.mem_cons_of_mem _ hj))
    by_cases hid : a.id = id
    · simp [process_get_loop, ha, hid, List.find?]
    · simp [process_get_loop, ha, hid, List.find?, hrest]

theorem process_get_loop_first (h : Nat → Option process_t) (id : Int) (k : Nat) :
    ∀ l : List Nat, process_get_loop h id l = .ok (some k) →
      ∃ pre post, l = pre ++ k :: post ∧ ∀ j ∈ pre, ∀ u, h j = some u → u.id ≠ id := by
  intro l
  induction l with
  | nil => intro hg; simp [process_get_loop] at hg
  | cons i rest ih =>
    intro hg
    cases hi : h i with
    | none => simp [process_get_loop, hi] at hg
    | some a =>
      by_cases hid : a.id = id
      · simp only [process_get_loop, hi, hid, if_true, Except.ok.injEq, Option.some.injEq] at hg
        subst hg
        exact ⟨[], rest, rfl, by intro j hj; simp at hj⟩
      · simp only [process_get_loop, hi, hid, if_false] at hg
        obtain ⟨pre, post, hl, hpre⟩ := ih hg
        refine ⟨i :: pre, post, by rw [hl]; rfl, ?_⟩
        intro j hj u hu
        rcases List.mem_cons.mp hj with h1 | h1
        · subst h1
          rw [hi] at hu
          cases hu
          exact hid
        · exact hpre j h1 u hu

theorem process_get_loop_none (h : Nat → Option process_t) (id : Int) :
    ∀ l : List Nat, process_get_loop h id l = .ok none →
      ∀ j ∈ l, ∀ u, h j = some u → u.id ≠ id := by
  intro l
  induction l with
  | nil => intro _ j hj; simp at hj
  | cons i rest ih =>
    intro hg j hj u hu
    cases hi : h i with
    | none => simp [process_get_loop, hi] at hg
    | some a =>
      by_cases hid : a.id = id
      · simp [process_get_loop, hi, hid] at hg
      · simp only [process_get_loop, hi, hid, if_false] at hg
        rcases List.mem_cons.mp hj with h1 | h1
        · subst h1
          rw [hi] at hu
          cases hu
          exact hid
        · exact ih hg j h1 u hu

/-- C13: lookup by identifier.  When the items of the thread list and of the
process list are live blocks, `thread_get(id)` returns the first item of the
global thread list whose id equals the argument if there is one and `NULL`
otherwise: it agrees with the lookup in the words of the specification, a
returned block is a member of the list with that id and no item before it has
that id, and `NULL` is returned exactly when no item has that id.  Likewise
`process_get(id)` over the process list. -/
theorem lookup_by_identifier (s : KState) (id : Int)
    (hlive : threads_live s) (hplive : processes_live s) :
    (thread_get s id = .ok (first_thread_with_id s id) ∧
      (∀ k, thread_get s id = .ok (some k) →
        ∃ pre post t, s.threads = pre ++ k :: post ∧ s.theap k = some t ∧ t.id = id ∧
          ∀ j ∈ pre, ∀ u, s.theap j = some u → u.id ≠ id) ∧
      (thread_get s id = .ok none ↔
        ∀ j ∈ s.threads, ∀ u, s.theap j = some u → u.id ≠ id)) ∧
    (process_get s id = .ok (first_process_with_id s id) ∧
      (∀ k, process_get s id = .ok (some k) →
        ∃ pre post P, s.processes = pre ++ k :: post ∧ s.pheap k = some P ∧ P.id = id ∧
          ∀ j ∈ pre, ∀ Q, s.pheap j = some Q → Q.id ≠ id) ∧
      (process_get s id = .ok none ↔
        ∀ j ∈ s.processes, ∀ Q, s.pheap j = some Q → Q.id ≠ id)) := by
  refine ⟨⟨thread_get_loop_find s.theap id s.threads hlive, ?_, ?_⟩,
    ⟨process_get_loop_find s.pheap id s.processes hplive, ?_, ?_⟩⟩
  · intro k hk
    obtain ⟨pre, post, hl, hpre⟩ := thread_get_loop_first s.theap id k s.threads hk
    obtain ⟨_, t, ht, hid⟩ := thread_get_loop_some s.theap id k s.threads hk
    exact ⟨pre, post, t, hl, ht, hid, hpre⟩
  · constructor
    · exact thread_get_loop_none s.theap id s.threads
    · intro hno
      obtain ⟨r, hr⟩ := thread_get_loop_total s.theap id s.threads hlive
      cases r with
      | none => exact hr
      | some k =>
        obtain ⟨hm, t, ht, hid⟩ := thread_get_loop_some s.theap id k s.threads hr
        exact absurd hid (hno k hm t ht)
  · intro k hk
    obtain ⟨pre, post, hl, hpre⟩ := process_get_loop_first s.pheap id k s.processes hk
    obtain ⟨_, P, hP, hid⟩ := process_get_loop_some s.pheap id k s.processes hk
    exact ⟨pre, post, P, hl, hP, hid, hpre⟩
  · constructor
    · exact process_get_loop_none s.pheap id s.processes
    · intro hno
      have hr := process_get_loop_find s.pheap id s.processes hplive
      cases hf : s.processes.find? (fun j =>
          match s.pheap j with
          | some P => decide (P.id = id)
          | none => false) with
      | none =>
        rw [hf] at hr
        exact hr
      | some k =>
        rw [hf] at hr
        obtain ⟨hm, P, hP, hid⟩ := process_get_loop_some s.pheap id k s.processes hr
        exact absurd hid (hno k hm P hP)

theorem ex_processes_live (running : Option Nat) (waiting : List Nat) :
    processes_live (ex_state running waiting) := by
  intro j hj
  simp only [ex_state, List.mem_cons, List.mem_singleton, List.not_mem_nil, or_false] at hj
  rcases hj with rfl | rfl <;> simp [ex_state, ex_pheap]

theorem lookup_by_identifier_witness :
    threads_live (ex_state (some 0x1000) [0x2000]) ∧
    processes_live (ex_state (some 0x1000) [0x2000]) ∧
    thread_get (ex_state (some 0x1000) [0x2000]) 2 = .ok (some 0x3000) ∧
    process_get (ex_state (some 0x1000) [0x2000]) 5 = .ok none ∧
    (thread_get (ex_state (some 0x1000) [0x2000]) 2 =
        .ok (first_thread_with_id (ex_state (some 0x1000) [0x2000]) 2) ∧
      (∀ k, thread_get (ex_state (some 0x1000) [0x2000]) 2 = .ok (some k) →
        ∃ pre post t, (ex_state (some 0x1000) [0x2000]).threads = pre ++ k :: post ∧
          (ex_state (some 0x1000) [0x2000]).theap k = some t ∧ t.id = 2 ∧
          ∀ j ∈ pre, ∀ u, (ex_state (some 0x1000) [0x2000]).theap j = some u → u.id ≠ 2) ∧
      (thread_get (ex_state (some 0x1000) [0x2000]) 2 = .ok none ↔
        ∀ j ∈ (ex_state (some 0x1000) [0x2000]).threads, ∀ u,
          (ex_state (some 0x1000) [0x2000]).theap j = some u → u.id ≠ 2)) ∧
    (process_get (ex_state (some 0x1000) [0x2000]) 2 =
        .ok (first_process_with_id (ex_state (some 0x1000) [0x2000]) 2) ∧
      (∀ k, process_get (ex_state (some 0x1000) [0x2000]) 2 = .ok (some k) →
        ∃ pre post P, (ex_state (some 0x1000) [0x2000]).processes = pre ++ k :: post ∧
          (ex_state (some 0x1000) [0x2000]).pheap k = some P ∧ P.id = 2 ∧
          ∀ j ∈ pre, ∀ Q, (ex_state (some 0x1000) [0x2000]).pheap j = some Q → Q.id ≠ 2) ∧
      (process_get (ex_state (some 0x1000) [0x2000]) 2 = .ok none ↔
        ∀ j ∈ (ex_state (some 0x1000) [0x2000]).processes, ∀ Q,
          (ex_state (some 0x1000) [0x2000]).pheap j = some Q → Q.id ≠ 2)) :=
  ⟨ex_threads_live _ _, ex_processes_live _ _, rfl, rfl,
    lookup_by_identifier (ex_state (some 0x1000) [0x2000]) 2 (ex_threads_live _ _)
      (ex_processes_live _ _)⟩

/-! ## Not-found lookups and the exec failure path -/

/-- C14 fails on the code: in the concrete system no process has id 7 and no
thread has id 9, and `thread_create(7, ...)`, `process_cancel(7)`,
`process_map(7, ...)`, `process_unmap(7, ...)` and `thread_dump(9)` all load
or store through the `NULL` that the lookup returned, instead of completing
with a failure outcome. -/
theorem not_found_is_dereferenced :
    process_get (ex_state (some 0x1000) [0x2000]) 7 = .ok none ∧
    thread_get (ex_state (some 0x1000) [0x2000]) 9 = .ok none ∧
    thread_create ex_cfg (ex_state (some 0x1000) [0x2000]) 7 0x400300 0 0x5000 0x50000 =
      .error Halt.bad_deref ∧
    process_cancel (ex_state (some 0x1000) [0x2000]) 7 = .error Halt.bad_deref ∧
    process_map ex_cfg (ex_state (some 0x1000) [0x2000]) 7 0x400000 1 =
      .error Halt.bad_deref ∧
    process_unmap ex_cfg (ex_state (some 0x1000) [0x2000]) 7 0x400000 1 =
      .error Halt.bad_deref ∧
    thread_dump (ex_state (some 0x1000) [0x2000]) 9 = .error Halt.bad_deref :=
  ⟨rfl, rfl, rfl, rfl, rfl, rfl, rfl⟩

/-- C15: exec load failure.  When the filesystem open fails, `process_exec`
returns 0 and the whole state, with the process list, the thread list, the
ready queue, the running slot and the `PID` and `TID` counters, is
unchanged. -/
theorem process_exec_open_failure (cfg : Config) (s : KState) (path : List Nat)
    (pblock : Nat) (junk : process_state_t) (tblock tstack : Nat) :
    process_exec cfg s path none pblock junk tblock tstack = .ok (s, 0) :=
  rfl

/-- What a returning `process_exec` did for a file that opens: it created the
process, ran the segment loop, created the thread and freed the buffer. -/
theorem process_exec_inv (cfg : Config) (s s2 : KState) (path : List Nat) (elf : ELF_image)
    (pblock : Nat) (junk : process_state_t) (tblock tstack : Nat) (id : Int)
    (h : process_exec cfg s path (some elf) pblock junk tblock tstack = .ok (s2, id)) :
    ∃ s1 sl s3 tid, process_create cfg s path 0 pblock junk 0 = .ok (s1, id) ∧
      load_segments cfg id elf.buffer elf.programs s1 = .ok sl ∧
      thread_create cfg sl id elf.entry 0 tblock tstack = .ok (s3, tid) ∧
      s2 = { s3 with freed := s3.freed ++ [elf.buffer] } := by
  unfold process_exec at h
  dsimp only at h
  cases hpc : process_create cfg s path 0 pblock junk 0 with
  | error e => simp [hpc] at h
  | ok r1 =>
    obtain ⟨s1, p⟩ := r1
    simp only [hpc] at h
    cases hls : load_segments cfg p elf.buffer elf.programs s1 with
    | error e => simp [hls] at h
    | ok sl =>
      simp only [hls] at h
      cases htc : thread_create cfg sl p elf.entry 0 tblock tstack with
      | error e => simp [htc] at h
      | ok r3 =>
        obtain ⟨s3, tid⟩ := r3
        simp only [htc, Except.ok.injEq, Prod.mk.injEq] at h
        obtain ⟨h1, h2⟩ := h
        subst h2
        exact ⟨s1, sl, s3, tid, rfl, hls, htc, h1.symm⟩

/-- C20: starting context.  For a process id `p` that the lookup resolves to
a process with flags `pf`, a stack that ends below the top of the address
space and every entry and caller flags `f`, `thread_create(p, entry, arg, f)`
returns and the context stored at the saved `esp` of the new thread has
`eip = entry`, `eflags = 0x202` with the bit `0x200` set, `ebp = stack +
STACK_SIZE`, and the segment fields `cs = 0x18`, `ds = es = fs = gs = 0x20`
when `(pf | f) & TASK_USER` is not zero and `cs = 0x08`, `ds = es = fs = gs =
0x10` otherwise.  The thread that a returning `process_exec` created has
`eip` equal to the entry address of the image. -/
theorem starting_context (cfg : Config) (s : KState) :
    (∀ (p : Int) (entry flags block stack pp : Nat) (process : process_t),
      process_get s p = .ok (some pp) → s.pheap pp = some process →
      block ≠ 0 → stack ≠ 0 → stack + cfg.STACK_SIZE < 2 ^ 32 →
      ∃ s2 th ctx, thread_create cfg s p entry flags block stack = .ok (s2, th.id) ∧
        s2.theap block = some th ∧ th.stack = stack ∧ th.entry = entry ∧
        s2.contexts th.esp = some ctx ∧
        ctx.eip = entry ∧ ctx.eflags = 0x202 ∧ ctx.eflags &&& 0x200 = 0x200 ∧
        ctx.ebp = stack + cfg.STACK_SIZE ∧
        ((process.flags ||| flags) &&& cfg.TASK_USER ≠ 0 →
          ctx.cs = 0x18 ∧ ctx.ds = 0x20 ∧ ctx.es = 0x20 ∧ ctx.fs = 0x20 ∧ ctx.gs = 0x20) ∧
        ((process.flags ||| flags) &&& cfg.TASK_USER = 0 →
          ctx.cs = 0x08 ∧ ctx.ds = 0x10 ∧ ctx.es = 0x10 ∧ ctx.fs = 0x10 ∧ ctx.gs = 0x10)) ∧
    (∀ (path : List Nat) (elf : ELF_image) (pblock : Nat) (junk : process_state_t)
      (tblock tstack : Nat) (s2 : KState) (id : Int),
      process_exec cfg s path (some elf) pblock junk tblock tstack = .ok (s2, id) →
      ∃ th ctx, s2.theap tblock = some th ∧ th.entry = elf.entry ∧
        s2.contexts th.esp = some ctx ∧ ctx.eip = elf.entry) := by
  constructor
  · intro p entry flags block stack pp process hget hP hb hst hfit
    refine ⟨thread_create_result cfg s pp process entry flags block stack,
      created_thread cfg s entry stack pp,
      created_context cfg entry (process.flags ||| flags) stack,
      thread_create_eq cfg s p entry flags block stack pp process hget hP hb hst,
      by simp [thread_create_result], rfl, rfl,
      by simp [thread_create_result, created_thread], ?_⟩
    have hfit2 : stack + cfg.STACK_SIZE < 4294967296 := by simpa using hfit
    have hbit : (514 : Nat) &&& 512 = 512 := by decide
    by_cases hu : (process.flags ||| flags) &&& cfg.TASK_USER = 0
    · simp [created_context, hu, Nat.mod_eq_of_lt hfit2, hbit, hfit2]
    · simp [created_context, hu, Nat.mod_eq_of_lt hfit2, hbit, hfit2]
  · intro path elf pblock junk tblock tstack s2 id h
    obtain ⟨s1, sl, s3, tid, _, _, htc, rfl⟩ :=
      process_exec_inv cfg s s2 path elf pblock junk tblock tstack id h
    obtain ⟨pp, process, _, _, _, _, _, _, rfl⟩ :=
      thread_create_ok_inv cfg sl s3 id elf.entry 0 tblock tstack tid htc
    refine ⟨created_thread cfg sl elf.entry tstack pp,
      created_context cfg elf.entry (process.flags ||| 0) tstack,
      by simp [thread_create_result], rfl,
      by simp [thread_create_result, created_thread], ?_⟩
    unfold created_context
    split <;> rfl

/-! ## Memory primitives and `load_elfseg` -/

theorem range_mapped_iff (cfg : Config) (mapped : Nat → Nat → Bool) (pdir addr n : Nat) :
    range_mapped cfg mapped pdir addr n = true ↔
      ∀ i, i < n → mapped pdir (page_of cfg (addr + i)) = true := by
  simp [range_mapped, List.all_eq_true]

theorem memset_eq (cfg : Config) (s : KState) (dest value n : Nat)
    (hfit : dest + n ≤ 2 ^ 32)
    (hmap : range_mapped cfg s.mapped s.active_pdir dest n = true) :
    memset cfg s dest value n =
      .ok { s with vmem := memset_vmem s.vmem s.active_pdir dest value n } := by
  unfold memset
  rw [if_neg (Nat.not_lt.mpr hfit), if_pos hmap]
  rfl

theorem memset_inv (cfg : Config) (s s2 : KState) (dest value n : Nat)
    (h : memset cfg s dest value n = .ok s2) :
    dest + n ≤ 2 ^ 32 ∧ range_mapped cfg s.mapped s.active_pdir dest n = true ∧
      s2 = { s with vmem := memset_vmem s.vmem s.active_pdir dest value n } := by
  unfold memset at h
  by_cases hfit : dest + n > 2 ^ 32
  · rw [if_pos hfit] at h
    cases h
  · rw [if_neg hfit] at h
    by_cases hmap : range_mapped cfg s.mapped s.active_pdir dest n = true
    · rw [if_pos hmap] at h
      simp only [Except.ok.injEq] at h
      exact ⟨Nat.not_lt.mp hfit, hmap, h.symm⟩
    · rw [if_neg hmap] at h
      cases h

theorem memcpy_eq (cfg : Config) (s : KState) (dest src n : Nat)
    (hfit : dest + n ≤ 2 ^ 32) (hfit2 : src + n ≤ 2 ^ 32)
    (hsrc : range_mapped cfg s.mapped s.active_pdir src n = true)
    (hdst : range_mapped cfg s.mapped s.active_pdir dest n = true) :
    memcpy cfg s dest src n =
      .ok { s with vmem := memcpy_vmem s.vmem s.active_pdir dest src n } := by
  unfold memcpy
  rw [if_neg (by
    intro hc
    rcases hc with hc | hc
    · exact absurd hfit (Nat.not_le.mpr hc)
    · exact absurd hfit2 (Nat.not_le.mpr hc)), if_pos ⟨hsrc, hdst⟩]
  rfl

theorem memcpy_inv (cfg : Config) (s s2 : KState) (dest src n : Nat)
    (h : memcpy cfg s dest src n = .ok s2) :
    dest + n ≤ 2 ^ 32 ∧ src + n ≤ 2 ^ 32 ∧
      range_mapped cfg s.mapped s.active_pdir src n = true ∧
      range_mapped cfg s.mapped s.active_pdir dest n = true ∧
      s2 = { s with vmem := memcpy_vmem s.vmem s.active_pdir dest src n } := by
  unfold memcpy at h
  by_cases hfit : dest + n > 2 ^ 32 ∨ src + n > 2 ^ 32
  · rw [if_pos hfit] at h
    cases h
  · rw [if_neg hfit] at h
    by_cases hmap : range_mapped cfg s.mapped s.active_pdir src n = true ∧
        range_mapped cfg s.mapped s.active_pdir dest n = true
    · rw [if_pos hmap] at h
      simp only [Except.ok.injEq] at h
      have h1 : dest + n ≤ 2 ^ 32 := Nat.not_lt.mp (fun hc => hfit (Or.inl hc))
      have h2 : src + n ≤ 2 ^ 32 := Nat.not_lt.mp (fun hc => hfit (Or.inr hc))
      exact ⟨h1, h2, hmap.1, hmap.2, h.symm⟩
    · rw [if_neg hmap] at h
      cases h

theorem process_map_eq (cfg : Config) (s : KState) (p : Int) (addr count q : Nat)
    (Q : process_t) (hget : process_get s p = .ok (some q)) (hQ : s.pheap q = some Q) :
    process_map cfg s p addr count = .ok (memory_map cfg s Q.pdir addr count) := by
  simp [process_map, hget, hQ]

theorem process_map_inv (cfg : Config) (s s2 : KState) (p : Int) (addr count : Nat) (ret : Int)
    (h : process_map cfg s p addr count = .ok (s2, ret)) :
    ∃ q Q, process_get s p = .ok (some q) ∧ s.pheap q = some Q ∧
      (s2, ret) = memory_map cfg s Q.pdir addr count := by
  unfold process_map at h
  cases hg : process_get s p with
  | error e => simp [hg] at h
  | ok found =>
    cases found with
    | none => simp [hg] at h
    | some q =>
      cases hQ : s.pheap q with
      | none => simp [hg, hQ] at h
      | some Q =>
        simp only [hg, hQ, Except.ok.injEq] at h
        exact ⟨q, Q, rfl, hQ, h.symm⟩

/-- A segment below the threshold is skipped: nothing is changed. -/
theorem load_elfseg_low (cfg : Config) (s : KState) (process : Option Nat)
    (src srcsz dest destsz : Nat) (hlow : dest < 0x100000) :
    load_elfseg cfg s process src srcsz dest destsz = .ok s := by
  unfold load_elfseg
  rw [if_neg (Nat.not_le.mpr hlow)]

/-- The result of `load_elfseg` for a segment in user memory when no load,
store or lookup of the call fails. -/
theorem load_elfseg_eq (cfg : Config) (s : KState) (src srcsz dest destsz : Nat)
    (r rpp pp q : Nat) (rt : thread_t) (rprocess target Q : process_t)
    (hhigh : dest ≥ 0x100000)
    (hrun : s.running = some r) (hrt : s.theap r = some rt) (hrpp : rt.process = some rpp)
    (hrp : s.pheap rpp = some rprocess) (htarget : s.pheap pp = some target)
    (hget : process_get s target.id = .ok (some q)) (hQ : s.pheap q = some Q)
    (hfit : dest + destsz ≤ 2 ^ 32) (hfit2 : src + srcsz ≤ 2 ^ 32) (hle : srcsz ≤ destsz)
    (hdst : range_mapped cfg
      (memory_map cfg s Q.pdir dest (PAGE_ALIGN cfg destsz / cfg.PAGE_SIZE)).1.mapped
      target.pdir dest destsz = true)
    (hsrc : range_mapped cfg
      (memory_map cfg s Q.pdir dest (PAGE_ALIGN cfg destsz / cfg.PAGE_SIZE)).1.mapped
      target.pdir src srcsz = true) :
    load_elfseg cfg s (some pp) src srcsz dest destsz =
      .ok (load_elfseg_result cfg s rprocess.pdir target.pdir Q.pdir src srcsz dest destsz) := by
  have hget1 : process_get (paging_load_directorie s target.pdir) target.id = .ok (some q) :=
    hget
  have hdst2 : range_mapped cfg
      (memory_map cfg s Q.pdir dest (PAGE_ALIGN cfg destsz / cfg.PAGE_SIZE)).1.mapped
      target.pdir dest srcsz = true := by
    rw [range_mapped_iff] at hdst ⊢
    intro i hi
    exact hdst i (Nat.lt_of_lt_of_le hi hle)
  unfold load_elfseg
  rw [if_pos hhigh]
  simp only [hrun, hrt, hrpp, hrp, htarget]
  rw [process_map_eq cfg _ target.id dest _ q Q hget1 hQ]
  simp only []
  rw [memset_eq cfg _ dest 0 destsz hfit hdst]
  simp only []
  rw [memcpy_eq cfg _ dest src srcsz (Nat.le_trans (Nat.add_le_add_left hle dest) hfit) hfit2
    hsrc hdst2]
  rfl

/-- What a returning `load_elfseg` did for a segment in user memory. -/
theorem load_elfseg_inv (cfg : Config) (s sf : KState) (process : Option Nat)
    (src srcsz dest destsz : Nat) (hhigh : dest ≥ 0x100000)
    (h : load_elfseg cfg s process src srcsz dest destsz = .ok sf) :
    ∃ r rt rpp rprocess pp target q Q, process = some pp ∧
      s.running = some r ∧ s.theap r = some rt ∧ rt.process = some rpp ∧
      s.pheap rpp = some rprocess ∧ s.pheap pp = some target ∧
      process_get s target.id = .ok (some q) ∧ s.pheap q = some Q ∧
      sf = load_elfseg_result cfg s rprocess.pdir target.pdir Q.pdir src srcsz dest destsz := by
  unfold load_elfseg at h
  rw [if_pos hhigh] at h
  cases hrun : s.running with
  | none => simp [hrun] at h
  | some r =>
    cases hrt : s.theap r with
    | none => simp [hrun, hrt] at h
    | some rt =>
      cases hrpp : rt.process with
      | none => simp [hrun, hrt, hrpp] at h
      | some rpp =>
        cases hrp : s.pheap rpp with
        | none => simp [hrun, hrt, hrpp, hrp] at h
        | some rprocess =>
          cases process with
          | none => simp [hrun, hrt, hrpp, hrp] at h
          | some pp =>
            cases htarget : s.pheap pp with
            | none => simp [hrun, hrt, hrpp, hrp, htarget] at h
            | some target =>
              simp only [hrun, hrt, hrpp, hrp, htarget] at h
              cases hpm : process_map cfg (paging_load_directorie s target.pdir) target.id dest
                  (PAGE_ALIGN cfg destsz / cfg.PAGE_SIZE) with
              | error e => simp [hpm] at h
              | ok r2 =>
                obtain ⟨s2, ret⟩ := r2
                simp only [hpm] at h
                obtain ⟨q, Q, hget, hQ, hmm⟩ := process_map_inv cfg _ s2 target.id dest _ ret hpm
                cases hms : memset cfg s2 dest 0 destsz with
                | error e => simp [hms] at h
                | ok s3 =>
                  simp only [hms] at h
                  obtain ⟨_, _, h3⟩ := memset_inv cfg s2 s3 dest 0 destsz hms
                  cases hmc : memcpy cfg s3 dest src srcsz with
                  | error e => simp [hmc] at h
                  | ok s4 =>
                    simp only [hmc, Except.ok.injEq] at h
                    obtain ⟨_, _, _, _, h4⟩ := memcpy_inv cfg s3 s4 dest src srcsz hmc
                    have h2 : s2 = (memory_map cfg (paging_load_directorie s target.pdir)
                        Q.pdir dest (PAGE_ALIGN cfg destsz / cfg.PAGE_SIZE)).1 := by
                      rw [← hmm]
                    refine ⟨r, rt, rpp, rprocess, pp, target, q, Q, rfl, rfl, hrt, hrpp, hrp,
                      htarget, hget, hQ, ?_⟩
                    rw [← h, h4, h3, h2]
                    rfl

/-- A returning `load_elfseg` writes the active directory, the page tables
and the memory, and nothing else. -/
theorem load_elfseg_frame (cfg : Config) (s sf : KState) (process : Option Nat)
    (src srcsz dest destsz : Nat)
    (h : load_elfseg cfg s process src srcsz dest destsz = .ok sf) :
    sf = { s with active_pdir := sf.active_pdir, mapped := sf.mapped, vmem := sf.vmem } := by
  by_cases hhigh : dest ≥ 0x100000
  · obtain ⟨_, _, _, _, _, _, _, _, _, _, _, _, _, _, _, _, rfl⟩ :=
      load_elfseg_inv cfg s sf process src srcsz dest destsz hhigh h
    rfl
  · rw [load_elfseg_low cfg s process src srcsz dest destsz (Nat.not_le.mp hhigh)] at h
    simp only [Except.ok.injEq] at h
    rw [← h]

theorem memory_map_keeps (cfg : Config) (s : KState) (pdir addr count d pg : Nat)
    (h : s.mapped d pg = true) : (memory_map cfg s pdir addr count).1.mapped d pg = true := by
  simp only [memory_map]
  split
  · rfl
  · exact h

/-- C17: segment load result.  For a segment with `dest >= 0x100000` and
`srcsz <= destsz`, a running thread with a live process, and a target process
that is registered under its id, when both ranges lie in the address space,
the source buffer does not overlap the destination range, the source is
present in the target directory and the destination range is present once the
pages are mapped, `load_elfseg` returns; the memory of the target process then
holds the source bytes at `[dest, dest + srcsz)` and zero at `[dest + srcsz,
dest + destsz)`, and no byte outside `[dest, dest + destsz)` of the target
directory is written. -/
theorem load_elfseg_copies_segment (cfg : Config) (s : KState)
    (src srcsz dest destsz r rpp pp : Nat) (rt : thread_t) (rprocess target : process_t)
    (hhigh : dest ≥ 0x100000) (hle : srcsz ≤ destsz)
    (hrun : s.running = some r) (hrt : s.theap r = some rt) (hrpp : rt.process = some rpp)
    (hrp : s.pheap rpp = some rprocess) (htarget : s.pheap pp = some target)
    (hreg : process_get s target.id = .ok (some pp))
    (hfit : dest + destsz ≤ 2 ^ 32) (hfit2 : src + srcsz ≤ 2 ^ 32)
    (hdisj : src + srcsz ≤ dest ∨ dest + destsz ≤ src)
    (hsrc : range_mapped cfg s.mapped target.pdir src srcsz = true)
    (hdst : range_mapped cfg
      (memory_map cfg s target.pdir dest (PAGE_ALIGN cfg destsz / cfg.PAGE_SIZE)).1.mapped
      target.pdir dest destsz = true) :
    ∃ s2, load_elfseg cfg s (some pp) src srcsz dest destsz = .ok s2 ∧
      (∀ i, i < srcsz → s2.vmem target.pdir (dest + i) = s.vmem target.pdir (src + i)) ∧
      (∀ a, dest + srcsz ≤ a → a < dest + destsz → s2.vmem target.pdir a = 0) ∧
      (∀ d a, ¬ (d = target.pdir ∧ dest ≤ a ∧ a < dest + destsz) →
        s2.vmem d a = s.vmem d a) := by
  have hsrc2 : range_mapped cfg
      (memory_map cfg s target.pdir dest (PAGE_ALIGN cfg destsz / cfg.PAGE_SIZE)).1.mapped
      target.pdir src srcsz = true := by
    rw [range_mapped_iff] at hsrc ⊢
    intro i hi
    exact memory_map_keeps cfg s _ _ _ _ _ (hsrc i hi)
  refine ⟨_, load_elfseg_eq cfg s src srcsz dest destsz r rpp pp pp rt rprocess target target
    hhigh hrun hrt hrpp hrp htarget hreg htarget hfit hfit2 hle hdst hsrc2, ?_, ?_, ?_⟩
  · intro i hi
    have h1 : dest + i < dest + srcsz := Nat.add_lt_add_left hi dest
    have h2 : ¬ (dest ≤ src + i ∧ src + i < dest + destsz) := by
      rintro ⟨ha, hb⟩
      rcases hdisj with hd | hd
      · exact absurd ha (Nat.not_le.mpr (Nat.lt_of_lt_of_le (Nat.add_lt_add_left hi src) hd))
      · exact absurd hb (Nat.not_lt.mpr (Nat.le_trans hd (Nat.le_add_right src i)))
    simp [load_elfseg_result, memcpy_vmem, memset_vmem, hi, h2]
  · intro a ha hb
    have h1 : ¬ a < dest + srcsz := Nat.not_lt.mpr ha
    have h2 : dest ≤ a := Nat.le_trans (Nat.le_add_right dest srcsz) ha
    simp [load_elfseg_result, memcpy_vmem, memset_vmem, h1, h2, hb]
  · intro d a hout
    have h1 : ¬ (d = target.pdir ∧ dest ≤ a ∧ a < dest + srcsz) := by
      rintro ⟨hd, ha, hb⟩
      exact hout ⟨hd, ha, Nat.lt_of_lt_of_le hb (Nat.add_le_add_left hle dest)⟩
    simp only [load_elfseg_result, memcpy_vmem, memset_vmem]
    rw [if_neg h1, if_neg hout]

theorem load_elfseg_copies_segment_witness :
    (0x400000 : Nat) ≥ 0x100000 ∧ (3 : Nat) ≤ 5 ∧
    ex_loader_state.running = some 0x1000 ∧ ex_loader_state.theap 0x1000 = some ex_thread0 ∧
    ex_thread0.process = some 0x100 ∧ ex_loader_state.pheap 0x100 = some ex_process0 ∧
    ex_loader_state.pheap 0x200 = some ex_process1 ∧
    process_get ex_loader_state ex_process1.id = .ok (some 0x200) ∧
    range_mapped ex_cfg ex_loader_state.mapped ex_process1.pdir 0x300004 3 = true ∧
    ∃ s2, load_elfseg ex_cfg ex_loader_state (some 0x200) 0x300004 3 0x400000 5 = .ok s2 ∧
      (∀ i, i < 3 → s2.vmem ex_process1.pdir (0x400000 + i) =
        ex_loader_state.vmem ex_process1.pdir (0x300004 + i)) ∧
      (∀ a, 0x400000 + 3 ≤ a → a < 0x400000 + 5 → s2.vmem ex_process1.pdir a = 0) ∧
      (∀ d a, ¬ (d = ex_process1.pdir ∧ 0x400000 ≤ a ∧ a < 0x400000 + 5) →
        s2.vmem d a = ex_loader_state.vmem d a) :=
  ⟨by decide, by decide, rfl, rfl, rfl, rfl, rfl, rfl, by decide,
    load_elfseg_copies_segment ex_cfg ex_loader_state 0x300004 3 0x400000 5 0x1000 0x100 0x200
      ex_thread0 ex_process0 ex_process1 (by decide) (by decide) rfl rfl rfl rfl rfl rfl
      (by decide) (by decide) (Or.inl (by decide)) (by decide) (by decide)⟩

/-! ## The segment loop of `process_exec` -/

theorem load_segments_append (cfg : Config) (p : Int) (buffer : Nat)
    (post : List ELF_program_t) :
    ∀ (pre : List ELF_program_t) (s : KState),
      load_segments cfg p buffer (pre ++ post) s =
        match load_segments cfg p buffer pre s with
        | .error e => .error e
        | .ok s1 => load_segments cfg p buffer post s1 := by
  intro pre
  induction pre with
  | nil => intro s; rfl
  | cons x pre ih =>
    intro s
    simp only [List.cons_append, load_segments]
    cases hg : process_get s p with
    | error e => rfl
    | ok process =>
      simp only []
      cases hl : load_elfseg cfg s process ((buffer + x.offset) % 2 ^ 32) x.filesz x.vaddr
          x.memsz with
      | error e => rfl
      | ok s1 => exact ih s1

/-- The segment loop writes the active directory, the page tables and the
memory, and nothing else. -/
theorem load_segments_frame (cfg : Config) (p : Int) (buffer : Nat) :
    ∀ (l : List ELF_program_t) (s s2 : KState), load_segments cfg p buffer l s = .ok s2 →
      s2 = { s with active_pdir := s2.active_pdir, mapped := s2.mapped, vmem := s2.vmem } := by
  intro l
  induction l with
  | nil =>
    intro s s2 h
    simp only [load_segments, Except.ok.injEq] at h
    rw [← h]
  | cons x rest ih =>
    intro s s2 h
    rw [load_segments] at h
    cases hg : process_get s p with
    | error e => simp [hg] at h
    | ok process =>
      rw [hg] at h
      dsimp only at h
      cases hl : load_elfseg cfg s process ((buffer + x.offset) % 2 ^ 32) x.filesz x.vaddr
          x.memsz with
      | error e =>
        rw [hl] at h
        cases h
      | ok s1 =>
        rw [hl] at h
        dsimp only at h
        have h1 := load_elfseg_frame cfg s s1 process _ _ _ _ hl
        have h2 := ih s1 s2 h
        rw [h2, h1]

/-- The rest of `process_exec` after some segments: the segments that are
left, then the creation of the thread. -/
theorem process_exec_tail_faults (cfg : Config) (p : Int) (buffer : Nat) (s : KState)
    (post : List ELF_program_t) (entry tblock tstack : Nat) (e : Halt)
    (hg : process_get s p = .error e) :
    (match load_segments cfg p buffer post s with
      | .error e => .error e
      | .ok s2 =>
        match thread_create cfg s2 p entry 0 tblock tstack with
        | .error e => .error e
        | .ok (s3, _) => .ok ({ s3 with freed := s3.freed ++ [buffer] }, p)) =
      (.error e : Except Halt (KState × Int)) := by
  cases post with
  | nil => simp [load_segments, thread_create, hg]
  | cons x rest => simp [load_segments, hg]

/-- A segment below the threshold does not change what `process_exec`
does. -/
theorem process_exec_skips (cfg : Config) (s : KState) (path : List Nat) (elf : ELF_image)
    (pre post : List ELF_program_t) (low : ELF_program_t)
    (pblock : Nat) (junk : process_state_t) (tblock tstack : Nat)
    (hlow : low.vaddr < 0x100000) (hprog : elf.programs = pre ++ low :: post) :
    process_exec cfg s path (some elf) pblock junk tblock tstack =
      process_exec cfg s path (some { elf with programs := pre ++ post })
        pblock junk tblock tstack := by
  unfold process_exec
  simp only [hprog]
  cases hpc : process_create cfg s path 0 pblock junk 0 with
  | error e => rfl
  | ok r1 =>
    obtain ⟨s1, p⟩ := r1
    simp only []
    rw [load_segments_append, load_segments_append]
    cases hpre : load_segments cfg p elf.buffer pre s1 with
    | error e => rfl
    | ok sp =>
      simp only [load_segments]
      cases hg : process_get sp p with
      | error e =>
        simp only []
        exact (process_exec_tail_faults cfg p elf.buffer sp post elf.entry tblock tstack e
          hg).symm
      | ok process =>
        simp only []
        rw [load_elfseg_low cfg sp process _ _ _ _ hlow]

/-- What every returning `process_exec` leaves for a file that opens. -/
theorem process_exec_creates (cfg : Config) (s s2 : KState) (path : List Nat)
    (elf : ELF_image) (pblock : Nat) (junk : process_state_t) (tblock tstack : Nat) (id : Int)
    (h : process_exec cfg s path (some elf) pblock junk tblock tstack = .ok (s2, id)) :
    id = s.PID ∧ s2.threads = s.threads ++ [tblock] ∧
      s2.processes = s.processes ++ [pblock] ∧
      s2.PID = wrap32 (s.PID + 1) ∧ s2.TID = wrap32 (s.TID + 1) ∧
      ∃ th pp P, s2.theap tblock = some th ∧ th.id = s.TID ∧ th.entry = elf.entry ∧
        th.process = some pp ∧ pp ∈ s2.processes ∧ s2.pheap pp = some P ∧ P.id = id := by
  obtain ⟨s1, sl, s3, tid, hpc, hls, htc, rfl⟩ :=
    process_exec_inv cfg s s2 path elf pblock junk tblock tstack id h
  obtain ⟨_, hid, rfl⟩ := process_create_ok_inv cfg s s1 path 0 pblock junk 0 id hpc
  have hf := load_segments_frame cfg id elf.buffer elf.programs _ sl hls
  obtain ⟨pp, process, hget, hP, hmem, _, _, _, rfl⟩ :=
    thread_create_ok_inv cfg sl s3 id elf.entry 0 tblock tstack tid htc
  obtain ⟨_, Q, hQ, hQid⟩ := process_get_loop_some sl.pheap id pp sl.processes hget
  rw [hP] at hQ
  cases hQ
  have hthreads : sl.threads = s.threads := by rw [hf]; rfl
  have hprocs : sl.processes = s.processes ++ [pblock] := by rw [hf]; rfl
  have hpid : sl.PID = wrap32 (s.PID + 1) := by rw [hf]; rfl
  have htid : sl.TID = s.TID := by rw [hf]; rfl
  refine ⟨hid, by simp [thread_create_result, hthreads],
    by simp [thread_create_result, hprocs], by simp [thread_create_result, hpid],
    by simp [thread_create_result, htid],
    created_thread cfg sl elf.entry tstack pp, pp,
    { process with threads := process.threads ++ [tblock] },
    by simp [thread_create_result], by simp [created_thread, htid], rfl, rfl,
    by simpa [thread_create_result] using hmem, by simp [thread_create_result], hQid⟩

/-- C18: low-memory segments are skipped without aborting exec.  For a segment
with `dest < 0x100000`, `load_elfseg` returns with the state as it was: no
page is mapped, no memory is written and the address space is not switched.
An image that holds such a segment is treated by `process_exec` exactly as the
image without it, so the other segments are loaded in index order; and every
`process_exec` that returns for a file that opens has created the first
thread, at the entry of the image and in a process with the returned id, and
returns the new process id, the old `PID`. -/
theorem low_segments_are_skipped (cfg : Config) (s : KState) :
    (∀ (process : Option Nat) (src srcsz dest destsz : Nat), dest < 0x100000 →
      load_elfseg cfg s process src srcsz dest destsz = .ok s) ∧
    (∀ (path : List Nat) (elf : ELF_image) (pre post : List ELF_program_t)
      (low : ELF_program_t) (pblock : Nat) (junk : process_state_t) (tblock tstack : Nat),
      low.vaddr < 0x100000 → elf.programs = pre ++ low :: post →
      process_exec cfg s path (some elf) pblock junk tblock tstack =
        process_exec cfg s path (some { elf with programs := pre ++ post })
          pblock junk tblock tstack) ∧
    (∀ (path : List Nat) (elf : ELF_image) (pblock : Nat) (junk : process_state_t)
      (tblock tstack : Nat) (s2 : KState) (id : Int),
      process_exec cfg s path (some elf) pblock junk tblock tstack = .ok (s2, id) →
      id = s.PID ∧ s2.threads = s.threads ++ [tblock] ∧
      ∃ th pp P, s2.theap tblock = some th ∧ th.entry = elf.entry ∧
        th.process = some pp ∧ s2.pheap pp = some P ∧ P.id = id) := by
  refine ⟨fun process src srcsz dest destsz hlow =>
      load_elfseg_low cfg s process src srcsz dest destsz hlow,
    fun path elf pre post low pblock junk tblock tstack hlow hprog =>
      process_exec_skips cfg s path elf pre post low pblock junk tblock tstack hlow hprog, ?_⟩
  intro path elf pblock junk tblock tstack s2 id h
  obtain ⟨hid, hth, _, _, _, th, pp, P, h1, _, h2, h3, _, h4, h5⟩ :=
    process_exec_creates cfg s s2 path elf pblock junk tblock tstack id h
  exact ⟨hid, hth, th, pp, P, h1, h2, h3, h4, h5⟩

theorem low_segments_are_skipped_witness :
    (0x8000 : Nat) < 0x100000 ∧
    load_elfseg ex_cfg ex_loader_state (some 0x200) 0x300000 2 0x8000 2 =
      .ok ex_loader_state ∧
    process_exec ex_cfg ex_loader_state [115] (some ex_image) 0x300 PROCESS_RUNNING
        0x5000 0x50000 =
      process_exec ex_cfg ex_loader_state [115]
        (some { ex_image with
          programs := [{ offset := 4, filesz := 3, vaddr := 0x400000, memsz := 5 }] ++
            [{ offset := 8, filesz := 2, vaddr := 0x401000, memsz := 2 }] })
        0x300 PROCESS_RUNNING 0x5000 0x50000 ∧
    process_exec ex_cfg ex_loader_state [115] (some ex_image) 0x300 PROCESS_RUNNING
        0x5000 0x50000 = .ok (ex_after_exec, 2) ∧
    ((2 : Int) = ex_loader_state.PID ∧
      ex_after_exec.threads = ex_loader_state.threads ++ [0x5000] ∧
      ∃ th pp P, ex_after_exec.theap 0x5000 = some th ∧ th.entry = ex_image.entry ∧
        th.process = some pp ∧ ex_after_exec.pheap pp = some P ∧ P.id = 2) :=
  ⟨by decide,
    (low_segments_are_skipped ex_cfg ex_loader_state).1 (some 0x200) 0x300000 2 0x8000 2
      (by decide),
    (low_segments_are_skipped ex_cfg ex_loader_state).2.1 [115] ex_image
      [{ offset := 4, filesz := 3, vaddr := 0x400000, memsz := 5 }]
      [{ offset := 8, filesz := 2, vaddr := 0x401000, memsz := 2 }]
      { offset := 0, filesz := 2, vaddr := 0x8000, memsz := 2 }
      0x300 PROCESS_RUNNING 0x5000 0x50000 (by decide) rfl,
    rfl,
    (low_segments_are_skipped ex_cfg ex_loader_state).2.2 [115] ex_image 0x300
      PROCESS_RUNNING 0x5000 0x50000 ex_after_exec 2 rfl⟩

theorem starting_context_witness :
    process_get ex_loader_state 1 = .ok (some 0x200) ∧
    ex_loader_state.pheap 0x200 = some ex_process1 ∧
    (0x5000 : Nat) ≠ 0 ∧ (0x50000 : Nat) ≠ 0 ∧ 0x50000 + ex_cfg.STACK_SIZE < 2 ^ 32 ∧
    (∃ s2 th ctx,
      thread_create ex_cfg ex_loader_state 1 0x400300 1 0x5000 0x50000 = .ok (s2, th.id) ∧
      s2.theap 0x5000 = some th ∧ th.stack = 0x50000 ∧ th.entry = 0x400300 ∧
      s2.contexts th.esp = some ctx ∧
      ctx.eip = 0x400300 ∧ ctx.eflags = 0x202 ∧ ctx.eflags &&& 0x200 = 0x200 ∧
      ctx.ebp = 0x50000 + ex_cfg.STACK_SIZE ∧
      ((ex_process1.flags ||| 1) &&& ex_cfg.TASK_USER ≠ 0 →
        ctx.cs = 0x18 ∧ ctx.ds = 0x20 ∧ ctx.es = 0x20 ∧ ctx.fs = 0x20 ∧ ctx.gs = 0x20) ∧
      ((ex_process1.flags ||| 1) &&& ex_cfg.TASK_USER = 0 →
        ctx.cs = 0x08 ∧ ctx.ds = 0x10 ∧ ctx.es = 0x10 ∧ ctx.fs = 0x10 ∧ ctx.gs = 0x10)) ∧
    process_exec ex_cfg ex_loader_state [115] (some ex_image) 0x300 PROCESS_RUNNING
      0x5000 0x50000 = .ok (ex_after_exec, 2) ∧
    (∃ th ctx, ex_after_exec.theap 0x5000 = some th ∧ th.entry = ex_image.entry ∧
      ex_after_exec.contexts th.esp = some ctx ∧ ctx.eip = ex_image.entry) :=
  ⟨rfl, rfl, by decide, by decide, by decide,
    (starting_context ex_cfg ex_loader_state).1 1 0x400300 1 0x5000 0x50000 0x200 ex_process1
      rfl rfl (by decide) (by decide) (by decide),
    rfl,
    (starting_context ex_cfg ex_loader_state).2 [115] ex_image 0x300 PROCESS_RUNNING 0x5000
      0x50000 ex_after_exec 2 rfl⟩

/-! ## The address space of an exec -/

/-- The id that `process_create` is about to hand out is carried by no process
of the list. -/
theorem process_get_created (cfg : Config) (s : KState) (name : List Nat) (flags block : Nat)
    (junk : process_state_t) (new_pdir q : Nat)
    (hnew : ∀ j ∈ s.processes, ∀ P, s.pheap j = some P → P.id ≠ s.PID)
    (hget : process_get (process_create_result cfg s name flags block junk new_pdir) s.PID =
      .ok (some q)) : q = block := by
  obtain ⟨hm, P, hP, hid⟩ := process_get_loop_some _ s.PID q _ hget
  by_contra hne
  have hm2 : q ∈ s.processes := by
    simp only [process_create_result, List.mem_append, List.mem_singleton] at hm
    rcases hm with h1 | h1
    · exact h1
    · exact absurd h1 hne
  have hP2 : s.pheap q = some P := by
    simpa [process_create_result, Function.update_noteq hne] using hP
  exact hnew q hm2 P hP2 hid

/-- When the lookup of `p` resolves to a process of directory `D`, the segment
loop touches the page tables and the memory of no other directory. -/
theorem load_segments_directory (cfg : Config) (p : Int) (buffer D : Nat) :
    ∀ (l : List ELF_program_t) (s s2 : KState),
      (∀ q, process_get s p = .ok (some q) → ∃ P, s.pheap q = some P ∧ P.pdir = D) →
      load_segments cfg p buffer l s = .ok s2 →
      ∀ d, d ≠ D → (∀ pg, s2.mapped d pg = s.mapped d pg) ∧ (∀ a, s2.vmem d a = s.vmem d a) := by
  intro l
  induction l with
  | nil =>
    intro s s2 _ h d _
    simp only [load_segments, Except.ok.injEq] at h
    rw [← h]
    exact ⟨fun _ => rfl, fun _ => rfl⟩
  | cons x rest ih =>
    intro s s2 hD h d hd
    rw [load_segments] at h
    cases hg : process_get s p with
    | error e => simp [hg] at h
    | ok process =>
      rw [hg] at h
      dsimp only at h
      cases hl : load_elfseg cfg s process ((buffer + x.offset) % 2 ^ 32) x.filesz x.vaddr
          x.memsz with
      | error e =>
        rw [hl] at h
        cases h
      | ok s1 =>
        rw [hl] at h
        dsimp only at h
        have hf := load_elfseg_frame cfg s s1 process _ _ _ _ hl
        have hget1 : process_get s1 p = process_get s p := by
          rw [hf]
          rfl
        have hpheap : s1.pheap = s.pheap := by
          rw [hf]
        have hD1 : ∀ q, process_get s1 p = .ok (some q) →
            ∃ P, s1.pheap q = some P ∧ P.pdir = D := by
          intro q hq
          rw [hget1] at hq
          rw [hpheap]
          exact hD q hq
        obtain ⟨hm2, hv2⟩ := ih s1 s2 hD1 h d hd
        have hstep : (∀ pg, s1.mapped d pg = s.mapped d pg) ∧
            (∀ a, s1.vmem d a = s.vmem d a) := by
          by_cases hhigh : x.vaddr ≥ 0x100000
          · obtain ⟨r, rt, rpp, rprocess, pp, target, q, Q, hproc, _, _, _, _, htarget, hgq, hQ,
              rfl⟩ := load_elfseg_inv cfg s s1 process _ _ _ _ hhigh hl
            subst hproc
            obtain ⟨_, T, hT, hTid⟩ := process_get_loop_some s.pheap p pp s.processes hg
            rw [htarget] at hT
            cases hT
            rw [hTid, hg] at hgq
            simp only [Except.ok.injEq, Option.some.injEq] at hgq
            subst hgq
            rw [htarget] at hQ
            cases hQ
            obtain ⟨P, hP, hPD⟩ := hD pp hg
            rw [htarget] at hP
            cases hP
            have hd2 : d ≠ target.pdir := by rw [hPD]; exact hd
            constructor
            · intro pg
              simp [load_elfseg_result, memory_map, hd2]
            · intro a
              simp [load_elfseg_result, memcpy_vmem, memset_vmem, hd2]
          · rw [load_elfseg_low cfg s process _ _ _ _ (Nat.not_le.mp hhigh)] at hl
            simp only [Except.ok.injEq] at hl
            rw [← hl]
            exact ⟨fun _ => rfl, fun _ => rfl⟩
        exact ⟨fun pg => (hm2 pg).trans (hstep.1 pg), fun a => (hv2 a).trans (hstep.2 a)⟩

/-- C16, as stated, fails: the process that `process_exec` creates in the
concrete system has the kernel directory as its address space, and the
segment for `0x400000` is mapped and copied in the kernel directory. -/
theorem process_exec_kernel_directory_counterexample :
    process_exec ex_cfg ex_loader_state [115] (some ex_image) 0x300 PROCESS_RUNNING
      0x5000 0x50000 = .ok (ex_after_exec, 2) ∧
    (∃ P, ex_after_exec.pheap 0x300 = some P ∧ P.id = 2 ∧ P.pdir = ex_cfg.memory_kpdir) ∧
    ex_loader_state.mapped ex_cfg.memory_kpdir 0x400 = false ∧
    ex_after_exec.mapped ex_cfg.memory_kpdir 0x400 = true ∧
    ex_after_exec.vmem ex_cfg.memory_kpdir 0x400000 = 5 :=
  ⟨rfl, ⟨_, rfl, rfl, rfl⟩, rfl, rfl, rfl⟩

/-- C16 (amended): `process_exec` creates the process with flags 0, so for
every `process_exec` that returns for a file that opens, in a state where no
process of the list carries the next id yet, the process it creates has the
singleton kernel address space `memory_kpdir()`, and the segments are mapped
and copied in the kernel address space: the page tables and the memory of
every other directory are as before. -/
theorem process_exec_uses_kernel_directory (cfg : Config) (s s2 : KState) (path : List Nat)
    (elf : ELF_image) (pblock : Nat) (junk : process_state_t) (tblock tstack : Nat) (id : Int)
    (hnew : ∀ j ∈ s.processes, ∀ P, s.pheap j = some P → P.id ≠ s.PID)
    (h : process_exec cfg s path (some elf) pblock junk tblock tstack = .ok (s2, id)) :
    (∃ P, s2.pheap pblock = some P ∧ P.id = id ∧ P.flags = 0 ∧
      P.pdir = cfg.memory_kpdir) ∧
    (∀ d, d ≠ cfg.memory_kpdir →
      (∀ pg, s2.mapped d pg = s.mapped d pg) ∧ (∀ a, s2.vmem d a = s.vmem d a)) := by
  obtain ⟨s1, sl, s3, tid, hpc, hls, htc, rfl⟩ :=
    process_exec_inv cfg s s2 path elf pblock junk tblock tstack id h
  obtain ⟨_, hid, rfl⟩ := process_create_ok_inv cfg s s1 path 0 pblock junk 0 id hpc
  subst hid
  have hf := load_segments_frame cfg s.PID elf.buffer elf.programs _ sl hls
  have hD : ∀ q, process_get (process_create_result cfg s path 0 pblock junk 0) s.PID =
      .ok (some q) → ∃ P, (process_create_result cfg s path 0 pblock junk 0).pheap q = some P ∧
        P.pdir = cfg.memory_kpdir := by
    intro q hq
    have hqb := process_get_created cfg s path 0 pblock junk 0 q hnew hq
    subst hqb
    exact ⟨created_process cfg s path 0 junk 0, by simp [process_create_result],
      by simp [created_process]⟩
  have hdir := load_segments_directory cfg s.PID elf.buffer cfg.memory_kpdir elf.programs _ sl
    hD hls
  obtain ⟨pp, process, hget, hP, _, _, _, _, rfl⟩ :=
    thread_create_ok_inv cfg sl s3 s.PID elf.entry 0 tblock tstack tid htc
  have hget1 : process_get (process_create_result cfg s path 0 pblock junk 0) s.PID =
      .ok (some pp) := by
    rw [← hget, hf]
    rfl
  have hpp := process_get_created cfg s path 0 pblock junk 0 pp hnew hget1
  subst hpp
  have hP1 : process = created_process cfg s path 0 junk 0 := by
    rw [hf] at hP
    simpa [process_create_result] using hP.symm
  subst hP1
  constructor
  · exact ⟨{ created_process cfg s path 0 junk 0 with
        threads := (created_process cfg s path 0 junk 0).threads ++ [tblock] },
      by simp [thread_create_result], rfl, rfl, by simp [created_process]⟩
  · intro d hd
    obtain ⟨hm, hv⟩ := hdir d hd
    constructor
    · intro pg
      simpa [thread_create_result, process_create_result] using hm pg
    · intro a
      simpa [thread_create_result, process_create_result] using hv a

theorem process_exec_uses_kernel_directory_witness :
    (∀ j ∈ ex_loader_state.processes, ∀ P, ex_loader_state.pheap j = some P →
      P.id ≠ ex_loader_state.PID) ∧
    process_exec ex_cfg ex_loader_state [115] (some ex_image) 0x300 PROCESS_RUNNING
      0x5000 0x50000 = .ok (ex_after_exec, 2) ∧
    (∃ P, ex_after_exec.pheap 0x300 = some P ∧ P.id = 2 ∧ P.flags = 0 ∧
      P.pdir = ex_cfg.memory_kpdir) ∧
    (∀ d, d ≠ ex_cfg.memory_kpdir →
      (∀ pg, ex_after_exec.mapped d pg = ex_loader_state.mapped d pg) ∧
      (∀ a, ex_after_exec.vmem d a = ex_loader_state.vmem d a)) :=
  have hnew : ∀ j ∈ ex_loader_state.processes, ∀ P, ex_loader_state.pheap j = some P →
      P.id ≠ ex_loader_state.PID := by
    intro j hj P hP
    have hj2 : j = 0x100 ∨ j = 0x200 := by
      simpa [ex_loader_state, ex_state] using hj
    rcases hj2 with rfl | rfl
    · have h0 : P = ex_process0 := by
        have : some ex_process0 = some P := hP
        exact (Option.some.inj this).symm
      subst h0
      decide
    · have h1 : P = ex_process1 := by
        have : some ex_process1 = some P := hP
        exact (Option.some.inj this).symm
      subst h1
      decide
  ⟨hnew, rfl,
    process_exec_uses_kernel_directory ex_cfg ex_loader_state ex_after_exec [115] ex_image
      0x300 PROCESS_RUNNING 0x5000 0x50000 2 hnew rfl⟩

/-! ## The state after `tasking_setup` -/

/-- What a returning `tasking_setup` leaves: one process and one thread, the
counters advanced by one, the kernel ids set to the old counters, the paging
state untouched. -/
theorem tasking_setup_inv (cfg : Config) (s0 s : KState) (pblock : Nat)
    (junk : process_state_t) (tblock tstack : Nat)
    (h : tasking_setup cfg s0 pblock junk tblock tstack = .ok s) :
    ∃ K P, s.threads = [tblock] ∧ s.processes = [pblock] ∧ s.running = some tblock ∧
      s.waiting = [] ∧
      s.theap = Function.update s0.theap tblock (some K) ∧ K.id = s0.TID ∧
      K.process = some pblock ∧ K.stack = cfg.stack_bottom ∧
      K.esp = (cfg.stack_bottom + cfg.STACK_SIZE) % 2 ^ 32 ∧
      s.pheap = Function.update s0.pheap pblock (some P) ∧ P.id = s0.PID ∧
      P.pdir = cfg.memory_kpdir ∧ P.threads = [tblock] ∧
      s.PID = wrap32 (s0.PID + 1) ∧ s.TID = wrap32 (s0.TID + 1) ∧
      s.kernel_process = s0.PID ∧ s.kernel_thread = s0.TID ∧
      s.active_pdir = s0.active_pdir ∧ s.mapped = s0.mapped ∧ s.vmem = s0.vmem := by
  unfold tasking_setup at h
  dsimp only at h
  cases hpc : process_create cfg
      { s0 with running := none, waiting := [], threads := [], processes := [] }
      kernel_name 0 pblock junk 0 with
  | error e => simp [hpc] at h
  | ok r1 =>
    obtain ⟨s1, kp⟩ := r1
    simp only [hpc] at h
    cases htc : thread_create cfg { s1 with kernel_process := kp } kp 0 0 tblock tstack with
    | error e => simp [htc] at h
    | ok r2 =>
      obtain ⟨s2, kt⟩ := r2
      simp only [htc] at h
      cases hg : thread_get { s2 with kernel_thread := kt } kt with
      | error e => simp [hg] at h
      | ok found =>
        cases found with
        | none => simp [hg] at h
        | some k =>
          simp only [hg] at h
          cases hk : s2.theap k with
          | none => simp [hk] at h
          | some kthread =>
            simp only [hk, timer_set_frequency] at h
            simp only [Int.reduceEq, if_false, Except.ok.injEq] at h
            obtain ⟨_, hkp, hs1⟩ := process_create_ok_inv cfg _ s1 _ _ _ _ _ kp hpc
            obtain ⟨pp, process, _, hP, hmem, _, _, hkt, hs2⟩ :=
              thread_create_ok_inv cfg _ s2 kp 0 0 tblock tstack kt htc
            obtain ⟨hkm, _⟩ := thread_get_loop_some _ kt k _ hg
            subst hs1
            have hpp : pp = pblock := by
              simpa [process_create_result] using hmem
            subst hpp
            have hproc : process = created_process cfg
                { s0 with running := none, waiting := [], threads := [], processes := [] }
                kernel_name 0 junk 0 := by
              simpa [process_create_result] using hP.symm
            subst hproc
            subst hs2
            have hk2 : k = tblock := by
              simpa [thread_create_result, process_create_result] using hkm
            subst hk2
            have hkth : kthread = created_thread cfg
                { process_create_result cfg
                    { s0 with running := none, waiting := [], threads := [], processes := [] }
                    kernel_name 0 pp junk 0 with kernel_process := kp } 0 tstack pp := by
              simpa [thread_create_result] using hk.symm
            subst hkth
            subst h
            refine ⟨_, _, by simp [thread_create_result, process_create_result],
              by simp [thread_create_result, process_create_result],
              by simp [thread_create_result, process_create_result],
              by simp [thread_create_result, process_create_result],
              by simp [thread_create_result, process_create_result, Function.update_idem];
                 rfl,
              ?_, ?_, ?_, ?_,
              by simp [thread_create_result, process_create_result, Function.update_idem];
                 rfl,
              ?_, ?_, ?_,
              by simp [thread_create_result, process_create_result],
              by simp [thread_create_result, process_create_result],
              hkp, hkt, rfl, rfl, rfl⟩
            · simp [created_thread, process_create_result]
            · simp [created_thread]
            · rfl
            · rfl
            · simp [created_process]
            · simp [created_process]
            · simp [created_process]

/-! ## The active page directory -/

theorem active_is_running_pdir_setup (cfg : Config) (s0 s : KState) (pblock : Nat)
    (junk : process_state_t) (tblock tstack : Nat)
    (hact : s0.active_pdir = cfg.memory_kpdir)
    (h : tasking_setup cfg s0 pblock junk tblock tstack = .ok s) :
    active_is_running_pdir s := by
  obtain ⟨K, P, _, _, hrun, _, hth, _, hKp, _, _, hph, _, hPd, _, _, _, _, _, ha, _, _⟩ :=
    tasking_setup_inv cfg s0 s pblock junk tblock tstack h
  exact ⟨tblock, K, pblock, P, hrun, by rw [hth]; simp, hKp, by rw [hph]; simp,
    by rw [ha, hact, hPd]⟩

theorem active_is_running_pdir_thread_create (cfg : Config) (s s2 : KState) (p : Int)
    (entry flags block stack : Nat) (id : Int) (hfresh : s.theap block = none)
    (h : thread_create cfg s p entry flags block stack = .ok (s2, id))
    (hinv : active_is_running_pdir s) : active_is_running_pdir s2 := by
  obtain ⟨pp, process, _, hP, _, _, _, _, rfl⟩ :=
    thread_create_ok_inv cfg s s2 p entry flags block stack id h
  obtain ⟨r, rt, rpp, rprocess, hrun, hrt, hrpp, hrp, hact⟩ := hinv
  have hrb : r ≠ block := by
    intro hc
    rw [hc, hfresh] at hrt
    cases hrt
  by_cases hpp : rpp = pp
  · subst hpp
    rw [hP] at hrp
    cases hrp
    exact ⟨r, rt, rpp, { process with threads := process.threads ++ [block] },
      by simp [thread_create_result, hrun],
      by simp [thread_create_result, Function.update_noteq hrb, hrt], hrpp,
      by simp [thread_create_result], by simp [thread_create_result, hact]⟩
  · exact ⟨r, rt, rpp, rprocess, by simp [thread_create_result, hrun],
      by simp [thread_create_result, Function.update_noteq hrb, hrt], hrpp,
      by simp [thread_create_result, Function.update_noteq hpp, hrp],
      by simp [thread_create_result, hact]⟩

theorem active_is_running_pdir_process_create (cfg : Config) (s s2 : KState)
    (name : List Nat) (flags block : Nat) (junk : process_state_t) (new_pdir : Nat) (id : Int)
    (hfresh : s.pheap block = none)
    (h : process_create cfg s name flags block junk new_pdir = .ok (s2, id))
    (hinv : active_is_running_pdir s) : active_is_running_pdir s2 := by
  obtain ⟨_, _, rfl⟩ := process_create_ok_inv cfg s s2 name flags block junk new_pdir id h
  obtain ⟨r, rt, rpp, rprocess, hrun, hrt, hrpp, hrp, hact⟩ := hinv
  have hpb : rpp ≠ block := by
    intro hc
    rw [hc, hfresh] at hrp
    cases hrp
  exact ⟨r, rt, rpp, rprocess, by simp [process_create_result, hrun],
    by simp [process_create_result, hrt], hrpp,
    by simp [process_create_result, Function.update_noteq hpb, hrp],
    by simp [process_create_result, hact]⟩

theorem active_is_running_pdir_shedule (cfg : Config) (s s2 : KState) (esp e : Nat)
    (h : shedule cfg s esp = .ok (s2, e)) : active_is_running_pdir s2 := by
  obtain ⟨r, t, n, rest, nt, pp, p, _, _, _, _, hnt, hpp, hp, _, rfl⟩ :=
    shedule_inv cfg s s2 esp e h
  exact ⟨n, nt, pp, p, rfl, hnt, hpp, hp, rfl⟩

theorem switch_reachable_active (cfg : Config) (s : KState) (h : SwitchReachable cfg s) :
    active_is_running_pdir s := by
  induction h with
  | setup s0 s pblock junk tblock tstack hact _ _ h =>
    exact active_is_running_pdir_setup cfg s0 s pblock junk tblock tstack hact h
  | thread_create s s2 p entry flags block stack id _ hfresh h ih =>
    exact active_is_running_pdir_thread_create cfg s s2 p entry flags block stack id hfresh h ih
  | process_create s s2 name flags block junk new_pdir id _ hfresh h ih =>
    exact active_is_running_pdir_process_create cfg s s2 name flags block junk new_pdir id
      hfresh h ih
  | shedule s s2 esp e _ h _ => exact active_is_running_pdir_shedule cfg s s2 esp e h

/-- C19: the address space is restored after a segment copy.  In every state
reachable from `tasking_setup`, entered with the kernel directory active, by
`thread_create`, `process_create` and `shedule` steps, the active page
directory is the directory of the process of the running thread, and the
active page directory after `load_elfseg` returns is the one that was active
before the call. -/
theorem load_elfseg_restores_directory (cfg : Config) (s : KState)
    (h : SwitchReachable cfg s) (process : Option Nat) (src srcsz dest destsz : Nat)
    (s2 : KState) (hl : load_elfseg cfg s process src srcsz dest destsz = .ok s2) :
    active_is_running_pdir s ∧ s2.active_pdir = s.active_pdir := by
  have hinv := switch_reachable_active cfg s h
  refine ⟨hinv, ?_⟩
  by_cases hhigh : dest ≥ 0x100000
  · obtain ⟨r, rt, rpp, rprocess, hrun, hrt, hrpp, hrp, hact⟩ := hinv
    obtain ⟨r2, rt2, rpp2, rprocess2, _, _, _, _, _, hrun2, hrt2, hrpp2, hrp2, _, _, _, rfl⟩ :=
      load_elfseg_inv cfg s s2 process src srcsz dest destsz hhigh hl
    rw [hrun] at hrun2
    cases hrun2
    rw [hrt] at hrt2
    cases hrt2
    rw [hrpp] at hrpp2
    cases hrpp2
    rw [hrp] at hrp2
    cases hrp2
    rw [hact]
    rfl
  · rw [load_elfseg_low cfg s process src srcsz dest destsz (Nat.not_le.mp hhigh)] at hl
    simp only [Except.ok.injEq] at hl
    rw [← hl]

theorem ex_paged_switched_reachable : SwitchReachable ex_cfg ex_paged_switched :=
  SwitchReachable.shedule ex_paged_create ex_paged_switched 0x203f00 0x23fbc
    (SwitchReachable.thread_create ex_paged_setup ex_paged_create 0 0x400000 0 0x2000 0x20000 1
      (SwitchReachable.setup ex_paged_boot ex_paged_setup 0x100 PROCESS_RUNNING 0x1000 0x10000
        rfl rfl rfl rfl)
      rfl rfl)
    rfl

theorem load_elfseg_restores_directory_witness :
    SwitchReachable ex_cfg ex_paged_switched ∧
    ex_paged_switched.running = some 0x2000 ∧
    load_elfseg ex_cfg ex_paged_switched (some 0x100) 0x300004 3 0x400000 5 =
      .ok ex_paged_loaded ∧
    ex_paged_loaded.vmem 0x9000 0x400001 = 6 ∧
    active_is_running_pdir ex_paged_switched ∧
    ex_paged_loaded.active_pdir = ex_paged_switched.active_pdir :=
  ⟨ex_paged_switched_reachable, rfl, rfl, rfl,
    load_elfseg_restores_directory ex_cfg ex_paged_switched ex_paged_switched_reachable
      (some 0x100) 0x300004 3 0x400000 5 ex_paged_loaded rfl⟩

/-! ## Identifier uniqueness -/

theorem wrap32_succ (x : Int) (h0 : 0 ≤ x) (h1 : x < 2 ^ 31 - 1) : wrap32 (x + 1) = x + 1 := by
  unfold wrap32
  have h2 : (x + 1 + 2 ^ 31) % 2 ^ 32 = x + 1 + 2 ^ 31 := by
    apply Int.emod_eq_of_lt
    · omega
    · omega
  rw [h2]
  omega

/-- Appending a fresh block that carries the old `TID` keeps the thread ids in
order. -/
theorem thread_ids_ok_append (s s2 : KState) (block : Nat) (th : thread_t)
    (hfresh : s.theap block = none) (hthreads : s2.threads = s.threads ++ [block])
    (hheap : s2.theap = Function.update s.theap block (some th)) (hid : th.id = s.TID)
    (hlt : s.TID < s2.TID) (h : thread_ids_ok s) : thread_ids_ok s2 := by
  obtain ⟨hlive, hpair⟩ := h
  have hold : ∀ j ∈ s.threads, j ≠ block ∧ s2.theap j = s.theap j := by
    intro j hj
    obtain ⟨t, ht, _⟩ := hlive j hj
    have hne : j ≠ block := by
      intro hc
      rw [hc, hfresh] at ht
      cases ht
    exact ⟨hne, by rw [hheap, Function.update_noteq hne]⟩
  have hnew : s2.theap block = some th := by rw [hheap]; simp
  constructor
  · intro j hj
    rw [hthreads] at hj
    rcases List.mem_append.mp hj with h1 | h1
    · obtain ⟨t, ht, hlt2⟩ := hlive j h1
      exact ⟨t, by rw [(hold j h1).2, ht], lt_trans hlt2 hlt⟩
    · simp only [List.mem_singleton] at h1
      subst h1
      exact ⟨th, hnew, by rw [hid]; exact hlt⟩
  · rw [hthreads, List.pairwise_append]
    refine ⟨?_, List.pairwise_singleton _ _, ?_⟩
    · refine List.Pairwise.imp_of_mem ?_ hpair
      intro a b ha hb hab ta tb hta htb
      rw [(hold a ha).2] at hta
      rw [(hold b hb).2] at htb
      exact hab ta tb hta htb
    · intro a ha b hb ta tb hta htb
      simp only [List.mem_singleton] at hb
      subst hb
      rw [(hold a ha).2] at hta
      rw [hnew] at htb
      cases htb
      obtain ⟨t, ht, hlt2⟩ := hlive a ha
      rw [ht] at hta
      cases hta
      rw [hid]
      exact ne_of_lt hlt2

/-- A step that keeps the thread list and the id of every thread block keeps
the thread ids in order. -/
theorem thread_ids_ok_same (s s2 : KState) (hthreads : s2.threads = s.threads)
    (hmap : ∀ j, (s2.theap j).map thread_t.id = (s.theap j).map thread_t.id)
    (hle : s.TID ≤ s2.TID) (h : thread_ids_ok s) : thread_ids_ok s2 := by
  obtain ⟨hlive, hpair⟩ := h
  have hback : ∀ j t2, s2.theap j = some t2 → ∃ t, s.theap j = some t ∧ t.id = t2.id := by
    intro j t2 ht2
    have hm := hmap j
    rw [ht2] at hm
    cases ht : s.theap j with
    | none => simp [ht] at hm
    | some t => exact ⟨t, rfl, by simpa [ht] using hm.symm⟩
  have hforth : ∀ j t, s.theap j = some t → ∃ t2, s2.theap j = some t2 ∧ t2.id = t.id := by
    intro j t ht
    have hm := hmap j
    rw [ht] at hm
    cases ht2 : s2.theap j with
    | none => simp [ht2] at hm
    | some t2 => exact ⟨t2, rfl, by simpa [ht2] using hm⟩
  constructor
  · intro j hj
    rw [hthreads] at hj
    obtain ⟨t, ht, hlt⟩ := hlive j hj
    obtain ⟨t2, ht2, hid⟩ := hforth j t ht
    exact ⟨t2, ht2, by rw [hid]; exact lt_of_lt_of_le hlt hle⟩
  · rw [hthreads]
    refine List.Pairwise.imp ?_ hpair
    intro a b hab ta tb hta htb
    obtain ⟨ua, hua, hida⟩ := hback a ta hta
    obtain ⟨ub, hub, hidb⟩ := hback b tb htb
    rw [← hida, ← hidb]
    exact hab ua ub hua hub

/-- Appending a fresh block that carries the old `PID` keeps the process ids
in order. -/
theorem process_ids_ok_append (s s2 : KState) (block : Nat) (P : process_t)
    (hfresh : s.pheap block = none) (hprocs : s2.processes = s.processes ++ [block])
    (hheap : s2.pheap = Function.update s.pheap block (some P)) (hid : P.id = s.PID)
    (hlt : s.PID < s2.PID) (h : process_ids_ok s) : process_ids_ok s2 := by
  obtain ⟨hlive, hpair⟩ := h
  have hold : ∀ j ∈ s.processes, j ≠ block ∧ s2.pheap j = s.pheap j := by
    intro j hj
    obtain ⟨t, ht, _⟩ := hlive j hj
    have hne : j ≠ block := by
      intro hc
      rw [hc, hfresh] at ht
      cases ht
    exact ⟨hne, by rw [hheap, Function.update_noteq hne]⟩
  have hnew : s2.pheap block = some P := by rw [hheap]; simp
  constructor
  · intro j hj
    rw [hprocs] at hj
    rcases List.mem_append.mp hj with h1 | h1
    · obtain ⟨t, ht, hlt2⟩ := hlive j h1
      exact ⟨t, by rw [(hold j h1).2, ht], lt_trans hlt2 hlt⟩
    · simp only [List.mem_singleton] at h1
      subst h1
      exact ⟨P, hnew, by rw [hid]; exact hlt⟩
  · rw [hprocs, List.pairwise_append]
    refine ⟨?_, List.pairwise_singleton _ _, ?_⟩
    · refine List.Pairwise.imp_of_mem ?_ hpair
      intro a b ha hb hab ta tb hta htb
      rw [(hold a ha).2] at hta
      rw [(hold b hb).2] at htb
      exact hab ta tb hta htb
    · intro a ha b hb ta tb hta htb
      simp only [List.mem_singleton] at hb
      subst hb
      rw [(hold a ha).2] at hta
      rw [hnew] at htb
      cases htb
      obtain ⟨t, ht, hlt2⟩ := hlive a ha
      rw [ht] at hta
      cases hta
      rw [hid]
      exact ne_of_lt hlt2

/-- A step that keeps the process list and the id of every process block keeps
the process ids in order. -/
theorem process_ids_ok_same (s s2 : KState) (hprocs : s2.processes = s.processes)
    (hmap : ∀ j, (s2.pheap j).map process_t.id = (s.pheap j).map process_t.id)
    (hle : s.PID ≤ s2.PID) (h : process_ids_ok s) : process_ids_ok s2 := by
  obtain ⟨hlive, hpair⟩ := h
  have hback : ∀ j t2, s2.pheap j = some t2 → ∃ t, s.pheap j = some t ∧ t.id = t2.id := by
    intro j t2 ht2
    have hm := hmap j
    rw [ht2] at hm
    cases ht : s.pheap j with
    | none => simp [ht] at hm
    | some t => exact ⟨t, rfl, by simpa [ht] using hm.symm⟩
  have hforth : ∀ j t, s.pheap j = some t → ∃ t2, s2.pheap j = some t2 ∧ t2.id = t.id := by
    intro j t ht
    have hm := hmap j
    rw [ht] at hm
    cases ht2 : s2.pheap j with
    | none => simp [ht2] at hm
    | some t2 => exact ⟨t2, rfl, by simpa [ht2] using hm⟩
  constructor
  · intro j hj
    rw [hprocs] at hj
    obtain ⟨t, ht, hlt⟩ := hlive j hj
    obtain ⟨t2, ht2, hid⟩ := hforth j t ht
    exact ⟨t2, ht2, by rw [hid]; exact lt_of_lt_of_le hlt hle⟩
  · rw [hprocs]
    refine List.Pairwise.imp ?_ hpair
    intro a b hab ta tb hta htb
    obtain ⟨ua, hua, hida⟩ := hback a ta hta
    obtain ⟨ub, hub, hidb⟩ := hback b tb htb
    rw [← hida, ← hidb]
    exact hab ua ub hua hub

/-- A new largest id at the end of the log keeps the log increasing. -/
theorem increasing_append (l : List Int) (x y : Int) (hp : l.Pairwise (fun a b => a < b))
    (hb : ∀ i ∈ l, i < x) (hxy : x < y) :
    (l ++ [x]).Pairwise (fun a b => a < b) ∧ ∀ i ∈ l ++ [x], i < y := by
  constructor
  · rw [List.pairwise_append]
    refine ⟨hp, List.pairwise_singleton _ _, ?_⟩
    intro a ha b hb2
    simp only [List.mem_singleton] at hb2
    subst hb2
    exact hb a ha
  · intro i hi
    rcases List.mem_append.mp hi with h1 | h1
    · exact lt_trans (hb i h1) hxy
    · simp only [List.mem_singleton] at h1
      subst h1
      exact hxy

theorem creation_inv_thread_create (cfg : Config) (s s2 : KState) (tids pids : List Int)
    (p : Int) (entry flags block stack : Nat) (id : Int)
    (hfresh : s.theap block = none) (hbound : s.TID < 2 ^ 31 - 1)
    (h : thread_create cfg s p entry flags block stack = .ok (s2, id))
    (hr : returned_ids_ok s tids pids) (ht : thread_ids_ok s) (hp : process_ids_ok s) :
    returned_ids_ok s2 (tids ++ [id]) pids ∧ thread_ids_ok s2 ∧ process_ids_ok s2 := by
  obtain ⟨pp, process, _, hP, _, _, _, hid, rfl⟩ :=
    thread_create_ok_inv cfg s s2 p entry flags block stack id h
  subst hid
  obtain ⟨h0t, h0p, htp, htb, hpp, hpb⟩ := hr
  have htid : (thread_create_result cfg s pp process entry flags block stack).TID = s.TID + 1 := by
    simp [thread_create_result, wrap32_succ s.TID h0t hbound]
  have hlt : s.TID < s.TID + 1 := by omega
  obtain ⟨hinc, hbelow⟩ := increasing_append tids s.TID (s.TID + 1) htp htb hlt
  refine ⟨⟨by rw [htid]; omega, h0p, hinc, by rw [htid]; exact hbelow, hpp, hpb⟩, ?_, ?_⟩
  · exact thread_ids_ok_append s _ block (created_thread cfg s entry stack pp) hfresh
      (by simp [thread_create_result]) (by simp [thread_create_result]) rfl
      (by rw [htid]; exact hlt) ht
  · refine process_ids_ok_same s _ (by simp [thread_create_result]) ?_ (le_refl _) hp
    intro j
    by_cases hj : j = pp
    · subst hj
      simp [thread_create_result, hP]
    · simp [thread_create_result, Function.update_noteq hj]

theorem creation_inv_process_create (cfg : Config) (s s2 : KState) (tids pids : List Int)
    (name : List Nat) (flags block : Nat) (junk : process_state_t) (new_pdir : Nat) (id : Int)
    (hfresh : s.pheap block = none) (hbound : s.PID < 2 ^ 31 - 1)
    (h : process_create cfg s name flags block junk new_pdir = .ok (s2, id))
    (hr : returned_ids_ok s tids pids) (ht : thread_ids_ok s) (hp : process_ids_ok s) :
    returned_ids_ok s2 tids (pids ++ [id]) ∧ thread_ids_ok s2 ∧ process_ids_ok s2 := by
  obtain ⟨_, hid, rfl⟩ := process_create_ok_inv cfg s s2 name flags block junk new_pdir id h
  subst hid
  obtain ⟨h0t, h0p, htp, htb, hpp, hpb⟩ := hr
  have hpid : (process_create_result cfg s name flags block junk new_pdir).PID = s.PID + 1 := by
    simp [process_create_result, wrap32_succ s.PID h0p hbound]
  have hlt : s.PID < s.PID + 1 := by omega
  obtain ⟨hinc, hbelow⟩ := increasing_append pids s.PID (s.PID + 1) hpp hpb hlt
  refine ⟨⟨h0t, by rw [hpid]; omega, htp, htb, hinc, by rw [hpid]; exact hbelow⟩, ?_, ?_⟩
  · exact thread_ids_ok_same s _ rfl (fun _ => rfl) (le_refl _) ht
  · exact process_ids_ok_append s _ block (created_process cfg s name flags junk new_pdir)
      hfresh (by simp [process_create_result]) (by simp [process_create_result]) rfl
      (by rw [hpid]; exact hlt) hp

theorem creation_inv_frame (s s2 : KState) (tids pids : List Int)
    (h1 : s2.TID = s.TID) (h2 : s2.PID = s.PID) (h3 : s2.threads = s.threads)
    (h4 : s2.processes = s.processes) (h5 : s2.theap = s.theap) (h6 : s2.pheap = s.pheap)
    (hr : returned_ids_ok s tids pids) (ht : thread_ids_ok s) (hp : process_ids_ok s) :
    returned_ids_ok s2 tids pids ∧ thread_ids_ok s2 ∧ process_ids_ok s2 := by
  refine ⟨?_, thread_ids_ok_same s s2 h3 (fun j => by rw [h5]) (le_of_eq h1.symm) ht,
    process_ids_ok_same s s2 h4 (fun j => by rw [h6]) (le_of_eq h2.symm) hp⟩
  unfold returned_ids_ok
  rw [h1, h2]
  exact hr

theorem creation_inv_setup (cfg : Config) (s0 s : KState) (pblock : Nat)
    (junk : process_state_t) (tblock tstack : Nat) (hpid : s0.PID = 0) (htid : s0.TID = 0)
    (h : tasking_setup cfg s0 pblock junk tblock tstack = .ok s) :
    returned_ids_ok s [s.kernel_thread] [s.kernel_process] ∧ thread_ids_ok s ∧
      process_ids_ok s := by
  obtain ⟨K, P, hth, hpr, _, _, hheap, hKid, _, _, _, hph, hPid, _, _, hP2, hT2, hkp, hkt, _⟩ :=
    tasking_setup_inv cfg s0 s pblock junk tblock tstack h
  have hw : wrap32 (0 + 1) = 1 := by decide
  rw [hpid] at hP2 hPid hkp
  rw [htid] at hT2 hKid hkt
  rw [hw] at hP2 hT2
  refine ⟨⟨by rw [hT2]; decide, by rw [hP2]; decide, List.pairwise_singleton _ _, ?_,
    List.pairwise_singleton _ _, ?_⟩, ⟨?_, ?_⟩, ⟨?_, ?_⟩⟩
  · intro i hi
    simp only [List.mem_singleton] at hi
    rw [hi, hkt, hT2]
    decide
  · intro i hi
    simp only [List.mem_singleton] at hi
    rw [hi, hkp, hP2]
    decide
  · intro j hj
    rw [hth] at hj
    simp only [List.mem_singleton] at hj
    subst hj
    exact ⟨K, by rw [hheap]; simp, by rw [hKid, hT2]; decide⟩
  · rw [hth]
    exact List.pairwise_singleton _ _
  · intro j hj
    rw [hpr] at hj
    simp only [List.mem_singleton] at hj
    subst hj
    exact ⟨P, by rw [hph]; simp, by rw [hPid, hP2]; decide⟩
  · rw [hpr]
    exact List.pairwise_singleton _ _

theorem creation_inv_process_exec (cfg : Config) (s s2 : KState) (tids pids : List Int)
    (path : List Nat) (elf : ELF_image) (pblock : Nat) (junk : process_state_t)
    (tblock tstack : Nat) (id : Int) (th : thread_t)
    (hpfresh : s.pheap pblock = none) (htfresh : s.theap tblock = none)
    (hpbound : s.PID < 2 ^ 31 - 1) (htbound : s.TID < 2 ^ 31 - 1)
    (h : process_exec cfg s path (some elf) pblock junk tblock tstack = .ok (s2, id))
    (hth : s2.theap tblock = some th)
    (hr : returned_ids_ok s tids pids) (ht : thread_ids_ok s) (hp : process_ids_ok s) :
    returned_ids_ok s2 (tids ++ [th.id]) (pids ++ [id]) ∧ thread_ids_ok s2 ∧
      process_ids_ok s2 := by
  obtain ⟨s1, sl, s3, tid, hpc, hls, htc, rfl⟩ :=
    process_exec_inv cfg s s2 path elf pblock junk tblock tstack id h
  obtain ⟨hr1, ht1, hp1⟩ := creation_inv_process_create cfg s s1 tids pids path 0 pblock junk 0
    id hpfresh hpbound hpc hr ht hp
  obtain ⟨_, _, hs1⟩ := process_create_ok_inv cfg s s1 path 0 pblock junk 0 id hpc
  have hf := load_segments_frame cfg id elf.buffer elf.programs s1 sl hls
  have hsl_theap : sl.theap = s.theap := by
    rw [hf, hs1]
    rfl
  have hsl_tid : sl.TID = s.TID := by
    rw [hf, hs1]
    rfl
  obtain ⟨hrl, htl, hpl⟩ := creation_inv_frame s1 sl tids (pids ++ [id])
    (by rw [hf]) (by rw [hf]) (by rw [hf]) (by rw [hf]) (by rw [hf]) (by rw [hf]) hr1 ht1 hp1
  obtain ⟨hr3, ht3, hp3⟩ := creation_inv_thread_create cfg sl s3 tids (pids ++ [id]) id
    elf.entry 0 tblock tstack tid (by rw [hsl_theap]; exact htfresh)
    (by rw [hsl_tid]; exact htbound) htc hrl htl hpl
  obtain ⟨pp, process, _, _, _, _, _, htid, hs3⟩ :=
    thread_create_ok_inv cfg sl s3 id elf.entry 0 tblock tstack tid htc
  have hthid : th.id = tid := by
    have h3 : s3.theap tblock = some th := hth
    rw [hs3] at h3
    simp only [thread_create_result, Function.update_same, Option.some.injEq] at h3
    rw [← h3, htid]
    rfl
  rw [hthid]
  exact creation_inv_frame s3 _ (tids ++ [tid]) (pids ++ [id]) rfl rfl rfl rfl rfl rfl
    hr3 ht3 hp3

/-- The counters and the ids in every state of `Created`. -/
theorem created_ids (cfg : Config) (s : KState) (tids pids : List Int)
    (h : Created cfg s tids pids) :
    returned_ids_ok s tids pids ∧ thread_ids_ok s ∧ process_ids_ok s := by
  induction h with
  | setup s0 s pblock junk tblock tstack hpid htid _ _ h =>
    exact creation_inv_setup cfg s0 s pblock junk tblock tstack hpid htid h
  | thread_create s s2 tids pids p entry flags block stack id _ hfresh hbound h ih =>
    exact creation_inv_thread_create cfg s s2 tids pids p entry flags block stack id hfresh
      hbound h ih.1 ih.2.1 ih.2.2
  | process_create s s2 tids pids name flags block junk new_pdir id _ hfresh hbound h ih =>
    exact creation_inv_process_create cfg s s2 tids pids name flags block junk new_pdir id
      hfresh hbound h ih.1 ih.2.1 ih.2.2
  | process_exec s s2 tids pids path elf pblock junk tblock tstack id th _ hpfresh htfresh
      hpbound htbound h hth ih =>
    exact creation_inv_process_exec cfg s s2 tids pids path elf pblock junk tblock tstack id th
      hpfresh htfresh hpbound htbound h hth ih.1 ih.2.1 ih.2.2

/-- C12: identifier uniqueness.  In every state reachable from `tasking_setup`
by creating calls of `thread_create`, `process_create` and `process_exec`
whose counters do not wrap, the thread ids returned so far are strictly
increasing in the order of the calls, and so are the process ids: each call
returns an id greater than every id returned before for that kind.  All
threads of the global thread list are live with pairwise distinct ids below
`TID`, and all processes of the process list are live with pairwise distinct
ids below `PID`. -/
theorem identifier_uniqueness (cfg : Config) (s : KState) (tids pids : List Int)
    (h : Created cfg s tids pids) :
    tids.Pairwise (fun a b => a < b) ∧ (∀ i ∈ tids, i < s.TID) ∧
    pids.Pairwise (fun a b => a < b) ∧ (∀ i ∈ pids, i < s.PID) ∧
    (∀ j ∈ s.threads, ∃ t, s.theap j = some t ∧ t.id < s.TID) ∧
    s.threads.Pairwise (fun a b =>
      ∀ ta tb, s.theap a = some ta → s.theap b = some tb → ta.id ≠ tb.id) ∧
    (∀ j ∈ s.processes, ∃ P, s.pheap j = some P ∧ P.id < s.PID) ∧
    s.processes.Pairwise (fun a b =>
      ∀ Pa Pb, s.pheap a = some Pa → s.pheap b = some Pb → Pa.id ≠ Pb.id) := by
  obtain ⟨⟨_, _, h1, h2, h3, h4⟩, ⟨h5, h6⟩, ⟨h7, h8⟩⟩ := created_ids cfg s tids pids h
  exact ⟨h1, h2, h3, h4, h5, h6, h7, h8⟩

theorem ex_paged_exec_created :
    Created ex_cfg ex_paged_exec
      ([ex_paged_setup.kernel_thread] ++ [1] ++ [ex_exec_thread.id])
      ([ex_paged_setup.kernel_process] ++ [1]) :=
  Created.process_exec ex_paged_create ex_paged_exec _ _ [115] ex_image 0x300 PROCESS_RUNNING
    0x5000 0x50000 1 ex_exec_thread
    (Created.thread_create ex_paged_setup ex_paged_create _ _ 0 0x400000 0 0x2000 0x20000 1
      (Created.setup ex_paged_boot ex_paged_setup 0x100 PROCESS_RUNNING 0x1000 0x10000
        rfl rfl rfl rfl rfl)
      rfl (by decide) rfl)
    rfl rfl (by decide) (by decide) rfl rfl

theorem identifier_uniqueness_witness :
    Created ex_cfg ex_paged_exec
      ([ex_paged_setup.kernel_thread] ++ [1] ++ [ex_exec_thread.id])
      ([ex_paged_setup.kernel_process] ++ [1]) ∧
    [ex_paged_setup.kernel_thread] ++ [1] ++ [ex_exec_thread.id] = [0, 1, 2] ∧
    [ex_paged_setup.kernel_process] ++ [1] = [0, 1] ∧
    ex_paged_exec.threads = [0x1000, 0x2000, 0x5000] ∧
    ex_paged_exec.processes = [0x100, 0x300] ∧
    (([ex_paged_setup.kernel_thread] ++ [1] ++ [ex_exec_thread.id]).Pairwise
        (fun a b => a < b) ∧
      (∀ i ∈ [ex_paged_setup.kernel_thread] ++ [1] ++ [ex_exec_thread.id],
        i < ex_paged_exec.TID) ∧
      ([ex_paged_setup.kernel_process] ++ [1]).Pairwise (fun a b => a < b) ∧
      (∀ i ∈ [ex_paged_setup.kernel_process] ++ [1], i < ex_paged_exec.PID) ∧
      (∀ j ∈ ex_paged_exec.threads, ∃ t, ex_paged_exec.theap j = some t ∧
        t.id < ex_paged_exec.TID) ∧
      ex_paged_exec.threads.Pairwise (fun a b =>
        ∀ ta tb, ex_paged_exec.theap a = some ta → ex_paged_exec.theap b = some tb →
          ta.id ≠ tb.id) ∧
      (∀ j ∈ ex_paged_exec.processes, ∃ P, ex_paged_exec.pheap j = some P ∧
        P.id < ex_paged_exec.PID) ∧
      ex_paged_exec.processes.Pairwise (fun a b =>
        ∀ Pa Pb, ex_paged_exec.pheap a = some Pa → ex_paged_exec.pheap b = some Pb →
          Pa.id ≠ Pb.id)) :=
  ⟨ex_paged_exec_created, rfl, rfl, rfl, rfl,
    identifier_uniqueness ex_cfg ex_paged_exec _ _ ex_paged_exec_created⟩

/-! ## The timer -/

theorem timer_bytes (d : Nat) (hd : d < 65536) :
    d &&& 0xFF = d % 256 ∧ (d >>> 8) &&& 0xFF = d / 256 ∧ d % 256 + 256 * (d / 256) = d ∧
      d / 256 < 256 := by
  have h1 : d &&& 0xFF = d % 256 := Nat.and_pow_two_sub_one_eq_mod d 8
  have h2 : (d >>> 8) &&& 0xFF = (d >>> 8) % 256 := Nat.and_pow_two_sub_one_eq_mod (d >>> 8) 8
  have h3 : d >>> 8 = d / 256 := Nat.shiftRight_eq_div_pow d 8
  have h4 : d / 256 < 256 := by omega
  refine ⟨h1, ?_, by omega, h4⟩
  rw [h2, h3]
  exact Nat.mod_eq_of_lt h4

theorem timer_set_frequency_eq (s : KState) (hz : Int) (hlo : 0 < hz) (hhi : hz ≤ 1193180) :
    timer_set_frequency s hz = .ok { s with
      ports := s.ports ++
        [(0x43, 0x36), (0x40, (1193180 / hz).toNat &&& 0xFF),
          (0x40, ((1193180 / hz).toNat >>> 8) &&& 0xFF)] } := by
  have hne : hz ≠ 0 := by omega
  have hdiv : Int.tdiv 1193180 hz = 1193180 / hz :=
    Int.tdiv_eq_ediv (by decide) (le_of_lt hlo)
  have h0 : 0 ≤ (1193180 : Int) / hz := Int.ediv_nonneg (by decide) (le_of_lt hlo)
  have h1 : (1193180 : Int) / hz ≤ 1193180 := Int.ediv_le_self _ (by decide)
  have hmod : (1193180 : Int) / hz % 2 ^ 32 = 1193180 / hz := by
    apply Int.emod_eq_of_lt h0
    omega
  simp only [timer_set_frequency, if_neg hne, hdiv, hmod]

/-- C27: the timer divisor.  For every `hz` with `19 <= hz <= 1193180`,
`timer_set_frequency(hz)` returns after it wrote the command byte `0x36` to
port `0x43` and then, to port `0x40`, the low byte followed by the high byte
of `d = floor(1193180 / hz)`; the two bytes make up the divisor,
`low + 256 * high = d`, which fits in 16 bits.  For `hz = 100` the divisor is
11931 and the bytes are `0x9B` and `0x2E`. -/
theorem timer_divisor (s : KState) (hz : Int) (hlo : 19 ≤ hz) (hhi : hz ≤ 1193180) :
    ∃ d : Nat, (d : Int) = 1193180 / hz ∧ d < 2 ^ 16 ∧
      timer_set_frequency s hz = .ok { s with
        ports := s.ports ++ [(0x43, 0x36), (0x40, d % 256), (0x40, d / 256)] } ∧
      d % 256 < 256 ∧ d / 256 < 256 ∧ d % 256 + 256 * (d / 256) = d ∧
      (hz = 100 → d = 11931 ∧ d % 256 = 0x9B ∧ d / 256 = 0x2E) := by
  have h0 : 0 ≤ (1193180 : Int) / hz := Int.ediv_nonneg (by decide) (by omega)
  have hd : (1193180 : Int) / hz < 65536 := by
    apply Int.ediv_lt_of_lt_mul (by omega)
    omega
  have hcast : (((1193180 : Int) / hz).toNat : Int) = 1193180 / hz := Int.toNat_of_nonneg h0
  have hlt : ((1193180 : Int) / hz).toNat < 65536 := by omega
  obtain ⟨b1, b2, b3, b4⟩ := timer_bytes _ hlt
  refine ⟨((1193180 : Int) / hz).toNat, hcast, hlt, ?_, Nat.mod_lt _ (by decide), b4, b3, ?_⟩
  · rw [timer_set_frequency_eq s hz (by omega) hhi, b1, b2]
  · intro h100
    subst h100
    decide

theorem timer_divisor_witness :
    ∃ d : Nat, (d : Int) = 1193180 / 100 ∧ d < 2 ^ 16 ∧
      timer_set_frequency ex_boot 100 = .ok { ex_boot with
        ports := ex_boot.ports ++ [(0x43, 0x36), (0x40, d % 256), (0x40, d / 256)] } ∧
      d % 256 < 256 ∧ d / 256 < 256 ∧ d % 256 + 256 * (d / 256) = d ∧
      ((100 : Int) = 100 → d = 11931 ∧ d % 256 = 0x9B ∧ d / 256 = 0x2E) :=
  timer_divisor ex_boot 100 (by decide) (by decide)

/-! ## Context save and restore -/

/-- C25: context save and restore in `shedule`.  For every call
`shedule(esp, context)` that returns: the saved `esp` of the preempted thread
`r` becomes the argument; the new running thread `n` is the head of the ready
queue, the preempted thread following at the tail of the queue, or `r`
itself when the queue was empty; the kernel stack target is the stack of `n`
plus `STACK_SIZE` (in `uint`), the loaded page directory is the directory of
the process of `n`, and the value returned is the saved `esp` of `n`.  With an
empty ready queue the call returns its own argument and leaves `running`
as it was. -/
theorem shedule_context_switch (cfg : Config) (s s2 : KState) (esp e : Nat)
    (h : shedule cfg s esp = .ok (s2, e)) :
    ∃ r t n nt pp p, s.running = some r ∧ s.theap r = some t ∧
      s2.theap r = some { t with esp := esp } ∧
      s2.running = some n ∧
      (∀ hd tl, s.waiting = hd :: tl → n = hd ∧ s2.waiting = tl ++ [r]) ∧
      (s.waiting = [] → n = r ∧ s2.waiting = [] ∧ e = esp ∧ s2.running = s.running) ∧
      s2.theap n = some nt ∧ nt.process = some pp ∧ s2.pheap pp = some p ∧
      s2.kernel_stack = (nt.stack + cfg.STACK_SIZE) % 2 ^ 32 ∧
      s2.active_pdir = p.pdir ∧ e = nt.esp := by
  obtain ⟨r, t, n, rest, nt, pp, p, hrun, ht, _, hq, hnt, hpp, hp, he, hs2⟩ :=
    shedule_inv cfg s s2 esp e h
  subst hs2
  refine ⟨r, t, n, nt, pp, p, hrun, ht, by simp, rfl, ?_, ?_, hnt, hpp, hp, rfl, rfl, he⟩
  · intro hd tl hw
    rw [hw] at hq
    simp only [List.cons_append, List.cons.injEq] at hq
    exact ⟨hq.1.symm, hq.2.symm⟩
  · intro hw
    rw [hw] at hq
    simp only [List.nil_append, List.cons.injEq] at hq
    obtain ⟨hn, hrest⟩ := hq
    subst hn
    simp only [Function.update_same, Option.some.injEq] at hnt
    subst hnt
    exact ⟨rfl, hrest.symm, he, hrun.symm⟩

theorem shedule_context_switch_witness :
    ∃ r t n nt pp p, (ex_state (some 0x1000) [0x2000]).running = some r ∧
      (ex_state (some 0x1000) [0x2000]).theap r = some t ∧
      ex_after_tick.theap r = some { t with esp := 0x13f80 } ∧
      ex_after_tick.running = some n ∧
      (∀ hd tl, (ex_state (some 0x1000) [0x2000]).waiting = hd :: tl →
        n = hd ∧ ex_after_tick.waiting = tl ++ [r]) ∧
      ((ex_state (some 0x1000) [0x2000]).waiting = [] →
        n = r ∧ ex_after_tick.waiting = [] ∧ 0x23f00 = 0x13f80 ∧
        ex_after_tick.running = (ex_state (some 0x1000) [0x2000]).running) ∧
      ex_after_tick.theap n = some nt ∧ nt.process = some pp ∧
      ex_after_tick.pheap pp = some p ∧
      ex_after_tick.kernel_stack = (nt.stack + ex_cfg.STACK_SIZE) % 2 ^ 32 ∧
      ex_after_tick.active_pdir = p.pdir ∧ 0x23f00 = nt.esp :=
  shedule_context_switch ex_cfg (ex_state (some 0x1000) [0x2000]) _ 0x13f80 0x23f00 rfl

/-! ## The ready queue -/

theorem rotation_ok_same (s s2 : KState) (h : same_registry s s2) (hq : rotation_ok s) :
    rotation_ok s2 := by
  obtain ⟨ht, _, hr, hw, _⟩ := h
  obtain ⟨r, hrun, hnd, hall⟩ := hq
  refine ⟨r, by rw [hr]; exact hrun, by rw [hw]; exact hnd, ?_⟩
  intro j hj
  rw [ht] at hj
  rw [hw]
  exact hall j hj

theorem rotation_ok_shedule (cfg : Config) (s s2 : KState) (esp e : Nat)
    (h : shedule cfg s esp = .ok (s2, e)) (hq : rotation_ok s) : rotation_ok s2 := by
  obtain ⟨r, t, n, rest, nt, pp, p, hrun, _, _, hpush, _, _, _, _, hs2⟩ :=
    shedule_inv cfg s s2 esp e h
  obtain ⟨r0, hrun0, hnd, hall⟩ := hq
  rw [hrun] at hrun0
  cases hrun0
  subst hs2
  have hperm : (r :: s.waiting).Perm (n :: rest) := by
    rw [← hpush]
    exact (List.perm_append_singleton r s.waiting).symm
  refine ⟨n, rfl, hperm.nodup_iff.mp hnd, ?_⟩
  intro j hj
  have hm : j ∈ r :: s.waiting := List.mem_cons.mpr (hall j hj)
  exact List.mem_cons.mp (hperm.mem_iff.mp hm)

theorem rotation_ok_thread_create (cfg : Config) (s s2 : KState) (p : Int)
    (entry flags block stack : Nat) (id : Int) (hfresh : s.theap block = none)
    (h : thread_create cfg s p entry flags block stack = .ok (s2, id))
    (hr : registry_ok s) (hq : rotation_ok s) : rotation_ok s2 := by
  obtain ⟨pp, process, _, _, _, _, _, _, hs2⟩ :=
    thread_create_ok_inv cfg s s2 p entry flags block stack id h
  obtain ⟨r, hrun, hnd, hall⟩ := hq
  obtain ⟨_, hlive, _, hwait⟩ := hr
  have hnot : ∀ j ∈ s.threads, j ≠ block := by
    intro j hj hjb
    obtain ⟨t, _, ht, _⟩ := hlive j hj
    rw [hjb, hfresh] at ht
    cases ht
  have hbw : block ∉ s.waiting := fun hb => hnot block (hwait block hb) rfl
  have hrb : r ≠ block := by
    intro hrb
    have hex : ∃ r1, s.running = some r1 ∧ r1 ∈ s.threads := by assumption
    obtain ⟨r1, h1, h2⟩ := hex
    rw [hrun] at h1
    cases h1
    exact hnot r h2 hrb
  subst hs2
  refine ⟨r, by simp [thread_create_result, hrun], ?_, ?_⟩
  · simp only [thread_create_result, hrun]
    rw [List.nodup_cons] at hnd ⊢
    refine ⟨?_, ?_⟩
    · intro hm
      rcases List.mem_append.mp hm with hm | hm
      · exact hnd.1 hm
      · exact hrb (List.mem_singleton.mp hm)
    · rw [List.nodup_append]
      refine ⟨hnd.2, List.nodup_singleton _, ?_⟩
      intro a ha hb
      rw [List.mem_singleton] at hb
      subst hb
      exact hbw ha
  · intro j hj
    simp only [thread_create_result, hrun] at hj ⊢
    rcases List.mem_append.mp hj with hj | hj
    · rcases hall j hj with hjr | hjw
      · exact Or.inl hjr
      · exact Or.inr (List.mem_append_left _ hjw)
    · exact Or.inr (List.mem_append_right _ hj)

theorem rotation_ok_setup (cfg : Config) (s0 s : KState) (pblock : Nat)
    (junk : process_state_t) (tblock tstack : Nat)
    (h : tasking_setup cfg s0 pblock junk tblock tstack = .ok s) : rotation_ok s := by
  obtain ⟨K, P, hth, _, hrun, hw, _⟩ := tasking_setup_inv cfg s0 s pblock junk tblock tstack h
  refine ⟨tblock, hrun, by rw [hw]; simp, ?_⟩
  intro j hj
  rw [hth] at hj
  exact Or.inl (List.mem_singleton.mp hj)

theorem reachable_rotation_ok (cfg : Config) (s : KState) (h : Reachable cfg s) :
    rotation_ok s := by
  induction h with
  | setup s0 s pblock junk tblock tstack _ _ h =>
    exact rotation_ok_setup cfg s0 s pblock junk tblock tstack h
  | thread_create s s2 p entry flags block stack id hr hfresh h ih =>
    exact rotation_ok_thread_create cfg s s2 p entry flags block stack id hfresh h
      (reachable_registry_ok cfg s hr) ih
  | process_create s s2 name flags block junk new_pdir id _ _ h ih =>
    obtain ⟨_, _, hs2⟩ := process_create_ok_inv cfg s s2 name flags block junk new_pdir id h
    subst hs2
    exact ih
  | shedule s s2 esp e _ h ih => exact rotation_ok_shedule cfg s s2 esp e h ih
  | thread_cancel s s2 t ret _ h ih =>
    exact rotation_ok_same s s2 (same_registry_thread_cancel s s2 t ret h) ih
  | thread_exit s s2 retval _ h ih =>
    exact rotation_ok_same s s2 (same_registry_thread_exit s s2 retval h) ih
  | process_cancel s s2 p _ h ih =>
    exact rotation_ok_same s s2 (same_registry_process_cancel s s2 p h) ih
  | process_exit s s2 code _ h ih =>
    exact rotation_ok_same s s2 (same_registry_process_exit s s2 code h) ih
  | block s s2 j kind handle slot _ _ _ _ h ih =>
    exact rotation_ok_same s s2 (same_registry_thread_block s s2 j kind handle slot h) ih

/-- C24: the ready-queue invariant.  In every state reachable from
`tasking_setup` by calls of `thread_create` and calls of `shedule` that
return (and also by the other calls that `Reachable` admits, which leave the
lists in place), the ready queue contains no thread twice, does not contain
the running thread, and every thread of the global thread list is either the
running thread or appears in the ready queue exactly once. -/
theorem ready_queue_invariant (cfg : Config) (s : KState) (h : Reachable cfg s) :
    ready_queue_ok s := by
  obtain ⟨r, hrun, hnd, hall⟩ := reachable_rotation_ok cfg s h
  rw [List.nodup_cons] at hnd
  refine ⟨hnd.2, ?_, ?_⟩
  · intro r1 h1
    rw [hrun] at h1
    cases h1
    exact hnd.1
  · intro j hj
    rcases hall j hj with hjr | hjw
    · subst hjr
      exact Or.inl ⟨hrun, List.count_eq_zero_of_not_mem hnd.1⟩
    · refine Or.inr ⟨?_, List.count_eq_one_of_mem hnd.2 hjw⟩
      intro hrj
      rw [hrun] at hrj
      cases hrj
      exact hnd.1 hjw

theorem ex_after_switch_reachable : Reachable ex_cfg ex_after_switch :=
  Reachable.shedule ex_after_create ex_after_switch 0x203f00 0x23fbc
    (Reachable.thread_create ex_after_setup ex_after_create 0 0x400000 0 0x2000 0x20000 1
      (Reachable.setup ex_boot ex_after_setup 0x100 PROCESS_RUNNING 0x1000 0x10000 rfl rfl rfl)
      rfl rfl)
    rfl

theorem ready_queue_invariant_witness :
    Reachable ex_cfg ex_after_switch ∧ ex_after_switch.running = some 0x2000 ∧
      ex_after_switch.waiting = [0x1000] ∧ ready_queue_ok ex_after_switch :=
  ⟨ex_after_switch_reachable, rfl, rfl,
    ready_queue_invariant ex_cfg ex_after_switch ex_after_switch_reachable⟩

/-! ## The stack invariant from creation on -/

theorem initial_esp_eq (cfg : Config) (stack : Nat) (hsz : cfg.sizeof_context_t ≤ cfg.STACK_SIZE)
    (hfit : stack + cfg.STACK_SIZE < 2 ^ 32) :
    initial_esp cfg stack + cfg.sizeof_context_t = stack + cfg.STACK_SIZE := by
  unfold initial_esp
  have h1 : (stack + cfg.STACK_SIZE) % 2 ^ 32 = stack + cfg.STACK_SIZE := Nat.mod_eq_of_lt hfit
  have h2 : cfg.sizeof_context_t % 2 ^ 32 = cfg.sizeof_context_t :=
    Nat.mod_eq_of_lt (by omega)
  rw [h1, h2]
  have h3 : stack + cfg.STACK_SIZE + 2 ^ 32 - cfg.sizeof_context_t =
      (stack + cfg.STACK_SIZE - cfg.sizeof_context_t) + 2 ^ 32 := by omega
  rw [h3, Nat.add_mod_right, Nat.mod_eq_of_lt (by omega)]
  omega

theorem esp_as_created_setup (cfg : Config) (s0 s : KState) (pblock : Nat)
    (junk : process_state_t) (tblock tstack : Nat)
    (hfit : cfg.stack_bottom + cfg.STACK_SIZE < 2 ^ 32)
    (h : tasking_setup cfg s0 pblock junk tblock tstack = .ok s) :
    esp_as_created cfg s ∧ threads_live s := by
  obtain ⟨K, P, hth, _, _, _, hheap, hid, _, hstack, hesp, _, _, _, _, _, _, _, hkt, _⟩ :=
    tasking_setup_inv cfg s0 s pblock junk tblock tstack h
  refine ⟨⟨tblock, [], K, hth, by rw [hheap]; simp, by rw [hid, hkt], hstack, ?_, ?_⟩, ?_⟩
  · rw [hesp, hstack, Nat.mod_eq_of_lt hfit]
  · intro j hj
    cases hj
  · intro j hj
    rw [hth] at hj
    rw [List.mem_singleton.mp hj, hheap]
    exact ⟨K, by simp⟩

theorem esp_as_created_thread_create (cfg : Config) (s s2 : KState) (p : Int)
    (entry flags block stack : Nat) (id : Int)
    (hsz : cfg.sizeof_context_t ≤ cfg.STACK_SIZE)
    (hfresh : s.theap block = none) (hfit : stack + cfg.STACK_SIZE < 2 ^ 32)
    (h : thread_create cfg s p entry flags block stack = .ok (s2, id))
    (hq : esp_as_created cfg s ∧ threads_live s) :
    esp_as_created cfg s2 ∧ threads_live s2 := by
  obtain ⟨pp, process, _, _, _, _, _, _, hs2⟩ :=
    thread_create_ok_inv cfg s s2 p entry flags block stack id h
  obtain ⟨⟨k, rest, K, hth, hK, hid, hstack, hesp, hall⟩, hlive⟩ := hq
  have hnot : ∀ j ∈ s.threads, j ≠ block := by
    intro j hj hjb
    obtain ⟨t, ht⟩ := hlive j hj
    rw [hjb, hfresh] at ht
    cases ht
  subst hs2
  refine ⟨⟨k, rest ++ [block], K, by simp [thread_create_result, hth], ?_, hid, hstack,
    hesp, ?_⟩, ?_⟩
  · have hk : k ≠ block := hnot k (by rw [hth]; exact List.mem_cons_self _ _)
    simp only [thread_create_result]
    rw [Function.update_noteq hk]
    exact hK
  · intro j hj
    rcases List.mem_append.mp hj with hj | hj
    · have hjb : j ≠ block := hnot j (by rw [hth]; exact List.mem_cons_of_mem _ hj)
      obtain ⟨t, ht, he⟩ := hall j hj
      refine ⟨t, ?_, he⟩
      simp only [thread_create_result]
      rw [Function.update_noteq hjb]
      exact ht
    · rw [List.mem_singleton.mp hj]
      refine ⟨created_thread cfg s entry stack pp, by simp [thread_create_result], ?_⟩
      exact initial_esp_eq cfg stack hsz hfit
  · intro j hj
    simp only [thread_create_result] at hj ⊢
    rcases List.mem_append.mp hj with hj | hj
    · obtain ⟨t, ht⟩ := hlive j hj
      exact ⟨t, by rw [Function.update_noteq (hnot j hj)]; exact ht⟩
    · rw [List.mem_singleton.mp hj]
      exact ⟨created_thread cfg s entry stack pp, by simp⟩

theorem after_setup_esp (cfg : Config) (s : KState)
    (hsz : cfg.sizeof_context_t ≤ cfg.STACK_SIZE) (h : AfterSetup cfg s) :
    esp_as_created cfg s ∧ threads_live s := by
  induction h with
  | setup s0 s pblock junk tblock tstack _ _ hfit h =>
    exact esp_as_created_setup cfg s0 s pblock junk tblock tstack hfit h
  | thread_create s s2 p entry flags block stack id _ hfresh hfit h ih =>
    exact esp_as_created_thread_create cfg s s2 p entry flags block stack id hsz hfresh hfit h ih

theorem ex_after_setup_produced : AfterSetup ex_cfg ex_after_setup :=
  AfterSetup.setup ex_boot ex_after_setup 0x100 PROCESS_RUNNING 0x1000 0x10000 rfl rfl
    (by decide) rfl

theorem ex_after_create_produced : AfterSetup ex_cfg ex_after_create :=
  AfterSetup.thread_create ex_after_setup ex_after_create 0 0x400000 0 0x2000 0x20000 1
    ex_after_setup_produced rfl (by decide) rfl

/-- C23, as stated, fails: right after `tasking_setup` the saved stack pointer
of the kernel thread is `stack_base + STACK_SIZE`, which is not inside
`[stack_base, stack_base + STACK_SIZE)`. -/
theorem stack_invariant_half_open_counterexample :
    AfterSetup ex_cfg ex_after_setup ∧ ex_cfg.sizeof_context_t ≤ ex_cfg.STACK_SIZE ∧
      ¬ esp_inside_stack ex_cfg ex_after_setup := by
  refine ⟨ex_after_setup_produced, by decide, ?_⟩
  intro h
  obtain ⟨t, ht, _, hlt⟩ := h 0x1000 (by decide)
  have hk : ex_after_setup.theap 0x1000 =
      some { id := 0, stack := 0x200000, entry := 0, esp := 0x204000, process := some 0x100,
             state := THREAD_RUNNING, waitinfo := { handle := 0, outcode := 0 } } := rfl
  rw [hk] at ht
  cases ht
  exact absurd hlt (by decide)

/-- C23, amended: the stack invariant from creation on.  With
`sizeof(context_t) <= STACK_SIZE` and no address overflow, in every state
produced by `tasking_setup` followed by calls of `thread_create`, every
thread of the global list is live and has its saved stack pointer inside the
closed range `[stack_base, stack_base + STACK_SIZE]`: the kernel thread, which
is the head of the list and sits on the boot stack, has it at
`stack_base + STACK_SIZE`, and every other thread has it at
`stack_base + STACK_SIZE - sizeof(context_t)`. -/
theorem stack_invariant_from_creation (cfg : Config) (s : KState)
    (hsz : cfg.sizeof_context_t ≤ cfg.STACK_SIZE) (h : AfterSetup cfg s) :
    (∀ j ∈ s.threads, ∃ t, s.theap j = some t ∧
      t.stack ≤ t.esp ∧ t.esp ≤ t.stack + cfg.STACK_SIZE) ∧ esp_as_created cfg s := by
  obtain ⟨hc, _⟩ := after_setup_esp cfg s hsz h
  refine ⟨?_, hc⟩
  obtain ⟨k, rest, K, hth, hK, _, _, hesp, hall⟩ := hc
  intro j hj
  rw [hth] at hj
  rcases List.mem_cons.mp hj with hj | hj
  · subst hj
    exact ⟨K, hK, by omega, by omega⟩
  · obtain ⟨t, ht, he⟩ := hall j hj
    exact ⟨t, ht, by omega, by omega⟩

theorem stack_invariant_from_creation_witness :
    ex_cfg.sizeof_context_t ≤ ex_cfg.STACK_SIZE ∧ AfterSetup ex_cfg ex_after_create ∧
      (∀ j ∈ ex_after_create.threads, ∃ t, ex_after_create.theap j = some t ∧
        t.stack ≤ t.esp ∧ t.esp ≤ t.stack + ex_cfg.STACK_SIZE) ∧
      esp_as_created ex_cfg ex_after_create :=
  ⟨by decide, ex_after_create_produced,
    stack_invariant_from_creation ex_cfg ex_after_create (by decide) ex_after_create_produced⟩

/-! ## Destruction -/

/-- The result of `kill_thread` for a thread that is not the last one of its
process. -/
theorem kill_thread_keeps (cfg : Config) (s : KState) (thread pp : Nat) (t : thread_t)
    (P : process_t) (ht : s.theap thread = some t) (hp : t.process = some pp)
    (hP : s.pheap pp = some P) (hrem : P.threads.erase thread ≠ []) :
    kill_thread cfg s thread = .ok (kill_thread_result s thread pp t P) := by
  have hlen : (P.threads.erase thread).length ≠ 0 := by
    intro h
    exact hrem (List.length_eq_zero.mp h)
  simp only [kill_thread, ht, hp, hP, list_remove, if_neg hlen, free_thread, kill_thread_result]

/-- The result of `kill_thread` for the last thread of its process. -/
theorem kill_thread_last (cfg : Config) (s : KState) (thread pp : Nat) (t : thread_t)
    (P : process_t) (ht : s.theap thread = some t) (hp : t.process = some pp)
    (hP : s.pheap pp = some P) (hrem : P.threads.erase thread = []) :
    kill_thread cfg s thread = .ok { s with
      pheap := Function.update s.pheap pp none
      pdir_freed := if P.pdir ≠ cfg.memory_kpdir then s.pdir_freed ++ [P.pdir] else s.pdir_freed
      lists_freed := s.lists_freed ++ [pp]
      freed := s.freed ++ [pp, t.stack, thread]
      theap := Function.update s.theap thread none } := by
  simp [kill_thread, ht, hp, hP, list_remove, hrem, free_process, free_thread]

theorem free_thread_log_congr (s s2 : KState) (l : List Nat)
    (h : ∀ j ∈ l, s2.theap j = s.theap j) : free_thread_log s2 l = free_thread_log s l := by
  induction l with
  | nil => rfl
  | cons a rest ih =>
    have ha : stack_of s2 a = stack_of s a := by
      unfold stack_of
      rw [h a (List.mem_cons_self _ _)]
    simp only [free_thread_log, ha, ih (fun j hj => h j (List.mem_cons_of_mem _ hj))]

/-- Killing all threads of a process but one, in any order, frees the stack
and the block of each of them and leaves the process live with the remaining
thread as its collection. -/
theorem kill_threads_keep (cfg : Config) (pp last : Nat) (order : List Nat) :
    ∀ (s : KState) (P : process_t), s.pheap pp = some P →
      (order ++ [last]).Perm P.threads → P.threads.Nodup →
      (∀ t ∈ P.threads, ∃ th, s.theap t = some th ∧ th.process = some pp) →
      ∃ s1 P1, kill_threads cfg s order = .ok s1 ∧ s1.pheap pp = some P1 ∧
        P1.threads = [last] ∧ P1.pdir = P.pdir ∧
        (∀ j, j ∉ order → s1.theap j = s.theap j) ∧ (∀ j ∈ order, s1.theap j = none) ∧
        s1.pdir_freed = s.pdir_freed ∧ s1.lists_freed = s.lists_freed ∧
        s1.freed = s.freed ++ free_thread_log s order := by
  induction order with
  | nil =>
    intro s P hP hperm _ _
    have hl : P.threads = [last] := by
      have h1 : [last].Perm P.threads := by simpa using hperm
      exact List.perm_singleton.mp h1.symm
    exact ⟨s, P, rfl, hP, hl, rfl, fun _ _ => rfl, fun j hj => absurd hj (List.not_mem_nil j), rfl, rfl,
      by simp [free_thread_log]⟩
  | cons t rest ih =>
    intro s P hP hperm hnd hth
    have hperm1 : (t :: (rest ++ [last])).Perm P.threads := by simpa using hperm
    have htm : t ∈ P.threads := hperm1.mem_iff.mp (List.mem_cons_self _ _)
    obtain ⟨th, hth1, hpr⟩ := hth t htm
    have hperm2 : (rest ++ [last]).Perm (P.threads.erase t) := by
      have h2 := hperm1.erase t
      rwa [List.erase_cons_head] at h2
    have hlast : last ∈ P.threads.erase t :=
      hperm2.mem_iff.mp (List.mem_append_right _ (List.mem_singleton_self _))
    have hrem : P.threads.erase t ≠ [] := List.ne_nil_of_mem hlast
    have hnd2 : (P.threads.erase t).Nodup := hnd.erase t
    have hmem : ∀ j, j ∈ P.threads.erase t → j ≠ t ∧ j ∈ P.threads := by
      intro j hj
      exact (hnd.mem_erase_iff).mp hj
    have hk := kill_thread_keeps cfg s t pp th P hth1 hpr hP hrem
    obtain ⟨s1, P1, hrun, hP1, hl1, hpd, hframe, hdead, hpf, hlf, hfr⟩ :=
      ih (kill_thread_result s t pp th P) { P with threads := P.threads.erase t }
        (by simp [kill_thread_result]) hperm2 hnd2 (by
        intro j hj
        obtain ⟨hjt, hjP⟩ := hmem j hj
        obtain ⟨u, hu, hup⟩ := hth j hjP
        exact ⟨u, by simp [kill_thread_result, Function.update_noteq hjt, hu], hup⟩)
    have htrest : t ∉ rest := by
      intro htr
      have h3 : t ∈ P.threads.erase t := hperm2.mem_iff.mp (List.mem_append_left _ htr)
      exact (hmem t h3).1 rfl
    have hrun2 : kill_threads cfg s (t :: rest) = .ok s1 := by
      simp only [kill_threads, hk]
      exact hrun
    refine ⟨s1, P1, hrun2, hP1, hl1, hpd, ?_, ?_, hpf, hlf, ?_⟩
    · intro j hj
      have hjt : j ≠ t := fun h => hj (by rw [h]; exact List.mem_cons_self _ _)
      have hjr : j ∉ rest := fun h => hj (List.mem_cons_of_mem _ h)
      rw [hframe j hjr]
      simp [kill_thread_result, Function.update_noteq hjt]
    · intro j hj
      rcases List.mem_cons.mp hj with hj | hj
      · subst hj
        rw [hframe j htrest]
        simp [kill_thread_result]
      · exact hdead j hj
    · rw [hfr]
      have hcongr := free_thread_log_congr s (kill_thread_result s t pp th P) rest (by
          intro j hj
          have hjt : j ≠ t := fun h => htrest (by rw [← h]; exact hj)
          simp [kill_thread_result, Function.update_noteq hjt])
      rw [hcongr]
      have hst : stack_of s t = th.stack := by simp [stack_of, hth1]
      simp [free_thread_log, hst, kill_thread_result]

/-- C21: destruction happens exactly once.  For a live process `pp` whose
thread collection holds the distinct live threads `t1..tn` (`n >= 1`), each
with `pp` as its process, and for every order `order ++ [last]` of these
threads: applying `kill_thread` to each of them once returns; each kill
frees the stack and the block of its thread, so that the log of `free` calls
grows by the stack and the block of every thread exactly once; up to the last
kill the process is live and neither its address space nor its thread
collection nor its block has been freed; the last kill frees the thread
collection once, the block once and, if it is not the kernel address space,
the address space once. -/
theorem destruction_exactly_once (cfg : Config) (s : KState) (pp : Nat) (P : process_t)
    (order : List Nat) (last : Nat)
    (hP : s.pheap pp = some P) (hperm : (order ++ [last]).Perm P.threads)
    (hnd : P.threads.Nodup)
    (hth : ∀ t ∈ P.threads, ∃ th, s.theap t = some th ∧ th.process = some pp) :
    ∃ s1 s2, kill_threads cfg s order = .ok s1 ∧ kill_thread cfg s1 last = .ok s2 ∧
      (∃ P1, s1.pheap pp = some P1 ∧ P1.threads = [last]) ∧
      s1.pdir_freed = s.pdir_freed ∧ s1.lists_freed = s.lists_freed ∧
      s1.freed = s.freed ++ free_thread_log s order ∧
      s2.pheap pp = none ∧ s2.lists_freed = s.lists_freed ++ [pp] ∧
      s2.pdir_freed =
        (if P.pdir ≠ cfg.memory_kpdir then s.pdir_freed ++ [P.pdir] else s.pdir_freed) ∧
      s2.freed = s.freed ++ free_thread_log s order ++ [pp, stack_of s last, last] ∧
      (∀ t ∈ P.threads, s2.theap t = none) := by
  obtain ⟨s1, P1, hrun, hP1, hl1, hpd, hframe, hdead, hpf, hlf, hfr⟩ :=
    kill_threads_keep cfg pp last order s P hP hperm hnd hth
  have hlm : last ∈ P.threads :=
    hperm.mem_iff.mp (List.mem_append_right _ (List.mem_singleton_self _))
  have hlo : last ∉ order := by
    intro hl
    have hnd2 : (order ++ [last]).Nodup := hperm.nodup_iff.mpr hnd
    rw [List.nodup_append] at hnd2
    exact hnd2.2.2 hl (List.mem_singleton_self _)
  obtain ⟨tl, htl, hpl⟩ := hth last hlm
  have htl1 : s1.theap last = some tl := by rw [hframe last hlo]; exact htl
  have hrem : P1.threads.erase last = [] := by rw [hl1]; simp
  have hk := kill_thread_last cfg s1 last pp tl P1 htl1 hpl hP1 hrem
  have hst : stack_of s last = tl.stack := by simp [stack_of, htl]
  refine ⟨s1, _, hrun, hk, ⟨P1, hP1, hl1⟩, hpf, hlf, hfr, by simp, by simp [hlf], ?_, ?_, ?_⟩
  · simp only [hpd, hpf]
  · simp [hfr, hst]
  · intro t ht
    have htm : t ∈ order ++ [last] := hperm.mem_iff.mpr ht
    rcases List.mem_append.mp htm with h1 | h1
    · by_cases htl2 : t = last
      · subst htl2
        simp
      · simp [Function.update_noteq htl2, hdead t h1]
    · rw [List.mem_singleton.mp h1]
      simp

theorem ex_process1_threads :
    ∀ t ∈ ex_process1.threads, ∃ th, (ex_state (some 0x1000) [0x2000]).theap t = some th ∧
      th.process = some 0x200 := by
  intro t ht
  simp only [ex_process1, List.mem_cons, List.mem_singleton, List.not_mem_nil, or_false] at ht
  rcases ht with h | h | h <;> subst h <;> exact ⟨_, rfl, rfl⟩

theorem destruction_exactly_once_witness :
    ∃ s1 s2, kill_threads ex_cfg (ex_state (some 0x1000) [0x2000]) [0x4000, 0x2000] = .ok s1 ∧
      kill_thread ex_cfg s1 0x3000 = .ok s2 ∧
      (∃ P1, s1.pheap 0x200 = some P1 ∧ P1.threads = [0x3000]) ∧
      s1.pdir_freed = (ex_state (some 0x1000) [0x2000]).pdir_freed ∧
      s1.lists_freed = (ex_state (some 0x1000) [0x2000]).lists_freed ∧
      s1.freed = (ex_state (some 0x1000) [0x2000]).freed ++
        free_thread_log (ex_state (some 0x1000) [0x2000]) [0x4000, 0x2000] ∧
      s2.pheap 0x200 = none ∧
      s2.lists_freed = (ex_state (some 0x1000) [0x2000]).lists_freed ++ [0x200] ∧
      s2.pdir_freed =
        (if ex_process1.pdir ≠ ex_cfg.memory_kpdir then
          (ex_state (some 0x1000) [0x2000]).pdir_freed ++ [ex_process1.pdir]
        else (ex_state (some 0x1000) [0x2000]).pdir_freed) ∧
      s2.freed = (ex_state (some 0x1000) [0x2000]).freed ++
        free_thread_log (ex_state (some 0x1000) [0x2000]) [0x4000, 0x2000] ++
        [0x200, stack_of (ex_state (some 0x1000) [0x2000]) 0x3000, 0x3000] ∧
      (∀ t ∈ ex_process1.threads, s2.theap t = none) :=
  destruction_exactly_once ex_cfg (ex_state (some 0x1000) [0x2000]) 0x200 ex_process1
    [0x4000, 0x2000] 0x3000 rfl (by decide) (by decide) ex_process1_threads

theorem free_thread_pdir (s s2 : KState) (thread : Nat) (h : free_thread s thread = .ok s2) :
    s2.pdir_freed = s.pdir_freed := by
  unfold free_thread at h
  split at h
  · simp at h
  · simp only [Except.ok.injEq] at h
    rw [← h]

theorem free_process_pdir (cfg : Config) (s s2 : KState) (process : Nat)
    (h : free_process cfg s process = .ok s2) :
    ∃ l, s2.pdir_freed = s.pdir_freed ++ l ∧ cfg.memory_kpdir ∉ l := by
  unfold free_process at h
  split at h
  · simp at h
  · rename_i P _
    simp only [Except.ok.injEq] at h
    rw [← h]
    by_cases hk : P.pdir = cfg.memory_kpdir
    · exact ⟨[], by simp [hk], by simp⟩
    · exact ⟨[P.pdir], by simp [hk], by simpa using Ne.symm hk⟩

theorem kill_thread_pdir (cfg : Config) (s s2 : KState) (thread : Nat)
    (h : kill_thread cfg s thread = .ok s2) :
    ∃ l, s2.pdir_freed = s.pdir_freed ++ l ∧ cfg.memory_kpdir ∉ l := by
  unfold kill_thread at h
  cases ht : s.theap thread with
  | none => simp [ht] at h
  | some t =>
    cases hp : t.process with
    | none => simp [ht, hp] at h
    | some pp =>
      cases hP : s.pheap pp with
      | none => simp [ht, hp, hP] at h
      | some P =>
        simp only [ht, hp, hP] at h
        split at h
        · split at h
          · simp at h
          · rename_i s1 hfp
            obtain ⟨l, hl, hnot⟩ := free_process_pdir cfg _ s1 pp hfp
            exact ⟨l, by rw [free_thread_pdir s1 s2 thread h, hl], hnot⟩
        · exact ⟨[], by rw [free_thread_pdir _ s2 thread h]; simp, by simp⟩

theorem free_threads_loop_pdir (l : List Nat) :
    ∀ s s2 : KState, free_threads_loop l s = .ok s2 → s2.pdir_freed = s.pdir_freed := by
  induction l with
  | nil =>
    intro s s2 h
    simp only [free_threads_loop, Except.ok.injEq] at h
    rw [← h]
  | cons i rest ih =>
    intro s s2 h
    simp only [free_threads_loop] at h
    split at h
    · simp at h
    · rename_i s1 h1
      rw [ih s1 s2 h, free_thread_pdir s s1 i h1]

theorem kill_process_pdir (cfg : Config) (s s2 : KState) (process : Nat)
    (h : kill_process cfg s process = .ok s2) :
    ∃ l, s2.pdir_freed = s.pdir_freed ++ l ∧ cfg.memory_kpdir ∉ l := by
  unfold kill_process at h
  split at h
  · simp at h
  · rename_i P _
    split at h
    · simp at h
    · rename_i s1 h1
      obtain ⟨l, hl, hnot⟩ := free_process_pdir cfg s1 s2 process h
      exact ⟨l, by rw [hl, free_threads_loop_pdir P.threads s s1 h1], hnot⟩

theorem kill_calls_pdir (cfg : Config) (calls : List kill_call) :
    ∀ s s2 : KState, kill_calls cfg s calls = .ok s2 →
      ∃ l, s2.pdir_freed = s.pdir_freed ++ l ∧ cfg.memory_kpdir ∉ l := by
  induction calls with
  | nil =>
    intro s s2 h
    simp only [kill_calls, Except.ok.injEq] at h
    exact ⟨[], by rw [← h]; simp, by simp⟩
  | cons c rest ih =>
    intro s s2 h
    cases c with
    | thread thread =>
      simp only [kill_calls] at h
      split at h
      · simp at h
      · rename_i s1 h1
        obtain ⟨l1, hl1, hn1⟩ := kill_thread_pdir cfg s s1 thread h1
        obtain ⟨l2, hl2, hn2⟩ := ih s1 s2 h
        refine ⟨l1 ++ l2, by rw [hl2, hl1, List.append_assoc], ?_⟩
        intro hm
        rcases List.mem_append.mp hm with hm | hm
        · exact hn1 hm
        · exact hn2 hm
    | process process =>
      simp only [kill_calls] at h
      split at h
      · simp at h
      · rename_i s1 h1
        obtain ⟨l1, hl1, hn1⟩ := kill_process_pdir cfg s s1 process h1
        obtain ⟨l2, hl2, hn2⟩ := ih s1 s2 h
        refine ⟨l1 ++ l2, by rw [hl2, hl1, List.append_assoc], ?_⟩
        intro hm
        rcases List.mem_append.mp hm with hm | hm
        · exact hn1 hm
        · exact hn2 hm

/-- C22: address-space ownership.  For every name and flags, `alloc_process`
(given a block by `malloc`) binds the address space that `memory_alloc_pdir()`
returned when `flags & TASK_USER` is set and the singleton kernel address
space otherwise; for every live process, `free_process` returns and releases
the address space of the process if and only if it is not the kernel address
space; and no run of `kill_thread` and `kill_process` calls releases the
kernel address space. -/
theorem address_space_ownership (cfg : Config) :
    (∀ (s : KState) (name : List Nat) (flags block : Nat) (junk : process_state_t)
        (new_pdir : Nat), block ≠ 0 →
      ∃ s1 P, alloc_process cfg s name flags block junk new_pdir = .ok (s1, block) ∧
        s1.pheap block = some P ∧
        (flags &&& cfg.TASK_USER ≠ 0 → P.pdir = new_pdir) ∧
        (flags &&& cfg.TASK_USER = 0 → P.pdir = cfg.memory_kpdir)) ∧
    (∀ (s : KState) (process : Nat) (P : process_t), s.pheap process = some P →
      ∃ s2, free_process cfg s process = .ok s2 ∧
        (P.pdir ≠ cfg.memory_kpdir → s2.pdir_freed = s.pdir_freed ++ [P.pdir]) ∧
        (P.pdir = cfg.memory_kpdir → s2.pdir_freed = s.pdir_freed)) ∧
    (∀ (s : KState) (calls : List kill_call) (s2 : KState),
      kill_calls cfg s calls = .ok s2 →
      ∃ l, s2.pdir_freed = s.pdir_freed ++ l ∧ cfg.memory_kpdir ∉ l) := by
  refine ⟨?_, ?_, ?_⟩
  · intro s name flags block junk new_pdir hb
    have h : alloc_process cfg s name flags block junk new_pdir = .ok
        ({ s with
          PID := wrap32 (s.PID + 1)
          pheap := Function.update s.pheap block
            (some (created_process cfg s name flags junk new_pdir)) }, block) := by
      simp only [alloc_process, if_neg hb, created_process]
    refine ⟨_, created_process cfg s name flags junk new_pdir, h, by simp, ?_, ?_⟩
    · intro hu
      simp [created_process, hu]
    · intro hk
      simp [created_process, hk]
  · intro s process P hP
    have h : free_process cfg s process = .ok { s with
        pdir_freed :=
          if P.pdir ≠ cfg.memory_kpdir then s.pdir_freed ++ [P.pdir] else s.pdir_freed
        lists_freed := s.lists_freed ++ [process]
        freed := s.freed ++ [process]
        pheap := Function.update s.pheap process none } := by
      simp only [free_process, hP]
    refine ⟨_, h, ?_, ?_⟩
    · intro hne
      simp [hne]
    · intro heq
      simp [heq]
  · intro s calls s2 h
    exact kill_calls_pdir cfg calls s s2 h

theorem address_space_ownership_witness :
    (∃ s1 P, alloc_process ex_cfg ex_after_setup [117] 1 0x300 PROCESS_RUNNING 0xA000 =
        .ok (s1, 0x300) ∧ s1.pheap 0x300 = some P ∧
        (1 &&& ex_cfg.TASK_USER ≠ 0 → P.pdir = 0xA000) ∧
        (1 &&& ex_cfg.TASK_USER = 0 → P.pdir = ex_cfg.memory_kpdir)) ∧
    (∃ s2, free_process ex_cfg (ex_state (some 0x1000) [0x2000]) 0x200 = .ok s2 ∧
        (ex_process1.pdir ≠ ex_cfg.memory_kpdir →
          s2.pdir_freed = (ex_state (some 0x1000) [0x2000]).pdir_freed ++ [ex_process1.pdir]) ∧
        (ex_process1.pdir = ex_cfg.memory_kpdir →
          s2.pdir_freed = (ex_state (some 0x1000) [0x2000]).pdir_freed)) ∧
    ex_user_killed.pdir_freed = [0xA000] ∧
    (∃ l, ex_user_killed.pdir_freed = ex_user.pdir_freed ++ l ∧ ex_cfg.memory_kpdir ∉ l) :=
  ⟨(address_space_ownership ex_cfg).1 ex_after_setup [117] 1 0x300 PROCESS_RUNNING 0xA000
      (by decide),
    (address_space_ownership ex_cfg).2.1 (ex_state (some 0x1000) [0x2000]) 0x200 ex_process1 rfl,
    rfl,
    (address_space_ownership ex_cfg).2.2 ex_user
      [kill_call.thread 0x3000, kill_call.thread 0x1000] ex_user_killed rfl⟩

/-- C29 fails on the code: `kill_thread` takes the thread out of the thread
collection of its process only.  After `kill_thread` of thread 2, which sits
in the ready queue, its freed block is still an item of the global thread
list and of the ready queue, `thread_get(2)` reads the freed block instead of
reporting not found, and the timer interrupt that selects it faults; after
the three threads of process 1 were killed, the freed block of thread 1 is
still `running`, the freed block of process 1 is still an item of the process
list, and `process_get(1)` reads the freed block. -/
theorem kill_thread_leaves_references :
    kill_thread ex_cfg ex_rotation 0x3000 = .ok ex_killed_one ∧
      ex_killed_one.theap 0x3000 = none ∧
      ex_killed_one.pheap 0x200 = some { ex_process1 with threads := [0x2000, 0x4000] } ∧
      0x3000 ∈ ex_killed_one.threads ∧ 0x3000 ∈ ex_killed_one.waiting ∧
      thread_get ex_killed_one 2 = .error Halt.bad_deref ∧
      shedule_calls ex_cfg ex_killed_one [0x23f00, 0x13f00] = .error Halt.bad_deref ∧
      kill_threads ex_cfg ex_rotation [0x3000, 0x4000, 0x2000] = .ok ex_killed_all ∧
      ex_killed_all.theap 0x2000 = none ∧ ex_killed_all.running = some 0x2000 ∧
      ex_killed_all.pheap 0x200 = none ∧ 0x200 ∈ ex_killed_all.processes ∧
      process_get ex_killed_all 1 = .error Halt.bad_deref :=
  ⟨rfl, rfl, rfl, by decide, by decide, rfl, rfl, rfl, rfl, rfl, rfl, by decide, rfl⟩

/-! ## Page coverage of a loaded segment -/

/-- C26 fails on the code: the pages that `load_elfseg` maps are counted from
the length alone.  For the segment with `dest = 0x400FFF`, which is not
page-aligned, and `destsz = 2`, one page is mapped, the page `0x400` of
`dest`; the second byte of the range, at `0x401000`, lies in page `0x401`,
which is not made present, so `memset` faults, and `process_exec` on an image
with this segment faults with it.  The same segment at the aligned address
`0x400000` is loaded. -/
theorem load_elfseg_unaligned_not_covered :
    0x400FFF ≥ 0x100000 ∧ PAGE_ALIGN ex_cfg 2 / ex_cfg.PAGE_SIZE = 1 ∧
      page_of ex_cfg 0x400FFF = 0x400 ∧ page_of ex_cfg (0x400FFF + 1) = 0x401 ∧
      (memory_map ex_cfg ex_loader_state 0x9000 0x400FFF 1).1.mapped 0x9000 0x400 = true ∧
      (memory_map ex_cfg ex_loader_state 0x9000 0x400FFF 1).1.mapped 0x9000 0x401 = false ∧
      load_elfseg ex_cfg ex_loader_state (some 0x200) 0x300000 2 0x400FFF 2 =
        .error Halt.page_fault ∧
      process_exec ex_cfg ex_loader_state [115]
        (some { buffer := 0x300000, entry := 0x400FFF,
                programs := [{ offset := 0, filesz := 2, vaddr := 0x400FFF, memsz := 2 }] })
        0x300 PROCESS_RUNNING 0x5000 0x50000 = .error Halt.page_fault ∧
      (load_elfseg ex_cfg ex_loader_state (some 0x200) 0x300000 2 0x400000 2).toBool = true :=
  ⟨by decide, rfl, rfl, rfl, rfl, rfl, rfl, rfl, rfl⟩

/-! ## The sentinel of a failed exec -/

/-- C28 fails on the code: the value that `process_exec` returns when the
file does not open is 0, and 0 is the id of the kernel process, the first
process that `tasking_setup` creates with the counter `PID` at its initial
value 0.  In the state right after `tasking_setup`, `process_exec` on a file
that does not open returns 0 and changes nothing, and `process_get(0)` finds
the kernel process. -/
theorem exec_sentinel_is_kernel_process :
    ex_boot.PID = 0 ∧
      tasking_setup ex_cfg ex_boot 0x100 PROCESS_RUNNING 0x1000 0x10000 = .ok ex_after_setup ∧
      process_exec ex_cfg ex_after_setup [115] none 0x300 PROCESS_RUNNING 0x5000 0x50000 =
        .ok (ex_after_setup, 0) ∧
      ex_after_setup.kernel_process = 0 ∧
      process_get ex_after_setup 0 = .ok (some 0x100) ∧
      ex_after_setup.pheap 0x100 =
        some { id := 0, name := kernel_name, flags := 0, threads := [0x1000], pdir := 0x9000,
               state := PROCESS_RUNNING } :=
  ⟨rfl, rfl, rfl, rfl, rfl, rfl⟩

end Skift
